import Mathlib

/-!
# Luma3DS `source/firm.c`: boot decision, FIRM loading, patching and launch

A shallow embedding of `patchExceptionHandlersInstall`, of the boot-decision
part of `main`, and of `loadFirm`, `patchNativeFirm`, `copySection0AndInjectLoader`
and `launchFirm` from `source/firm.c`, with the properties checked against it.

Machine words are natural numbers; `u32` arithmetic is reduced modulo `2 ^ 32`
wherever the C code can wrap.  Memory is a byte-addressed map to bytes, from
offsets relative to the `arm9Section` pointer for the exception-vector patch
and from absolute addresses for the section copies.
-/

namespace Firm

/-! ## Memory -/

/-- Byte-addressed memory, offsets counted from the `arm9Section` pointer. -/
abbrev Mem := Nat → Nat

/-- Little-endian `u32` load, the `*off` of the C code at byte offset `a`
(a word boundary in an ARM9 section). -/
def read32 (m : Mem) (a : Nat) : Nat :=
  m a % 256 + 256 * (m (a + 1) % 256) + 65536 * (m (a + 2) % 256)
    + 16777216 * (m (a + 3) % 256)

/-- Little-endian `u32` store, the `*off = w` of the C code at byte offset `a`. -/
def write32 (m : Mem) (a w : Nat) : Mem := fun x =>
  if x = a then w % 256
  else if x = a + 1 then w / 256 % 256
  else if x = a + 2 then w / 65536 % 256
  else if x = a + 3 then w / 16777216 % 256
  else m x

/-- Memory holding the bytes of a list from offset 0 on, zero elsewhere. -/
def memOfList (bs : List Nat) : Mem := fun a => bs.getD a 0

/-! ## `memsearch` -/

/-- Whether the bytes of `pat` stand in memory from offset `i` on. -/
def matchAt (m : Mem) : List Nat → Nat → Bool
  | [], _ => true
  | b :: bs, i => m i % 256 == b && matchAt m bs (i + 1)

/-- Try `n` successive candidate offsets from `i` on, first match wins. -/
def memsearchFrom (m : Mem) (pat : List Nat) : Nat → Nat → Option Nat
  | 0, _ => none
  | n + 1, i => if matchAt m pat i then some i else memsearchFrom m pat n (i + 1)

/-- Modelled from the spec: `memsearch` of `memory.c`, which is not among the
sources.  Exact byte-for-byte search of `pat` in the first `size` bytes, the
offset of the first match or `none` (the C `NULL`). -/
def memsearch (m : Mem) (pat : List Nat) (size : Nat) : Option Nat :=
  if pat.length ≤ size then memsearchFrom m pat (size - pat.length + 1) 0 else none

/-! ## `patchExceptionHandlersInstall` -/

/-- The `pattern` array of `patchExceptionHandlersInstall`. -/
def pattern : List Nat :=
  [0x18, 0x10, 0x80, 0xE5,
   0x10, 0x10, 0x80, 0xE5,
   0x20, 0x10, 0x80, 0xE5,
   0x28, 0x10, 0x80, 0xE5]

/-- The word that ends the scan, `mov r1, #0x40`. -/
def movR1 : Nat := 0xE3A01040

/-- The no-op written over discarded stores. -/
def nopWord : Nat := 0xE1A00000

/-- Negation of the `continue` test of the loop: the word is
`str rX, [r0, #imm]` in one of its addressing modes. -/
def isStrR0 (w : Nat) : Bool :=
  !((w >>> 26) != 0x39 || ((w >>> 16) &&& 0xf) != 0 || ((w >>> 25) &&& 1) != 0
      || ((w >>> 20) &&& 5) != 0)

/-- The `int offset` of the loop body, as the `u32` it is added as. -/
def strOffset (w : Nat) : Nat :=
  if (w >>> 23) &&& 1 = 0 then (2 ^ 32 - (w &&& 0xfff)) % 2 ^ 32 else w &&& 0xfff

/-- The `addr` compared with the two protected slots. -/
def strAddr (w r0 : Nat) : Nat :=
  let writeback := (w >>> 21) &&& 1
  let pre := (w >>> 24) &&& 1
  (r0 + (if pre ≠ 0 ∨ writeback = 0 then strOffset w else 0)) % 2 ^ 32

/-- The word stored back over a matched store. -/
def strPatched (w r0 : Nat) : Nat :=
  let rD := (w >>> 12) &&& 0xf
  let addr := strAddr w r0
  if addr ≠ 0x08000014 ∧ addr ≠ 0x08000004 then nopWord
  else 0xE5800000 ||| (rD <<< 12) ||| (addr &&& 0xfff)

/-- The tracked `r0` after a matched store. -/
def strNextR0 (w r0 : Nat) : Nat :=
  let writeback := (w >>> 21) &&& 1
  let pre := (w >>> 24) &&& 1
  let addr := strAddr w r0
  let addr := if pre = 0 then (addr + strOffset w) % 2 ^ 32 else addr
  if writeback ≠ 0 then addr else r0

/-- The `for` loop of `patchExceptionHandlersInstall`, one iteration per unit of
fuel; `none` when the fuel runs out before `mov r1, #0x40` is read. -/
def scan : Nat → Mem → Nat → Nat → Option Mem
  | 0, _, _, _ => none
  | fuel + 1, m, off, r0 =>
    let w := read32 m off
    if w = movR1 then some m
    else if !isStrR0 w then scan fuel m (off + 4) r0
    else scan fuel (write32 m off (strPatched w r0)) (off + 4) (strNextR0 w r0)

/-- Function `patchExceptionHandlersInstall(arm9Section)`; `size` is
`section[2].size`, the result is the memory after the call. -/
def patchExceptionHandlersInstall (fuel : Nat) (m : Mem) (size : Nat) : Option Mem :=
  match memsearch m pattern size with
  | none => some m
  | some p => scan fuel m (p + pattern.length) 0x08000000

/-! ## Boot decision: the environment of `main` -/

/-- Constants and function-like macros of `buttons.h` and `config.h`, headers that
are not among the sources; `main` is parametrised by them.  `CONFIG` and
`DEVMODE` take the current value of the global `config` as first argument. -/
structure Env where
  BUTTON_R1 : Nat
  BUTTON_L1 : Nat
  BUTTON_B : Nat
  BUTTON_SELECT : Nat
  SINGLE_PAYLOAD_BUTTONS : Nat
  L_PAYLOAD_BUTTONS : Nat
  OVERRIDE_BUTTONS : Nat
  SAFE_MODE : Nat
  CONFIG : Nat → Nat → Nat
  DEVMODE : Nat → Nat

/-- Modelled from the spec: macro `BOOTCONFIG(a, b)` of `config.h`, a header that
is not among the sources; field of the global `config` at bit `a` under mask
`b`, that is `(config >> a) & b`. -/
def BOOTCONFIG (config a b : Nat) : Nat := (config >>> a) &&& b

/-- What one run of `main` reads from hardware, storage and its collaborators. -/
structure Input where
  /-- Register `PDN_MPCORE_CFG`. -/
  PDN_MPCORE_CFG : Nat
  /-- Whether `fileRead(&config, configPath)` succeeded. -/
  readOk : Bool
  /-- The global `config` after the read attempt. -/
  config : Nat
  /-- The byte at `0x23F00005`, the firmlaunch discriminant. -/
  launchByte5 : Nat
  /-- The byte at `0x23F00009`. -/
  launchByte9 : Nat
  /-- Register `HID_PAD` when first read. -/
  pad0 : Nat
  /-- Register `HID_PAD` when read again after `configureCFW`. -/
  pad1 : Nat
  /-- The global `config` as `configureCFW` leaves it, from its value before. -/
  configureCFW : Nat → Nat
  /-- Register `PDN_SPI_CNT`. -/
  PDN_SPI_CNT : Nat
  /-- Register `CFG_BOOTENV` at boot. -/
  CFG_BOOTENV : Nat
  /-- Register `PDN_GPU_CNT`. -/
  PDN_GPU_CNT : Nat
  /-- Result of `loadSplash()`. -/
  loadSplash : Bool
  /-- Whether `loadPayload(pressed)` returns to `main` (it does not when it
  chainloads a payload). -/
  loadPayload : Nat → Bool
  /-- The slot `locateEmuNAND` leaves in its third argument, from the slot
  passed in; the offset and header it also sets are not tracked. -/
  locateEmuNAND : Nat → Nat
  /-- Indeterminate initial value of the local `nandType`. -/
  nandType0 : Nat
  /-- Value of the global `firmSource` when `main` starts. -/
  firmSource0 : Nat
  /-- Indeterminate initial value of the local `newConfig`. -/
  newConfig0 : Nat

/-- Calls and accesses of `main` that the properties speak about. -/
inductive Event where
  | mountFs
  | fileRead
  | mcuReboot
  | readPad
  | configureCFW
  | chrono (n : Nat)
  | exceptionSetup
  | loadPayload (pressed : Nat)
  | loadSplash
  | locateEmuNAND (slot : Nat)
  | fileWrite (w : Nat)
  | loadFirm (firmType externalFirm : Nat)
  | patchExceptionHandlersInstall
  | patchNativeFirm (nandType a9lhMode : Nat)
  | patchSafeFirm
  | patchLegacyFirm (firmType : Nat)
  | stopChrono
  | launchFirm (firmType bootType : Nat)
  deriving DecidableEq, Repr

/-- The globals `config`, `console`, `firmSource` and the locals of `main`,
with the calls made so far. -/
structure Locals where
  config : Nat
  console : Nat
  firmSource : Nat
  bootType : Nat
  firmType : Nat
  nandType : Nat
  a9lhMode : Nat
  updatedSys : Nat
  needConfig : Nat
  newConfig : Nat
  chronoStarted : Nat
  trace : List Event
  deriving DecidableEq, Repr

/-- How a run of `main` ends. -/
inductive Outcome where
  /-- Hard reset through `mcuReboot`, which does not return. -/
  | rebooted (trace : List Event)
  /-- Call `loadPayload` chainloaded a payload and did not return. -/
  | chainloaded (l : Locals)
  /-- Call `launchFirm` was reached; `written` is the word given to `fileWrite`. -/
  | launched (l : Locals) (written : Option Nat)
  deriving DecidableEq, Repr

/-! ## Boot decision: `main` -/

/-- Line 83: `needConfig = fileRead(&config, configPath) ? 1 : 2`. -/
def needConfigInit (i : Input) : Nat := if i.readOk then 1 else 2

/-- Line 75: `console = PDN_MPCORE_CFG == 7`. -/
def consoleOf (i : Input) : Nat := if i.PDN_MPCORE_CFG = 7 then 1 else 0

/-- Lines 90 to 98, the firmlaunch branch. -/
def firmlaunch (E : Env) (i : Input) (t : List Event) : Locals :=
  let firmType :=
    if i.launchByte9 % 256 = 0x33 then 3 else (i.launchByte5 % 256 + 2 ^ 32 - 0x30) % 2 ^ 32
  let a9lhMode := BOOTCONFIG i.config 3 1
  { config := i.config
    console := consoleOf i
    bootType := 1
    firmType := firmType
    nandType := BOOTCONFIG i.config 0 3
    firmSource := BOOTCONFIG i.config 2 1
    a9lhMode := a9lhMode
    updatedSys := if a9lhMode ≠ 0 ∧ E.CONFIG i.config 1 ≠ 0 then 1 else 0
    needConfig := needConfigInit i
    newConfig := i.newConfig0
    chronoStarted := 0
    trace := t }

/-- Line 106: whether the configuration menu is loaded. -/
def menuOpened (E : Env) (i : Input) : Bool :=
  decide (needConfigInit i = 2 ∨
    ((i.pad0 &&& E.BUTTON_SELECT) ≠ 0 ∧ ¬ (i.pad0 &&& E.BUTTON_L1) ≠ 0))

/-- The local `pressed` after line 119. -/
def pressedOf (E : Env) (i : Input) : Nat := if menuOpened E i then i.pad1 else i.pad0

/-- The global `config` after line 119. -/
def configOf (E : Env) (i : Input) : Nat :=
  if menuOpened E i then i.configureCFW i.config else i.config

/-- Register `CFG_BOOTENV` after line 119 (line 111 zeroes it). -/
def bootenvOf (E : Env) (i : Input) : Nat := if menuOpened E i then 0 else i.CFG_BOOTENV

/-- Lines 103 to 125: calls made up to the exception setup. -/
def sampleTrace (E : Env) (i : Input) (t : List Event) : List Event :=
  let t := t ++ [Event.readPad]
  let t :=
    if menuOpened E i then
      t ++ [Event.configureCFW, Event.chrono 0, Event.chrono 2, Event.readPad]
    else t
  if E.DEVMODE (configOf E i) ≠ 0 then t ++ [Event.exceptionSetup] else t

/-- Lines 127 to 145: `bootType`, `firmType`, A9LH detection, `newConfig`. -/
def a9lhSetup (E : Env) (i : Input) (t : List Event) : Locals :=
  let config := configOf E i
  let a9lhBoot := i.PDN_SPI_CNT = 0
  let a9lhMode := if a9lhBoot ∨ E.CONFIG config 2 ≠ 0 then 1 else 0
  let updatedSys := if a9lhBoot ∨ E.CONFIG config 2 ≠ 0 then E.CONFIG config 1 else 0
  { config := config
    console := consoleOf i
    bootType := 0
    firmType := 0
    nandType := i.nandType0
    firmSource := i.firmSource0
    a9lhMode := a9lhMode
    updatedSys := updatedSys
    needConfig := needConfigInit i
    newConfig := a9lhMode <<< 3
    chronoStarted := if menuOpened E i then 1 else 0
    trace := sampleTrace E i t }

/-- Lines 147 to 184: forcing of the boot options under A9LH. -/
def forceBlock (E : Env) (i : Input) (l : Locals) : Locals :=
  let pressed := pressedOf E i
  if i.PDN_SPI_CNT = 0 then
    let previousFirm := bootenvOf E i
    if previousFirm ≠ 0 then
      if previousFirm = 7 then
        { l with
          nandType := 0
          firmSource := if l.updatedSys ≠ 0 then 0 else BOOTCONFIG l.config 2 1
          needConfig := l.needConfig - 1
          newConfig := l.newConfig ||| (1 <<< 4) }
      else if (pressed &&& E.OVERRIDE_BUTTONS) = 0 ∧ BOOTCONFIG l.config 4 1 = 0 then
        { l with
          nandType := BOOTCONFIG l.config 0 3
          firmSource := BOOTCONFIG l.config 2 1
          needConfig := l.needConfig - 1 }
      else l
    else if pressed = E.SAFE_MODE then
      { l with
        a9lhMode := l.a9lhMode + 1
        nandType := 0
        firmSource := 0
        needConfig := l.needConfig - 1 }
    else l
  else l

/-- Line 191: whether `loadPayload(pressed)` is called. -/
def payloadWanted (E : Env) (config pressed : Nat) : Bool :=
  decide (E.DEVMODE config ≠ 0 ∨ (pressed &&& E.SINGLE_PAYLOAD_BUTTONS) ≠ 0 ∨
    ((pressed &&& E.BUTTON_L1) ≠ 0 ∧ (pressed &&& E.L_PAYLOAD_BUTTONS) ≠ 0))

/-- Lines 201 to 218: the NAND and the FIRM source chosen from the buttons. -/
def buttonChoice (E : Env) (pressed : Nat) (l : Locals) : Locals :=
  let l :=
    if (pressed &&& E.BUTTON_R1) ≠ 0 then
      { l with
        nandType := l.updatedSys
        firmSource := if l.updatedSys = 0 then 1 else 0 }
    else
      let n := if E.CONFIG l.config 0 ≠ (if (pressed &&& E.BUTTON_L1) = 0 then 1 else 0)
        then 1 else 0
      { l with nandType := n, firmSource := n }
  if l.nandType ≠ 0 ∧
      E.CONFIG l.config 3 = (if (pressed &&& E.BUTTON_B) = 0 then 1 else 0) then
    { l with nandType := (l.nandType + 1) % 2 ^ 32 }
  else l

/-- Lines 191 and 192: the call of `loadPayload`, when one is made. -/
def payloadStep (E : Env) (pressed : Nat) (l : Locals) : Locals :=
  if payloadWanted E l.config pressed then
    { l with trace := l.trace ++ [Event.loadPayload pressed] }
  else l

/-- Lines 195 to 199: the splash screen. -/
def splashStep (E : Env) (i : Input) (l : Locals) : Locals :=
  if i.PDN_GPU_CNT ≠ 1 ∨ E.CONFIG l.config 7 ≠ 0 then
    if i.loadSplash then
      { l with
        chronoStarted := 2
        trace := l.trace ++ [Event.loadSplash, Event.chrono 0] }
    else { l with trace := l.trace ++ [Event.loadSplash] }
  else l

/-- Lines 187 to 219: the block run when the boot options are not forced; the
flag tells whether `loadPayload` took over. -/
def buttonBlock (E : Env) (i : Input) (l : Locals) : Locals × Bool :=
  let pressed := pressedOf E i
  if l.needConfig ≠ 0 then
    if payloadWanted E l.config pressed && !i.loadPayload pressed then
      (payloadStep E pressed l, true)
    else (buttonChoice E pressed (splashStep E i (payloadStep E pressed l)), false)
  else (l, false)

/-- Lines 101 to 220, the first-boot branch. -/
def firstBoot (E : Env) (i : Input) (t : List Event) : Locals × Bool :=
  buttonBlock E i (forceBlock E i (a9lhSetup E i t))

/-- Lines 222 to 231: make sure the emuNAND asked for exists. -/
def emuNANDStep (i : Input) (l : Locals) : Locals :=
  if l.nandType ≠ 0 then
    let n := i.locateEmuNAND l.nandType
    let l := { l with nandType := n, trace := l.trace ++ [Event.locateEmuNAND l.nandType] }
    if n = 0 then { l with firmSource := 0 } else l
  else if l.firmSource ≠ 0 then
    { l with
      firmSource := i.locateEmuNAND l.firmSource
      trace := l.trace ++ [Event.locateEmuNAND l.firmSource] }
  else l

/-- Lines 233 to 246: rewrite of the configuration record on a first boot. -/
def persistStep (l : Locals) : Locals × Option Nat :=
  if l.bootType = 0 then
    let newConfig := l.newConfig ||| (l.nandType ||| ((l.firmSource <<< 2) % 2 ^ 32))
    if (newConfig &&& 0x2F) ≠ (l.config &&& 0x3F) then
      let newConfig := newConfig ||| (l.config &&& 0xFFFFFFC0)
      ({ l with newConfig := newConfig, trace := l.trace ++ [Event.fileWrite newConfig] },
        some newConfig)
    else ({ l with newConfig := newConfig }, none)
  else (l, none)

/-- Lines 248 to 271: load, patch and launch the FIRM. -/
def launchFlow (l : Locals) : Locals :=
  let externalFirm :=
    if l.firmType = 0 ∧ l.updatedSys = (if l.firmSource = 0 then 1 else 0) then 1 else 0
  let patch :=
    if l.firmType = 0 then Event.patchNativeFirm l.nandType l.a9lhMode
    else if l.firmType = 3 then Event.patchSafeFirm
    else Event.patchLegacyFirm l.firmType
  let t := l.trace ++
    [Event.loadFirm l.firmType externalFirm, Event.patchExceptionHandlersInstall, patch]
  let t :=
    if l.chronoStarted ≠ 0 then
      (if l.chronoStarted = 2 then t ++ [Event.chrono 3] else t) ++ [Event.stopChrono]
    else t
  { l with trace := t ++ [Event.launchFirm l.firmType l.bootType] }

/-- Lines 222 to 271, common to both branches. -/
def finish (i : Input) (l : Locals) : Outcome :=
  let r := persistStep (emuNANDStep i l)
  Outcome.launched (launchFlow r.1) r.2

/-- Lines 78 and 83: the calls made before the firmlaunch test. -/
def bootTrace : List Event := [Event.mountFs, Event.fileRead]

/-- Function `main`. -/
def main (E : Env) (i : Input) : Outcome :=
  if i.launchByte5 % 256 ≠ 0 then
    if needConfigInit i = 2 then Outcome.rebooted (bootTrace ++ [Event.mcuReboot])
    else finish i (firmlaunch E i bootTrace)
  else
    let r := firstBoot E i bootTrace
    if r.2 then Outcome.chainloaded r.1 else finish i r.1

/-- Calls of lines 222 to 271. -/
def Event.isTail : Event → Bool
  | Event.locateEmuNAND _ => true
  | Event.fileWrite _ => true
  | Event.loadFirm _ _ => true
  | Event.patchExceptionHandlersInstall => true
  | Event.patchNativeFirm _ _ => true
  | Event.patchSafeFirm => true
  | Event.patchLegacyFirm _ => true
  | Event.chrono _ => true
  | Event.stopChrono => true
  | Event.launchFirm _ _ => true
  | _ => false

/-- Calls of lines 187 to 219. -/
def Event.isButtonBlock : Event → Bool
  | Event.loadPayload _ => true
  | Event.loadSplash => true
  | Event.chrono _ => true
  | _ => false

/-- Whether lines 156 to 164 run: A9LH boot and `CFG_BOOTENV` read as 7. -/
def forcedAfterAgb (E : Env) (i : Input) : Nat :=
  if i.PDN_SPI_CNT = 0 ∧ bootenvOf E i = 7 then 1 else 0

/-- The variables of `main` on reaching line 222, for a run that gets there. -/
def resolved (E : Env) (i : Input) : Locals :=
  if i.launchByte5 % 256 ≠ 0 then firmlaunch E i bootTrace else (firstBoot E i bootTrace).1

/-- The variables of `main` when the run ends, if it got past `mcuReboot`. -/
def Outcome.locals : Outcome → Option Locals
  | Outcome.rebooted _ => none
  | Outcome.chainloaded l => some l
  | Outcome.launched l _ => some l

/-- The word `newConfig` as `main` builds it on a first boot: `a9lhMode << 3`
(line 145), `|= 1 << 4` when the options are forced after AGB_FIRM (line 163),
`|= nandType | (firmSource << 2)` (line 235). -/
def packBootConfig (nandType firmSource a9lhMode forced : Nat) : Nat :=
  ((a9lhMode <<< 3) ||| (forced <<< 4)) ||| (nandType ||| ((firmSource <<< 2) % 2 ^ 32))

/-! ## FIRM header and section copies (`launchFirm`) -/

/-- Modelled from the spec: record `firmSectionHeader` of `firm.h`, a header that
is not among the sources; the fields of one entry of the section table that
`launchFirm` reads: byte offset in the staged image, load address and size. -/
structure firmSectionHeader where
  offset : Nat
  address : Nat
  size : Nat
  deriving DecidableEq, Repr

/-- Modelled from the spec: layout of record `firmHeader` of `firm.h`, a header
that is not among the sources: the byte offset, counted from `firm`, of each
field that `firm.c` reads, the two entry points and the three fields of entry
`k` of the table `section[4]`. -/
structure firmHeader where
  arm11Entry : Nat
  arm9Entry : Nat
  sectionOffset : Nat → Nat
  sectionAddress : Nat → Nat
  sectionSize : Nat → Nat

/-- The staging address of line 19, `firm = (firmHeader *)0x24000000`.
Addresses are natural numbers: sums of a pointer and an offset are taken to
stay within the address space. -/
def firmBase : Nat := 0x24000000

/-- The entry `section[k]` as memory `m` holds it: the header is read from the
staged image each time the code names one of its fields. -/
def sectionAt (H : firmHeader) (m : Mem) (k : Nat) : firmSectionHeader where
  offset := read32 m (firmBase + H.sectionOffset k)
  address := read32 m (firmBase + H.sectionAddress k)
  size := read32 m (firmBase + H.sectionSize k)

/-- Modelled from the spec: `memcpy(dst, src, n)` of `memory.c`, which is not
among the sources; `n` bytes read from the memory before the call, over
absolute addresses. -/
def memcpy (m : Mem) (dst src n : Nat) : Mem := fun a =>
  if dst ≤ a ∧ a < dst + n then m (src + (a - dst)) else m a

/-- Modelled from the spec: `memcpy(dst, blob, blob_size)` from a constant array
of the program, here the bytes `blob`. -/
def memcpyBlob (m : Mem) (dst : Nat) (blob : List Nat) : Mem := fun a =>
  if dst ≤ a ∧ a < dst + blob.length then blob.getD (a - dst) 0 else m a

/-- One call of `memcpy` made by `launchFirm`. -/
inductive Copy where
  | mem (dst src n : Nat)
  | blob (dst : Nat) (bytes : List Nat)
  deriving DecidableEq, Repr

/-- The memory after one call. -/
def Copy.apply (m : Mem) : Copy → Mem
  | Copy.mem dst src n => memcpy m dst src n
  | Copy.blob dst bytes => memcpyBlob m dst bytes

/-- The memory after a list of calls, in order. -/
def applyCopies (m : Mem) (cs : List Copy) : Mem := cs.foldl Copy.apply m

/-- The `n` bytes of memory from address `a` on. -/
def readBytes (m : Mem) (a n : Nat) : List Nat := (List.range n).map fun k => m (a + k)

/-- Function `copySection0AndInjectLoader`: its three calls of `memcpy` and the
memory they leave.  Local `arm11Section0` is computed once, on entry;
`section[0].address` and `section[0].size` are read again from the staged
header for each call that names them.  The array `injector` of
`build/injector.h` and the span `loaderOffset`, `loaderSize` found by
`getLoader` are parameters; `injector_size` is the length of the array. -/
def copySection0AndInjectLoader (H : firmHeader) (injector : List Nat)
    (loaderOffset loaderSize : Nat) (m : Mem) : List Copy × Mem :=
  let arm11Section0 := firmBase + (sectionAt H m 0).offset
  let c1 := Copy.mem (sectionAt H m 0).address arm11Section0 loaderOffset
  let m1 := Copy.apply m c1
  let c2 := Copy.blob ((sectionAt H m1 0).address + loaderOffset) injector
  let m2 := Copy.apply m1 c2
  let c3 := Copy.mem ((sectionAt H m2 0).address + loaderOffset + injector.length)
    (arm11Section0 + loaderOffset + loaderSize)
    (((sectionAt H m2 0).size + 2 ^ 32 - (loaderOffset + loaderSize) % 2 ^ 32) % 2 ^ 32)
  ([c1, c2, c3], Copy.apply m2 c3)

/-- The `for` loop of `launchFirm` from `sectionNum` on, one iteration per unit
of fuel: the calls of `memcpy` and the memory they leave.  Each iteration reads
`section[sectionNum]` from the memory the earlier copies left. -/
def copyLoop (H : firmHeader) : Nat → Nat → Mem → List Copy × Mem
  | 0, _, m => ([], m)
  | fuel + 1, sectionNum, m =>
    if sectionNum < 4 ∧ (sectionAt H m sectionNum).size ≠ 0 then
      let c := Copy.mem (sectionAt H m sectionNum).address
        (firmBase + (sectionAt H m sectionNum).offset) (sectionAt H m sectionNum).size
      let r := copyLoop H fuel (sectionNum + 1) (Copy.apply m c)
      (c :: r.1, r.2)
    else ([], m)

/-- What `launchFirm` has done when it jumps. -/
structure Launched where
  /-- The calls of `memcpy`, in order. -/
  copies : List Copy
  /-- The memory when the loop of line 433 is left. -/
  copied : Mem
  /-- The memory at the jump, after the store of line 446. -/
  mem : Mem
  deinitScreens : Bool
  arm11 : Nat
  arm9Entry : Nat

/-- Function `launchFirm(firmType, bootType)`, up to the jump to `arm9Entry`. -/
def launchFirm (H : firmHeader) (injector : List Nat) (loaderOffset loaderSize : Nat)
    (m : Mem) (firmType bootType : Nat) : Launched :=
  let first :=
    if firmType = 0 then copySection0AndInjectLoader H injector loaderOffset loaderSize m
    else ([], m)
  let sectionNum := if firmType = 0 then 1 else 0
  let rest := copyLoop H 4 sectionNum first.2
  let arm11 := if bootType ≠ 0 then 0x1FFFFFFC else 0x1FFFFFF8
  let mem := write32 rest.2 arm11 (read32 rest.2 (firmBase + H.arm11Entry))
  { copies := first.1 ++ rest.1
    copied := rest.2
    mem := mem
    deinitScreens := decide (bootType = 0)
    arm11 := arm11
    arm9Entry := read32 mem (firmBase + H.arm9Entry) }

/-- Byte ranges `[a, a + n)` and `[b, b + k)` have no byte in common. -/
def apart (a n b k : Nat) : Prop := n = 0 ∨ k = 0 ∨ a + n ≤ b ∨ b + k ≤ a

instance (a n b k : Nat) : Decidable (apart a n b k) := by
  unfold apart
  infer_instance

/-- The call of `memcpy` that copies a section with header entry `s`. -/
def sectionCopy (s : firmSectionHeader) : Copy :=
  Copy.mem s.address (firmBase + s.offset) s.size

/-- The calls the loop makes from `sectionNum` on when every entry it reads is
the one of table `T`. -/
def copyPlan (T : Nat → firmSectionHeader) : Nat → Nat → List Copy
  | 0, _ => []
  | fuel + 1, sectionNum =>
    if sectionNum < 4 ∧ (T sectionNum).size ≠ 0 then
      sectionCopy (T sectionNum) :: copyPlan T fuel (sectionNum + 1)
    else []

/-- The sections C12 says are copied: those from `start` on with no zero-size
section from `start` up to them. -/
def copiedSections (T : Nat → firmSectionHeader) (start : Nat) : List Nat :=
  (List.range 4).filter fun i =>
    decide (start ≤ i ∧ ∀ j, j < i + 1 → start ≤ j → (T j).size ≠ 0)

/-- Whether the copy of section `i` leaves alone what the loop reads later of
entry `j`: its size and, when that is not zero, its offset and address. -/
def entryKept (H : firmHeader) (T : Nat → firmSectionHeader) (i j : Nat) : Prop :=
  apart (T i).address (T i).size (firmBase + H.sectionSize j) 4 ∧
  ((T j).size ≠ 0 →
    apart (T i).address (T i).size (firmBase + H.sectionOffset j) 4 ∧
    apart (T i).address (T i).size (firmBase + H.sectionAddress j) 4)

/-- One admissible reading of the absent `firm.h`: the two entry points at
bytes 8 and 12, the table at byte 0x40 with entries of 0x30 bytes, each with
its offset at byte 0, its address at byte 4 and its size at byte 12. -/
def sampleLayout : firmHeader where
  arm11Entry := 8
  arm9Entry := 12
  sectionOffset := fun k => 0x40 + 0x30 * k
  sectionAddress := fun k => 0x44 + 0x30 * k
  sectionSize := fun k => 0x4C + 0x30 * k

/-- Memory `m` with entry `k` of the section table of `sampleLayout` set. -/
def setSection (m : Mem) (k offset address size : Nat) : Mem :=
  write32 (write32 (write32 m (firmBase + sampleLayout.sectionOffset k) offset)
    (firmBase + sampleLayout.sectionAddress k) address)
    (firmBase + sampleLayout.sectionSize k) size

/-! ## `patchNativeFirm` and `loadFirm` -/

/-- Calls and stores of `patchNativeFirm`, in the order they are made. -/
inductive PatchCall where
  | arm9Loader (nativeFirmType : Nat)
  | setArm9Entry (address : Nat)
  | getProcess9
  | patchSignatureChecks
  | patchTitleInstallMinVersionCheck
  | patchEmuNAND
  | patchFirmWrites
  | patchFirmlaunches
  | reimplementSvcBackdoor
  | unitInfoPatch
  | patchKernelFCRAMAndVRAMMappingPermissions
  deriving DecidableEq, Repr

/-- The array `firm90Hash` of `patchNativeFirm`. -/
def firm90Hash : List Nat :=
  [0x27, 0x2D, 0xFE, 0xEB, 0xAF, 0x3F, 0x6B, 0x3B, 0xF5, 0xDE, 0x4C, 0x41, 0xDE, 0x95, 0x27, 0x6A]

/-- Lines 315 to 342: the local `nativeFirmType`, from the global `console`, the
byte `arm9Section[0x53]` and `section[2].hash`. -/
def nativeFirmTypeOf (console byte53 : Nat) (hash : List Nat) : Nat :=
  if console ≠ 0 then
    if byte53 = 0xFF then 0
    else if byte53 = 0x31 then 2
    else 1
  else if hash.take 0x10 ≠ firm90Hash then 1 else 0

/-- Function `patchNativeFirm(nandType, emuHeader, a9lhMode)`: the calls it
makes.  The value of `DEVMODE` is the parameter `devMode`. -/
def patchNativeFirm (console byte53 : Nat) (hash : List Nat) (devMode : Nat)
    (nandType a9lhMode : Nat) : List PatchCall :=
  let nativeFirmType := nativeFirmTypeOf console byte53 hash
  (if console ≠ 0 then [PatchCall.arm9Loader nativeFirmType, PatchCall.setArm9Entry 0x801B01C]
    else []) ++
  [PatchCall.getProcess9, PatchCall.patchSignatureChecks] ++
  (if nativeFirmType = 1 then [PatchCall.patchTitleInstallMinVersionCheck] else []) ++
  (if nandType ≠ 0 then [PatchCall.patchEmuNAND]
    else if a9lhMode ≠ 0 then [PatchCall.patchFirmWrites] else []) ++
  (if nativeFirmType ≠ 0 ∨ a9lhMode = 2 then [PatchCall.patchFirmlaunches] else []) ++
  (if nativeFirmType = 1 then [PatchCall.reimplementSvcBackdoor] else []) ++
  (if nativeFirmType = 1 then [PatchCall.reimplementSvcBackdoor] else []) ++
  (if devMode ≠ 0 then
    [PatchCall.unitInfoPatch, PatchCall.patchKernelFCRAMAndVRAMMappingPermissions] else [])

/-- Calls of `loadFirm`. -/
inductive LoadCall where
  | fileRead
  | firmRead (folder : String)
  | decryptExeFs
  deriving DecidableEq, Repr

/-- The table `firmFolders` of `loadFirm`. -/
def firmFolders : List (List String) :=
  [["00000002", "20000002"],
   ["00000102", "20000102"],
   ["00000202", "20000202"],
   ["00000003", "20000003"]]

/-- The entry `firmFolders[firmType][console]`. -/
def firmFolder (firmType console : Nat) : String :=
  (firmFolders.getD firmType []).getD console ""

/-- Lines 278 to 280: the value of `externalFirmLoaded`.  The parameter
`fileAddress` is `none` when `fileRead(firm, "/luma/firmware.bin")` fails and
otherwise holds `section[2].address` of the image read. -/
def externalFirmLoaded (console externalFirm : Nat) (fileAddress : Option Nat) : Bool :=
  externalFirm ≠ 0 &&
    match fileAddress with
    | none => false
    | some address => (address >>> 8) &&& 0xFF == (if console ≠ 0 then 0x60 else 0x68)

/-- Function `loadFirm(firmType, externalFirm)`: the calls it makes. -/
def loadFirm (console firmType externalFirm : Nat) (fileAddress : Option Nat) :
    List LoadCall :=
  (if externalFirm ≠ 0 then [LoadCall.fileRead] else []) ++
  (if !externalFirmLoaded console externalFirm fileAddress then
    [LoadCall.firmRead (firmFolder firmType console), LoadCall.decryptExeFs]
  else [])

/-- The most significant byte of a 32-bit address, the high byte of C15. -/
def highByte (address : Nat) : Nat := (address >>> 24) &&& 0xFF

/-- Memory whose byte at address `a` is `a % 251`. -/
def sampleImage : Mem := fun a => a % 251

/-! ## ARM addressing -/

/-- ARM addressing, as C18 words it: the signed immediate `± imm` of a store,
added modulo `2 ^ 32`. -/
def armOffset (w : Nat) : Nat :=
  if (w >>> 23) &&& 1 ≠ 0 then w &&& 0xfff else (2 ^ 32 - (w &&& 0xfff)) % 2 ^ 32

/-- ARM addressing, as C18 words it: the address a store through `r0` writes.
Offset and pre-indexed forms (P = 1) access `r0 ± imm`, the post-indexed form
(P = 0) accesses `r0`. -/
def armStoreAddr (w r0 : Nat) : Nat :=
  if (w >>> 24) &&& 1 ≠ 0 then (r0 + armOffset w) % 2 ^ 32 else r0

/-- ARM addressing, as C18 words it: `r0` after the store.  The offset form
(P = 1, W = 0) leaves `r0`, the pre-indexed form (P = 1, W = 1) and the
post-indexed form (P = 0) set it to `r0 ± imm`. -/
def armNextR0 (w r0 : Nat) : Nat :=
  if (w >>> 24) &&& 1 ≠ 0 ∧ (w >>> 21) &&& 1 = 0 then r0 else (r0 + armOffset w) % 2 ^ 32

/-! ## Sample data -/

/-- A sample ARM9 section: four padding bytes, the idiom, `str r2, [r0, #0x14]`,
`str r2, [r0, #0x18]`, `mov r1, #0x40`. -/
def sampleSection : Mem :=
  memOfList ([0, 0, 0, 0] ++ pattern ++
    [0x14, 0x20, 0x80, 0xE5, 0x18, 0x20, 0x80, 0xE5, 0x40, 0x10, 0xA0, 0xE3])

/-- One admissible reading of the absent headers: the button masks of the
console pad register and user preference `a` kept at bit `a + 6` of `config`. -/
def sampleEnv : Env where
  BUTTON_R1 := 1 <<< 8
  BUTTON_L1 := 1 <<< 9
  BUTTON_B := 1 <<< 1
  BUTTON_SELECT := 1 <<< 2
  SINGLE_PAYLOAD_BUTTONS := 0xCF8
  L_PAYLOAD_BUTTONS := 0x105
  OVERRIDE_BUTTONS := 0xFFD
  SAFE_MODE := 0x341
  CONFIG := fun config a => (config >>> (a + 6)) &&& 1
  DEVMODE := fun _ => 0

/-- A cold boot with a configuration file holding `config`, no button held, no
A9LH strap, every emuNAND present. -/
def coldBoot (config : Nat) : Input where
  PDN_MPCORE_CFG := 0
  readOk := true
  config := config
  launchByte5 := 0
  launchByte9 := 0
  pad0 := 0
  pad1 := 0
  configureCFW := fun c => c
  PDN_SPI_CNT := 1
  CFG_BOOTENV := 0
  PDN_GPU_CNT := 1
  loadSplash := false
  loadPayload := fun _ => true
  locateEmuNAND := fun s => min s 2
  nandType0 := 0
  firmSource0 := 0
  newConfig0 := 0

/-- Final variables of `main sampleEnv (coldBoot 0xFFFFFFC0)`. -/
def userBitsRun : Locals where
  config := 0xFFFFFFC0
  console := 0
  firmSource := 0
  bootType := 0
  firmType := 0
  nandType := 0
  a9lhMode := 1
  updatedSys := 1
  needConfig := 1
  newConfig := 0xFFFFFFC8
  chronoStarted := 0
  trace := [Event.mountFs, Event.fileRead, Event.readPad, Event.loadSplash,
    Event.fileWrite 0xFFFFFFC8, Event.loadFirm 0 1, Event.patchExceptionHandlersInstall,
    Event.patchNativeFirm 0 1, Event.launchFirm 0 0]

/-- Final variables of `main` on `coldBoot 0` when no emuNAND exists. -/
def absentRun : Locals where
  config := 0
  console := 0
  firmSource := 0
  bootType := 0
  firmType := 0
  nandType := 0
  a9lhMode := 0
  updatedSys := 0
  needConfig := 1
  newConfig := 0
  chronoStarted := 0
  trace := [Event.mountFs, Event.fileRead, Event.readPad, Event.locateEmuNAND 1,
    Event.loadFirm 0 0, Event.patchExceptionHandlersInstall, Event.patchNativeFirm 0 0,
    Event.launchFirm 0 0]

/-- Final variables of `main sampleEnv (coldBoot 0x200)`. -/
def secondSlotRun : Locals where
  config := 0x200
  console := 0
  firmSource := 1
  bootType := 0
  firmType := 0
  nandType := 2
  a9lhMode := 0
  updatedSys := 0
  needConfig := 1
  newConfig := 0x206
  chronoStarted := 0
  trace := [Event.mountFs, Event.fileRead, Event.readPad, Event.locateEmuNAND 2,
    Event.fileWrite 0x206, Event.loadFirm 0 1, Event.patchExceptionHandlersInstall,
    Event.patchNativeFirm 2 0, Event.launchFirm 0 0]

/-- An ARM9 section of 16 bytes that is the idiom alone, followed in memory by
`str r2, [r0, #0x18]` and `mov r1, #0x40`. -/
def overrunSection : Mem :=
  memOfList (pattern ++ [0x18, 0x20, 0x80, 0xE5, 0x40, 0x10, 0xA0, 0xE3])

/-- An ARM9 section of 16 bytes that is the idiom alone, followed by zeroes. -/
def endlessSection : Mem := memOfList pattern

/-- An ARM9 section: the idiom, `str r1, [r0], #4` (post-indexed, P = 0 and
W = 0), `str r2, [r0, #0x10]`, `mov r1, #0x40`. -/
def postIndexedSection : Mem :=
  memOfList (pattern ++
    [0x04, 0x10, 0x80, 0xE4, 0x10, 0x20, 0x80, 0xE5, 0x40, 0x10, 0xA0, 0xE3])

/-- The failing input of C11: A9LH strap present, no configuration
file, `CFG_BOOTENV` zero, the SAFE_MODE combination held at both pad reads. -/
def safeModeNoConfig : Input :=
  { coldBoot 0 with readOk := false, PDN_SPI_CNT := 0, pad0 := 0x341, pad1 := 0x341 }

/-- Final variables of `main sampleEnv safeModeNoConfig`. -/
def safeModeNoConfigRun : Locals where
  config := 0
  console := 0
  firmSource := 1
  bootType := 0
  firmType := 0
  nandType := 0
  a9lhMode := 2
  updatedSys := 0
  needConfig := 1
  newConfig := 12
  chronoStarted := 1
  trace := [Event.mountFs, Event.fileRead, Event.readPad, Event.configureCFW, Event.chrono 0,
    Event.chrono 2, Event.readPad, Event.loadPayload 0x341, Event.locateEmuNAND 1,
    Event.fileWrite 12, Event.loadFirm 0 1, Event.patchExceptionHandlersInstall,
    Event.patchNativeFirm 0 2, Event.stopChrono, Event.launchFirm 0 0]

/-- A staged image under `sampleLayout`: sections of sizes 0x100, 0x200 and
0x40 at offsets 0x200, 0x300 and 0x500, loaded at 0x1FF00000, 0x1FF80000 and
0x08006800, and an empty fourth; the other bytes are those of `sampleImage`. -/
def sampleFirm : Mem :=
  setSection (setSection (setSection (setSection sampleImage
    0 0x200 0x1FF00000 0x100) 1 0x300 0x1FF80000 0x200) 2 0x500 0x08006800 0x40) 3 0 0 0

/-- Staged images, zero outside the header, whose section 0, of 4 bytes, is
loaded over a word of entry 1 of the table, itself of size 0x10: over its size
(at `firm + 0x7C`), its address (at `firm + 0x74`) or its offset (at
`firm + 0x70`). -/
def overwritingFirm (word : Nat) : Mem :=
  setSection (setSection (fun _ => 0) 0 0x200 (firmBase + word) 4) 1 0x300 0x1FF80000 0x10

/-- A staged image whose section 0, of 8 bytes at offset 0x200, is loaded at
`address`. -/
def spliceFirm (address : Nat) : Mem := setSection sampleImage 0 0x200 address 8

/-! ## Memory lemmas -/

theorem read32_lt (m : Mem) (a : Nat) : read32 m a < 2 ^ 32 := by
  unfold read32
  omega

theorem write32_outside (m : Mem) (a w x : Nat) (h : x < a ∨ a + 4 ≤ x) :
    write32 m a w x = m x := by
  unfold write32
  rw [if_neg (by omega), if_neg (by omega), if_neg (by omega), if_neg (by omega)]

theorem read32_write32_same (m : Mem) (a w : Nat) (hw : w < 2 ^ 32) :
    read32 (write32 m a w) a = w := by
  unfold read32 write32
  simp
  omega

theorem read32_write32_other (m : Mem) (a b w : Nat) (h : a + 4 ≤ b ∨ b + 4 ≤ a) :
    read32 (write32 m a w) b = read32 m b := by
  unfold read32
  rw [write32_outside m a w b (by omega), write32_outside m a w (b + 1) (by omega),
    write32_outside m a w (b + 2) (by omega), write32_outside m a w (b + 3) (by omega)]

/-! ## The patched word -/

theorem strPatched_cases (w r0 : Nat) :
    strPatched w r0 = nopWord ∨
      ∃ o, (o = 0x004 ∨ o = 0x014) ∧
        strPatched w r0 = 0xE5800000 ||| (((w >>> 12) &&& 0xf) <<< 12) ||| o := by
  have m14 : (0x08000014 : Nat) &&& 0xfff = 0x014 := by decide
  have m4 : (0x08000004 : Nat) &&& 0xfff = 0x004 := by decide
  unfold strPatched
  by_cases h14 : strAddr w r0 = 0x08000014
  · right
    refine ⟨0x014, Or.inr rfl, ?_⟩
    simp [h14, m14]
  · by_cases h4 : strAddr w r0 = 0x08000004
    · right
      refine ⟨0x004, Or.inl rfl, ?_⟩
      simp [h4, m4]
    · left
      simp [h14, h4]

theorem strPatched_lt (w r0 : Nat) : strPatched w r0 < 2 ^ 32 := by
  have hr : ((w >>> 12) &&& 0xf) <<< 12 < 2 ^ 32 := by
    have h1 : (w >>> 12) &&& 0xf < 2 ^ 4 := Nat.and_lt_two_pow _ (by norm_num)
    rw [Nat.shiftLeft_eq]
    calc ((w >>> 12) &&& 0xf) * 2 ^ 12 < 2 ^ 4 * 2 ^ 12 :=
          Nat.mul_lt_mul_of_pos_right h1 (by norm_num)
      _ ≤ 2 ^ 32 := by norm_num
  rcases strPatched_cases w r0 with h | ⟨o, ho, h⟩
  · rw [h]
    decide
  · rw [h]
    refine Nat.or_lt_two_pow (Nat.or_lt_two_pow (by norm_num) hr) ?_
    rcases ho with rfl | rfl <;> norm_num

theorem strPatched_ne_movR1 (w r0 : Nat) : strPatched w r0 ≠ movR1 := by
  intro h
  have hb : (strPatched w r0).testBit 25 = movR1.testBit 25 := by rw [h]
  rcases strPatched_cases w r0 with e | ⟨o, ho, e⟩
  · rw [e] at h
    exact absurd h (by decide)
  · rw [e] at hb
    simp only [Nat.testBit_or, Nat.testBit_shiftLeft, Nat.testBit_and,
      Nat.testBit_shiftRight] at hb
    have b1 : Nat.testBit 0xE5800000 25 = false := by decide
    have b2 : Nat.testBit 0xf 13 = false := by decide
    have b3 : Nat.testBit 0x004 25 = false := by decide
    have b4 : Nat.testBit 0x014 25 = false := by decide
    have b5 : Nat.testBit movR1 25 = true := by decide
    rcases ho with rfl | rfl <;> simp [b1, b2, b3, b4, b5] at hb

/-! ## The scan -/

theorem scan_frame (fuel : Nat) : ∀ (m : Mem) (off r0 : Nat) (m' : Mem),
    scan fuel m off r0 = some m' → ∀ x, x < off → m' x = m x := by
  induction fuel with
  | zero =>
    intro m off r0 m' h
    simp [scan] at h
  | succ n ih =>
    intro m off r0 m' h x hx
    rw [scan] at h
    by_cases hw : read32 m off = movR1
    · simp only [hw, if_true] at h
      cases h
      rfl
    · by_cases hs : isStrR0 (read32 m off) = true
      · simp only [hw, hs, if_false, Bool.not_true] at h
        rw [ih _ _ _ _ h x (by omega), write32_outside _ _ _ _ (Or.inl hx)]
      · simp only [Bool.not_eq_true] at hs
        simp only [hw, hs, if_false, Bool.not_false, if_true] at h
        exact ih _ _ _ _ h x (by omega)

theorem read32_congr (m m' : Mem) (a : Nat) (h : ∀ x, x < a + 4 → m' x = m x) :
    read32 m' a = read32 m a := by
  unfold read32
  rw [h a (by omega), h (a + 1) (by omega), h (a + 2) (by omega), h (a + 3) (by omega)]

/-- The no-op is not a store the loop matches. -/
theorem isStrR0_nopWord : isStrR0 nopWord = false := by decide

/-- When `mov r1, #0x40` is first read `k` words after `off`, the scan returns;
every matched store of the window holds the word the loop body wrote and every
other word of the window is unchanged. -/
theorem scan_window (k : Nat) : ∀ (fuel : Nat) (m : Mem) (off r0 : Nat), k < fuel →
    read32 m (off + 4 * k) = movR1 →
    (∀ j, j < k → read32 m (off + 4 * j) ≠ movR1) →
    ∃ m', scan fuel m off r0 = some m' ∧
      ∀ j, j < k →
        (isStrR0 (read32 m (off + 4 * j)) = true →
          ∃ r, read32 m' (off + 4 * j) = strPatched (read32 m (off + 4 * j)) r) ∧
        (isStrR0 (read32 m (off + 4 * j)) = false →
          read32 m' (off + 4 * j) = read32 m (off + 4 * j)) := by
  induction k with
  | zero =>
    intro fuel m off r0 hf hend _
    obtain ⟨n, rfl⟩ : ∃ n, fuel = n + 1 := ⟨fuel - 1, by omega⟩
    refine ⟨m, ?_, fun j hj => absurd hj (by omega)⟩
    rw [scan]
    simp only [Nat.mul_zero, Nat.add_zero] at hend
    simp [hend]
  | succ k ih =>
    intro fuel m off r0 hf hend hfirst
    obtain ⟨n, rfl⟩ : ∃ n, fuel = n + 1 := ⟨fuel - 1, by omega⟩
    have h0 : read32 m off ≠ movR1 := by
      have := hfirst 0 (by omega)
      simpa using this
    have eqk : ∀ j, off + 4 + 4 * j = off + 4 * (j + 1) := fun j => by omega
    rw [scan]
    by_cases hs : isStrR0 (read32 m off) = true
    · have hother : ∀ j, read32 (write32 m off (strPatched (read32 m off) r0))
          (off + 4 + 4 * j) = read32 m (off + 4 + 4 * j) :=
        fun j => read32_write32_other _ _ _ _ (by omega)
      obtain ⟨m', hm', hgood⟩ := ih n (write32 m off (strPatched (read32 m off) r0))
        (off + 4) (strNextR0 (read32 m off) r0) (by omega)
        (by rw [hother, eqk]; exact hend)
        (fun j hj => by rw [hother, eqk]; exact hfirst (j + 1) (by omega))
      refine ⟨m', ?_, ?_⟩
      · simp only [h0, hs, if_false, Bool.not_true]
        exact hm'
      · intro j hj
        cases j with
        | zero =>
          simp only [Nat.mul_zero, Nat.add_zero]
          refine ⟨fun _ => ⟨r0, ?_⟩, fun hn => ?_⟩
          · rw [read32_congr (write32 m off (strPatched (read32 m off) r0)) m' off
                (fun x hx => scan_frame n _ _ _ _ hm' x hx),
              read32_write32_same _ _ _ (strPatched_lt _ _)]
          · rw [hs] at hn
            exact absurd hn (by decide)
        | succ j =>
          rw [← eqk]
          have hg := hgood j (by omega)
          rw [hother] at hg
          exact hg
    · simp only [Bool.not_eq_true] at hs
      obtain ⟨m', hm', hgood⟩ := ih n m (off + 4) r0 (by omega)
        (by rw [eqk]; exact hend)
        (fun j hj => by rw [eqk]; exact hfirst (j + 1) (by omega))
      refine ⟨m', ?_, ?_⟩
      · simp only [h0, hs, if_false, Bool.not_false, if_true]
        exact hm'
      · intro j hj
        cases j with
        | zero =>
          simp only [Nat.mul_zero, Nat.add_zero]
          refine ⟨fun hstr => ?_, fun _ => ?_⟩
          · rw [hs] at hstr
            exact absurd hstr (by decide)
          · exact read32_congr m m' off (fun x hx => scan_frame n _ _ _ _ hm' x hx)
        | succ j =>
          rw [← eqk]
          exact hgood j (by omega)

theorem write32_byte_lt (m : Mem) (a w x : Nat) (hx : x < 4) : write32 m a w (a + x) < 256 := by
  unfold write32
  have h : x = 0 ∨ x = 1 ∨ x = 2 ∨ x = 3 := by omega
  rcases h with rfl | rfl | rfl | rfl
  · simp
    omega
  · simp
    omega
  · simp
    omega
  · simp
    omega

/-- Byte-level account of a scan that ends `k` words after `off`: nothing is
written outside the `k` words of the window, the words that are not matched
stores keep their bytes, and the bytes of the matched stores are bytes. -/
theorem scan_bytes (k : Nat) : ∀ (fuel : Nat) (m : Mem) (off r0 : Nat) (m' : Mem), k < fuel →
    read32 m (off + 4 * k) = movR1 →
    (∀ j, j < k → read32 m (off + 4 * j) ≠ movR1) →
    scan fuel m off r0 = some m' →
    (∀ a, a < off ∨ off + 4 * k ≤ a → m' a = m a) ∧
    (∀ j, j < k → isStrR0 (read32 m (off + 4 * j)) = false →
      ∀ x, x < 4 → m' (off + 4 * j + x) = m (off + 4 * j + x)) ∧
    (∀ j, j < k → isStrR0 (read32 m (off + 4 * j)) = true →
      ∀ x, x < 4 → m' (off + 4 * j + x) < 256) := by
  induction k with
  | zero =>
    intro fuel m off r0 m' hf hend _ hs
    obtain ⟨n, rfl⟩ : ∃ n, fuel = n + 1 := ⟨fuel - 1, by omega⟩
    rw [scan] at hs
    simp only [Nat.mul_zero, Nat.add_zero] at hend
    simp only [hend, if_true, Option.some.injEq] at hs
    subst hs
    exact ⟨fun _ _ => rfl, fun j hj => absurd hj (by omega), fun j hj => absurd hj (by omega)⟩
  | succ k ih =>
    intro fuel m off r0 m' hf hend hfirst hs
    obtain ⟨n, rfl⟩ : ∃ n, fuel = n + 1 := ⟨fuel - 1, by omega⟩
    have h0 : read32 m off ≠ movR1 := by
      have := hfirst 0 (by omega)
      simpa using this
    have eqk : ∀ j, off + 4 + 4 * j = off + 4 * (j + 1) := fun j => by omega
    rw [scan] at hs
    by_cases hst : isStrR0 (read32 m off) = true
    · simp only [h0, hst, if_false, Bool.not_true] at hs
      have hother : ∀ j, read32 (write32 m off (strPatched (read32 m off) r0))
          (off + 4 + 4 * j) = read32 m (off + 4 + 4 * j) :=
        fun j => read32_write32_other _ _ _ _ (by omega)
      obtain ⟨hfr, hns, hsb⟩ := ih n _ (off + 4) _ m' (by omega)
        (by rw [hother, eqk]; exact hend)
        (fun j hj => by rw [hother, eqk]; exact hfirst (j + 1) (by omega)) hs
      refine ⟨?_, ?_, ?_⟩
      · intro a ha
        rw [hfr a (by omega), write32_outside _ _ _ _ (by omega)]
      · intro j hj hn x hx
        cases j with
        | zero =>
          simp only [Nat.mul_zero, Nat.add_zero] at hn
          rw [hst] at hn
          exact absurd hn (by decide)
        | succ j =>
          rw [← eqk] at hn ⊢
          rw [hns j (by omega) (by rw [hother]; exact hn) x hx,
            write32_outside _ _ _ _ (by omega)]
      · intro j hj hn x hx
        cases j with
        | zero =>
          simp only [Nat.mul_zero, Nat.add_zero]
          rw [hfr (off + x) (by omega)]
          exact write32_byte_lt _ _ _ _ hx
        | succ j =>
          rw [← eqk] at hn ⊢
          exact hsb j (by omega) (by rw [hother]; exact hn) x hx
    · simp only [Bool.not_eq_true] at hst
      simp only [h0, hst, if_false, Bool.not_false, if_true] at hs
      obtain ⟨hfr, hns, hsb⟩ := ih n m (off + 4) r0 m' (by omega)
        (by rw [eqk]; exact hend)
        (fun j hj => by rw [eqk]; exact hfirst (j + 1) (by omega)) hs
      refine ⟨?_, ?_, ?_⟩
      · intro a ha
        exact hfr a (by omega)
      · intro j hj hn x hx
        cases j with
        | zero =>
          simp only [Nat.mul_zero, Nat.add_zero]
          exact hfr (off + x) (by omega)
        | succ j =>
          rw [← eqk] at hn ⊢
          exact hns j (by omega) hn x hx
      · intro j hj hn x hx
        cases j with
        | zero =>
          simp only [Nat.mul_zero, Nat.add_zero] at hn
          rw [hst] at hn
          exact absurd hn (by decide)
        | succ j =>
          rw [← eqk] at hn ⊢
          exact hsb j (by omega) hn x hx

/-- With no `mov r1, #0x40` among the first `fuel` words, the fuel runs out. -/
theorem scan_short (fuel : Nat) : ∀ (m : Mem) (off r0 : Nat),
    (∀ j, j < fuel → read32 m (off + 4 * j) ≠ movR1) → scan fuel m off r0 = none := by
  induction fuel with
  | zero =>
    intro m off r0 _
    rfl
  | succ n ih =>
    intro m off r0 h
    have h0 : read32 m off ≠ movR1 := by
      have := h 0 (by omega)
      simpa using this
    have eqk : ∀ j, off + 4 + 4 * j = off + 4 * (j + 1) := fun j => by omega
    rw [scan]
    by_cases hst : isStrR0 (read32 m off) = true
    · simp only [h0, hst, if_false, Bool.not_true]
      apply ih
      intro j hj
      rw [read32_write32_other _ _ _ _ (by omega), eqk]
      exact h (j + 1) (by omega)
    · simp only [Bool.not_eq_true] at hst
      simp only [h0, hst, if_false, Bool.not_false, if_true]
      apply ih
      intro j hj
      rw [eqk]
      exact h (j + 1) (by omega)

theorem matchAt_congr (m m' : Mem) : ∀ (pat : List Nat) (i : Nat),
    (∀ a, i ≤ a → a < i + pat.length → m' a = m a) → matchAt m' pat i = matchAt m pat i := by
  intro pat
  induction pat with
  | nil =>
    intro i _
    rfl
  | cons b bs ih =>
    intro i h
    simp only [matchAt]
    rw [h i (Nat.le_refl i) (by simp), ih (i + 1) (fun a h1 h2 => h a (by omega)
      (by simp only [List.length_cons]; omega))]

theorem memsearchFrom_congr (m m' : Mem) (pat : List Nat) : ∀ (n i p : Nat),
    memsearchFrom m pat n i = some p → (∀ a, a < p + pat.length → m' a = m a) →
    memsearchFrom m' pat n i = some p ∧ i ≤ p := by
  intro n
  induction n with
  | zero =>
    intro i p h _
    simp [memsearchFrom] at h
  | succ n ih =>
    intro i p h hm
    rw [memsearchFrom] at h ⊢
    by_cases hi : matchAt m pat i = true
    · simp only [hi, if_true, Option.some.injEq] at h
      subst h
      rw [matchAt_congr m m' pat i (fun a _ h2 => hm a h2), hi]
      simp
    · simp only [hi] at h
      obtain ⟨h1, h2⟩ := ih (i + 1) p h hm
      rw [matchAt_congr m m' pat i (fun a _ h3 => hm a (by omega))]
      simp only [hi]
      exact ⟨h1, by omega⟩

/-- The search result depends only on the bytes up to the end of the match. -/
theorem memsearch_congr (m m' : Mem) (pat : List Nat) (size p : Nat)
    (h : memsearch m pat size = some p) (hm : ∀ a, a < p + pat.length → m' a = m a) :
    memsearch m' pat size = some p := by
  unfold memsearch at h ⊢
  split_ifs at h ⊢ with hs
  exact (memsearchFrom_congr m m' pat _ 0 p h hm).1

/-- A kept store is kept as it is when `r0` is `0x08000000`. -/
theorem strPatched_kept_fixed : ∀ rD, rD < 16 → ∀ o, o < 2 →
    isStrR0 (0xE5800000 ||| (rD <<< 12) ||| (4 + 16 * o)) = true ∧
    strPatched (0xE5800000 ||| (rD <<< 12) ||| (4 + 16 * o)) 0x08000000 =
      0xE5800000 ||| (rD <<< 12) ||| (4 + 16 * o) ∧
    strNextR0 (0xE5800000 ||| (rD <<< 12) ||| (4 + 16 * o)) 0x08000000 = 0x08000000 := by
  decide

/-- What the loop does to a word it wrote itself, with `r0 = 0x08000000`. -/
theorem strPatched_idem (w r : Nat) (h : isStrR0 (strPatched w r) = true) :
    strPatched (strPatched w r) 0x08000000 = strPatched w r ∧
    strNextR0 (strPatched w r) 0x08000000 = 0x08000000 := by
  rcases strPatched_cases w r with e | ⟨o, ho, e⟩
  · rw [e] at h
    exact absurd h (by decide)
  · have hr : (w >>> 12) &&& 0xf < 16 := Nat.and_lt_two_pow _ (by norm_num : 0xf < 2 ^ 4)
    rw [e]
    rcases ho with rfl | rfl
    · exact (strPatched_kept_fixed _ hr 0 (by decide)).2
    · exact (strPatched_kept_fixed _ hr 1 (by decide)).2

theorem write32_self (m : Mem) (a : Nat) (h : ∀ x, x < 4 → m (a + x) < 256) :
    write32 m a (read32 m a) = m := by
  funext y
  unfold write32 read32
  have h0 := h 0 (by omega)
  have h1 := h 1 (by omega)
  have h2 := h 2 (by omega)
  have h3 := h 3 (by omega)
  simp only [Nat.add_zero] at h0
  split_ifs with e0 e1 e2 e3
  · subst e0
    omega
  · subst e1
    omega
  · subst e2
    omega
  · subst e3
    omega
  · rfl

/-- A window whose matched stores are all fixed by the loop body is left as it
is by the scan. -/
theorem scan_fixed (k : Nat) : ∀ (fuel : Nat) (m : Mem) (off : Nat), k < fuel →
    read32 m (off + 4 * k) = movR1 →
    (∀ j, j < k → read32 m (off + 4 * j) ≠ movR1) →
    (∀ j, j < k → isStrR0 (read32 m (off + 4 * j)) = true →
      strPatched (read32 m (off + 4 * j)) 0x08000000 = read32 m (off + 4 * j) ∧
      strNextR0 (read32 m (off + 4 * j)) 0x08000000 = 0x08000000 ∧
      ∀ x, x < 4 → m (off + 4 * j + x) < 256) →
    scan fuel m off 0x08000000 = some m := by
  induction k with
  | zero =>
    intro fuel m off hf hend _ _
    obtain ⟨n, rfl⟩ : ∃ n, fuel = n + 1 := ⟨fuel - 1, by omega⟩
    rw [scan]
    simp only [Nat.mul_zero, Nat.add_zero] at hend
    simp [hend]
  | succ k ih =>
    intro fuel m off hf hend hfirst hfix
    obtain ⟨n, rfl⟩ : ∃ n, fuel = n + 1 := ⟨fuel - 1, by omega⟩
    have h0 : read32 m off ≠ movR1 := by
      have := hfirst 0 (by omega)
      simpa using this
    have eqk : ∀ j, off + 4 + 4 * j = off + 4 * (j + 1) := fun j => by omega
    have hrest : scan n m (off + 4) 0x08000000 = some m :=
      ih n m (off + 4) (by omega) (by rw [eqk]; exact hend)
        (fun j hj => by rw [eqk]; exact hfirst (j + 1) (by omega))
        (fun j hj => by rw [eqk]; exact hfix (j + 1) (by omega))
    rw [scan]
    by_cases hst : isStrR0 (read32 m off) = true
    · have h := hfix 0 (by omega)
      simp only [Nat.mul_zero, Nat.add_zero] at h
      obtain ⟨h1, h2, h3⟩ := h hst
      simp only [h0, hst, if_false, Bool.not_true]
      rw [h1, h2, write32_self m off h3]
      exact hrest
    · simp only [Bool.not_eq_true] at hst
      simp only [h0, hst, if_false, Bool.not_false, if_true]
      exact hrest

theorem read32_ext (m m' : Mem) (a : Nat) (h : ∀ x, x < 4 → m' (a + x) = m (a + x)) :
    read32 m' a = read32 m a := by
  unfold read32
  have h0 := h 0 (by omega)
  simp only [Nat.add_zero] at h0
  rw [h0, h 1 (by omega), h 2 (by omega), h 3 (by omega)]

/-- The tracking of the loop agrees with ARM addressing on every matched store
but the post-indexed one with the W bit clear. -/
theorem strAddr_agrees (w r0 : Nat) (hr : r0 < 2 ^ 32)
    (h : (w >>> 24) &&& 1 ≠ 0 ∨ (w >>> 21) &&& 1 ≠ 0) :
    strAddr w r0 = armStoreAddr w r0 ∧ strNextR0 w r0 = armNextR0 w r0 := by
  have ho : strOffset w = armOffset w := by
    unfold strOffset armOffset
    split_ifs <;> simp_all
  unfold strNextR0 strAddr armStoreAddr armNextR0
  simp only [ho]
  generalize (w >>> 24) &&& 1 = P at h ⊢
  generalize (w >>> 21) &&& 1 = W at h ⊢
  generalize armOffset w = o
  by_cases hp : P = 0
  · have hw : W ≠ 0 := by
      rcases h with h | h
      · exact absurd hp h
      · exact h
    simp [hp, hw]
    exact hr
  · by_cases hw : W = 0
    · simp [hp, hw]
    · simp [hp, hw]

/-! ## Lemmas on the blocks of `main` -/

theorem BOOTCONFIG_le (c a b : Nat) : BOOTCONFIG c a b ≤ b := Nat.and_le_right

/-- The forcing block leaves everything but the decision fields alone. -/
theorem forceBlock_frame (E : Env) (i : Input) (l : Locals) :
    (forceBlock E i l).config = l.config ∧ (forceBlock E i l).bootType = l.bootType ∧
    (forceBlock E i l).firmType = l.firmType ∧ (forceBlock E i l).trace = l.trace ∧
    (forceBlock E i l).updatedSys = l.updatedSys ∧
    (forceBlock E i l).chronoStarted = l.chronoStarted ∧
    (forceBlock E i l).console = l.console := by
  unfold forceBlock
  simp only []
  split_ifs <;> simp

theorem forceBlock_cases (E : Env) (i : Input) (l : Locals) :
    forceBlock E i l = l ∨
    ((forceBlock E i l).needConfig = l.needConfig - 1 ∧
      (forceBlock E i l).firmSource ≤ 1 ∧ (forceBlock E i l).nandType ≤ 3) := by
  unfold forceBlock
  simp only []
  have h2 := BOOTCONFIG_le l.config 2 1
  have h0 := BOOTCONFIG_le l.config 0 3
  split_ifs <;> simp [h2, h0]

theorem forceBlock_newConfig (E : Env) (i : Input) (l : Locals) :
    (forceBlock E i l).newConfig = l.newConfig ∨
      (forceBlock E i l).newConfig = l.newConfig ||| (1 <<< 4) := by
  unfold forceBlock
  simp only []
  split_ifs <;> simp


theorem buttonChoice_frame (E : Env) (p : Nat) (l : Locals) :
    (buttonChoice E p l).config = l.config ∧ (buttonChoice E p l).bootType = l.bootType ∧
    (buttonChoice E p l).firmType = l.firmType ∧ (buttonChoice E p l).trace = l.trace ∧
    (buttonChoice E p l).newConfig = l.newConfig ∧
    (buttonChoice E p l).needConfig = l.needConfig ∧
    (buttonChoice E p l).a9lhMode = l.a9lhMode ∧
    (buttonChoice E p l).updatedSys = l.updatedSys ∧
    (buttonChoice E p l).firmSource ≤ 1 := by
  unfold buttonChoice
  simp only []
  split_ifs <;> simp

theorem payloadStep_frame (E : Env) (p : Nat) (l : Locals) :
    (payloadStep E p l).config = l.config ∧ (payloadStep E p l).bootType = l.bootType ∧
    (payloadStep E p l).firmType = l.firmType ∧
    (payloadStep E p l).newConfig = l.newConfig ∧
    (payloadStep E p l).needConfig = l.needConfig ∧
    (payloadStep E p l).a9lhMode = l.a9lhMode ∧
    (payloadStep E p l).updatedSys = l.updatedSys := by
  unfold payloadStep
  split_ifs <;> simp

theorem splashStep_frame (E : Env) (i : Input) (l : Locals) :
    (splashStep E i l).config = l.config ∧ (splashStep E i l).bootType = l.bootType ∧
    (splashStep E i l).firmType = l.firmType ∧
    (splashStep E i l).newConfig = l.newConfig ∧
    (splashStep E i l).needConfig = l.needConfig ∧
    (splashStep E i l).a9lhMode = l.a9lhMode ∧
    (splashStep E i l).updatedSys = l.updatedSys := by
  unfold splashStep
  split_ifs <;> simp

theorem buttonBlock_frame (E : Env) (i : Input) (l : Locals) :
    (buttonBlock E i l).1.config = l.config ∧ (buttonBlock E i l).1.bootType = l.bootType ∧
    (buttonBlock E i l).1.firmType = l.firmType ∧
    (buttonBlock E i l).1.newConfig = l.newConfig ∧
    (buttonBlock E i l).1.needConfig = l.needConfig ∧
    (buttonBlock E i l).1.a9lhMode = l.a9lhMode ∧
    (buttonBlock E i l).1.updatedSys = l.updatedSys := by
  have hp := payloadStep_frame E (pressedOf E i) l
  have hs := splashStep_frame E i (payloadStep E (pressedOf E i) l)
  have hc := buttonChoice_frame E (pressedOf E i)
    (splashStep E i (payloadStep E (pressedOf E i) l))
  unfold buttonBlock
  simp only []
  split_ifs
  · exact hp
  · simp only [hc.1, hc.2.1, hc.2.2.1, hc.2.2.2.2.1, hc.2.2.2.2.2.1, hc.2.2.2.2.2.2.1,
      hc.2.2.2.2.2.2.2.1, hs.1, hs.2.1, hs.2.2.1, hs.2.2.2.1, hs.2.2.2.2.1, hs.2.2.2.2.2.1,
      hs.2.2.2.2.2.2]
    exact hp
  · simp

theorem buttonBlock_firmSource (E : Env) (i : Input) (l : Locals)
    (h : (buttonBlock E i l).2 = false) :
    (l.needConfig = 0 ∧ (buttonBlock E i l).1 = l) ∨
      (l.needConfig ≠ 0 ∧ (buttonBlock E i l).1.firmSource ≤ 1) := by
  unfold buttonBlock at h ⊢
  simp only [] at h ⊢
  split_ifs at h ⊢ with h1 h2
  · right
    exact ⟨h1, (buttonChoice_frame E _ _).2.2.2.2.2.2.2.2⟩
  · left
    simp only [ne_eq, not_not] at h1
    exact ⟨h1, rfl⟩

theorem needConfigInit_pos (i : Input) : needConfigInit i = 1 ∨ needConfigInit i = 2 := by
  unfold needConfigInit
  split_ifs <;> simp

theorem a9lhSetup_newConfig (E : Env) (i : Input) (t : List Event) :
    (a9lhSetup E i t).newConfig = 0 ∨ (a9lhSetup E i t).newConfig = 8 := by
  unfold a9lhSetup
  simp only []
  split_ifs <;> simp

/-- After the first-boot branch, when `loadPayload` did not take over: the FIRM
source is 0 or 1 and `newConfig` carries at most bits 3 and 4. -/
theorem firstBoot_summary (E : Env) (i : Input) (t : List Event)
    (h : (firstBoot E i t).2 = false) :
    (firstBoot E i t).1.firmSource ≤ 1 ∧ (firstBoot E i t).1.newConfig < 32 ∧
    (firstBoot E i t).1.config = configOf E i ∧ (firstBoot E i t).1.bootType = 0 ∧
    (firstBoot E i t).1.firmType = 0 := by
  unfold firstBoot at h ⊢
  have hb := buttonBlock_frame E i (forceBlock E i (a9lhSetup E i t))
  have hf := forceBlock_frame E i (a9lhSetup E i t)
  have hsrc := buttonBlock_firmSource E i (forceBlock E i (a9lhSetup E i t)) h
  have hc := forceBlock_cases E i (a9lhSetup E i t)
  have hn := forceBlock_newConfig E i (a9lhSetup E i t)
  have h0 := a9lhSetup_newConfig E i t
  have hi := needConfigInit_pos i
  have hcfg : (a9lhSetup E i t).config = configOf E i := rfl
  have hbt : (a9lhSetup E i t).bootType = 0 := rfl
  have hft : (a9lhSetup E i t).firmType = 0 := rfl
  have hnc : (a9lhSetup E i t).needConfig = needConfigInit i := rfl
  refine ⟨?_, ?_, ?_, ?_, ?_⟩
  · rcases hsrc with ⟨hz, he⟩ | ⟨_, hle⟩
    · rw [he]
      rcases hc with hc | ⟨_, hle, _⟩
      · rw [hc, hnc] at hz
        omega
      · exact hle
    · exact hle
  · rw [hb.2.2.2.1]
    rcases hn with hn | hn <;> rcases h0 with h0 | h0 <;> rw [hn, h0] <;> decide
  · rw [hb.1, hf.1, hcfg]
  · rw [hb.2.1, hf.2.1, hbt]
  · rw [hb.2.2.1, hf.2.2.1, hft]

theorem emuNANDStep_frame (i : Input) (l : Locals) :
    (emuNANDStep i l).config = l.config ∧ (emuNANDStep i l).bootType = l.bootType ∧
    (emuNANDStep i l).firmType = l.firmType ∧ (emuNANDStep i l).newConfig = l.newConfig ∧
    (emuNANDStep i l).needConfig = l.needConfig ∧
    (emuNANDStep i l).a9lhMode = l.a9lhMode ∧
    (emuNANDStep i l).updatedSys = l.updatedSys := by
  unfold emuNANDStep
  simp only []
  split_ifs <;> simp

theorem emuNANDStep_le (i : Input) (l : Locals) (hloc : ∀ s, i.locateEmuNAND s ≤ 3)
    (hs : l.firmSource ≤ 1) :
    (emuNANDStep i l).nandType ≤ 3 ∧ (emuNANDStep i l).firmSource ≤ 3 := by
  unfold emuNANDStep
  simp only []
  have h1 := hloc l.nandType
  have h2 := hloc l.firmSource
  split_ifs <;> (try simp) <;> omega

theorem launchFlow_frame (l : Locals) :
    (launchFlow l).config = l.config ∧ (launchFlow l).bootType = l.bootType ∧
    (launchFlow l).firmType = l.firmType ∧ (launchFlow l).newConfig = l.newConfig ∧
    (launchFlow l).needConfig = l.needConfig ∧ (launchFlow l).a9lhMode = l.a9lhMode ∧
    (launchFlow l).updatedSys = l.updatedSys ∧ (launchFlow l).nandType = l.nandType ∧
    (launchFlow l).firmSource = l.firmSource := by
  simp [launchFlow]

theorem persistStep_frame (l : Locals) :
    (persistStep l).1.config = l.config ∧ (persistStep l).1.bootType = l.bootType ∧
    (persistStep l).1.firmType = l.firmType ∧ (persistStep l).1.needConfig = l.needConfig ∧
    (persistStep l).1.a9lhMode = l.a9lhMode ∧
    (persistStep l).1.updatedSys = l.updatedSys ∧ (persistStep l).1.nandType = l.nandType ∧
    (persistStep l).1.firmSource = l.firmSource := by
  unfold persistStep
  simp only []
  split_ifs <;> simp

/-- The word of line 235, `newConfig | nandType | (firmSource << 2)`. -/
theorem persistStep_written (l : Locals) (w : Nat) (h : (persistStep l).2 = some w) :
    l.bootType = 0 ∧
    w = (l.newConfig ||| (l.nandType ||| ((l.firmSource <<< 2) % 2 ^ 32))) |||
      (l.config &&& 0xFFFFFFC0) := by
  unfold persistStep at h
  simp only [] at h
  split_ifs at h with h1 h2
  simp at h
  exact ⟨h1, h.symm⟩


/-- A run that reaches `launchFirm` came through one of the two branches. -/
theorem main_launched (E : Env) (i : Input) (l : Locals) (w : Option Nat)
    (h : main E i = Outcome.launched l w) :
    (i.launchByte5 % 256 ≠ 0 ∧ i.readOk = true ∧
      l = launchFlow (persistStep (emuNANDStep i (firmlaunch E i bootTrace))).1 ∧
      w = (persistStep (emuNANDStep i (firmlaunch E i bootTrace))).2) ∨
    (i.launchByte5 % 256 = 0 ∧ (firstBoot E i bootTrace).2 = false ∧
      l = launchFlow (persistStep (emuNANDStep i (firstBoot E i bootTrace).1)).1 ∧
      w = (persistStep (emuNANDStep i (firstBoot E i bootTrace).1)).2) := by
  unfold main at h
  by_cases hb : i.launchByte5 % 256 ≠ 0
  · left
    rw [if_pos hb] at h
    by_cases hn : needConfigInit i = 2
    · rw [if_pos hn] at h
      cases h
    · rw [if_neg hn] at h
      unfold finish at h
      injection h with h1 h2
      refine ⟨hb, ?_, h1.symm, h2.symm⟩
      unfold needConfigInit at hn
      cases hr : i.readOk
      · simp [hr] at hn
      · rfl
  · right
    rw [if_neg hb] at h
    simp only [ne_eq, not_not] at hb
    dsimp only at h
    cases hp : (firstBoot E i bootTrace).2
    · rw [hp] at h
      simp only [Bool.false_eq_true, if_false] at h
      unfold finish at h
      injection h with h1 h2
      exact ⟨hb, rfl, h1.symm, h2.symm⟩
    · rw [hp] at h
      simp only [if_true] at h
      cases h

theorem mask_testBit (b : Nat) (h6 : 6 ≤ b) (h32 : b < 32) :
    Nat.testBit 0xFFFFFFC0 b = true := by
  interval_cases b <;> decide

theorem forceBlock_newConfig_eq (E : Env) (i : Input) (l : Locals) :
    (forceBlock E i l).newConfig = l.newConfig ||| (forcedAfterAgb E i <<< 4) := by
  unfold forceBlock forcedAfterAgb
  simp only []
  split_ifs <;> simp_all

theorem persistStep_newConfig (l : Locals) (hb : l.bootType = 0) :
    ((persistStep l).2 = none →
      (persistStep l).1.newConfig =
        l.newConfig ||| (l.nandType ||| ((l.firmSource <<< 2) % 2 ^ 32))) ∧
    (∀ x, (persistStep l).2 = some x →
      (persistStep l).1.newConfig = x ∧
      x = (l.newConfig ||| (l.nandType ||| ((l.firmSource <<< 2) % 2 ^ 32))) |||
        (l.config &&& 0xFFFFFFC0)) ∧
    ((persistStep l).2 = none ↔
      (l.newConfig ||| (l.nandType ||| ((l.firmSource <<< 2) % 2 ^ 32))) &&& 0x2F =
        l.config &&& 0x3F) := by
  unfold persistStep
  simp only [hb, if_true]
  split_ifs with h
  · simp
    exact h
  · simp only [ne_eq, not_not] at h
    simp
    exact h

/-- On a first boot that reaches `launchFirm`, the final `newConfig` is the
packed decision, with the user bits of `config` merged in when it was written. -/
theorem main_newConfig_pack (E : Env) (i : Input) (l : Locals) (w : Option Nat)
    (hrun : main E i = Outcome.launched l w) (hb : i.launchByte5 % 256 = 0) :
    (w = none → l.newConfig = packBootConfig l.nandType l.firmSource
      (a9lhSetup E i bootTrace).a9lhMode (forcedAfterAgb E i)) ∧
    (∀ x, w = some x → l.newConfig = x ∧
      x = packBootConfig l.nandType l.firmSource
        (a9lhSetup E i bootTrace).a9lhMode (forcedAfterAgb E i) |||
          (l.config &&& 0xFFFFFFC0)) ∧
    (w = none ↔ packBootConfig l.nandType l.firmSource
      (a9lhSetup E i bootTrace).a9lhMode (forcedAfterAgb E i) &&& 0x2F =
        l.config &&& 0x3F) := by
  rcases main_launched E i l w hrun with ⟨hne, _⟩ | ⟨_, hp, hl, hw⟩
  · exact absurd hb hne
  · obtain ⟨_, _, hcfg, hbt, _⟩ := firstBoot_summary E i bootTrace hp
    have hf := emuNANDStep_frame i (firstBoot E i bootTrace).1
    have hps := persistStep_newConfig (emuNANDStep i (firstBoot E i bootTrace).1)
      (by rw [hf.2.1, hbt])
    have hpf := persistStep_frame (emuNANDStep i (firstBoot E i bootTrace).1)
    have hlf := launchFlow_frame (persistStep (emuNANDStep i (firstBoot E i bootTrace).1)).1
    have hnew : (emuNANDStep i (firstBoot E i bootTrace).1).newConfig =
        ((a9lhSetup E i bootTrace).a9lhMode <<< 3) ||| (forcedAfterAgb E i <<< 4) := by
      rw [hf.2.2.2.1]
      unfold firstBoot
      rw [(buttonBlock_frame E i _).2.2.2.1, forceBlock_newConfig_eq]
      rfl
    have hnt : l.nandType = (emuNANDStep i (firstBoot E i bootTrace).1).nandType := by
      rw [hl, hlf.2.2.2.2.2.2.2.1, hpf.2.2.2.2.2.2.1]
    have hfs : l.firmSource = (emuNANDStep i (firstBoot E i bootTrace).1).firmSource := by
      rw [hl, hlf.2.2.2.2.2.2.2.2, hpf.2.2.2.2.2.2.2]
    have hnc : l.newConfig =
        (persistStep (emuNANDStep i (firstBoot E i bootTrace).1)).1.newConfig := by
      rw [hl, hlf.2.2.2.1]
    have hc : l.config = (emuNANDStep i (firstBoot E i bootTrace).1).config := by
      rw [hl, hlf.1, hpf.1]
    unfold packBootConfig
    rw [hnt, hfs, hnc, hc, hw, ← hnew]
    exact hps


theorem or_user_bits_and_low (a c : Nat) :
    (a ||| (c &&& 0xFFFFFFC0)) &&& 0x2F = a &&& 0x2F := by
  apply Nat.eq_of_testBit_eq
  intro k
  have hz : (0xFFFFFFC0 : Nat) &&& 0x2F = 0 := by decide
  have hk : (Nat.testBit 0xFFFFFFC0 k && Nat.testBit 0x2F k) = false := by
    rw [← Nat.testBit_and, hz]
    simp
  simp only [Nat.testBit_and, Nat.testBit_or]
  cases h1 : Nat.testBit 0xFFFFFFC0 k <;> cases h2 : Nat.testBit 0x2F k <;> simp_all

theorem and_low_mod (a : Nat) : a &&& 0x2F = (a % 64) &&& 0x2F := by
  have h : a % 64 = a &&& (2 ^ 6 - 1) := (Nat.and_pow_two_sub_one_eq_mod a 6).symm
  rw [h, Nat.and_assoc]
  rfl

theorem and_six_mod (a : Nat) : a &&& 0x3F = a % 64 :=
  Nat.and_pow_two_sub_one_eq_mod a 6

set_option maxRecDepth 100000 in
theorem differ_small : ∀ a, a < 64 → ∀ b, b < 64 →
    ((a &&& 0x2F ≠ b) ↔ (a &&& 0x2F ≠ b &&& 0x2F ∨ b.testBit 4 = true)) := by
  decide

/-- The comparison of line 239 in words of bits: the records differ in one of
bits 0 to 3 or 5, or the stored record has bit 4 set. -/
theorem differ_iff (a b : Nat) :
    (a &&& 0x2F ≠ b &&& 0x3F) ↔ (a &&& 0x2F ≠ b &&& 0x2F ∨ b.testBit 4 = true) := by
  have hb : b.testBit 4 = (b % 64).testBit 4 := by
    rw [show (64 : Nat) = 2 ^ 6 by norm_num, Nat.testBit_mod_two_pow]
    simp
  rw [and_six_mod, and_low_mod a, and_low_mod b, hb]
  exact differ_small (a % 64) (Nat.mod_lt _ (by norm_num)) (b % 64) (Nat.mod_lt _ (by norm_num))

theorem emuNANDStep_trace (i : Input) (l : Locals) :
    ∃ r, (emuNANDStep i l).trace = l.trace ++ r ∧ ∀ x ∈ r, Event.isTail x = true := by
  unfold emuNANDStep
  simp only []
  split_ifs
  · exact ⟨[_], rfl, by simp [Event.isTail]⟩
  · exact ⟨[_], rfl, by simp [Event.isTail]⟩
  · exact ⟨[_], rfl, by simp [Event.isTail]⟩
  · exact ⟨[], by simp, by simp⟩

theorem persistStep_trace (l : Locals) :
    ∃ r, (persistStep l).1.trace = l.trace ++ r ∧ ∀ x ∈ r, Event.isTail x = true := by
  unfold persistStep
  simp only []
  split_ifs
  · exact ⟨[_], rfl, by simp [Event.isTail]⟩
  · exact ⟨[], by simp, by simp⟩
  · exact ⟨[], by simp, by simp⟩

theorem launchFlow_trace (l : Locals) :
    ∃ r, (launchFlow l).trace = l.trace ++ r ∧ ∀ x ∈ r, Event.isTail x = true := by
  unfold launchFlow
  simp only []
  split_ifs <;>
    exact ⟨_, by simp only [List.append_assoc]; rfl, by simp [Event.isTail]⟩

/-- Lines 222 to 271 only add calls of `Event.isTail`. -/
theorem tail_trace (i : Input) (l : Locals) :
    ∃ r, (launchFlow (persistStep (emuNANDStep i l)).1).trace = l.trace ++ r ∧
      ∀ x ∈ r, Event.isTail x = true := by
  obtain ⟨r1, h1, p1⟩ := emuNANDStep_trace i l
  obtain ⟨r2, h2, p2⟩ := persistStep_trace (emuNANDStep i l)
  obtain ⟨r3, h3, p3⟩ := launchFlow_trace (persistStep (emuNANDStep i l)).1
  refine ⟨r1 ++ (r2 ++ r3), ?_, ?_⟩
  · rw [h3, h2, h1]
    simp only [List.append_assoc]
  · intro x hx
    simp only [List.mem_append] at hx
    rcases hx with hx | hx | hx
    · exact p1 x hx
    · exact p2 x hx
    · exact p3 x hx

theorem payloadStep_trace (E : Env) (p : Nat) (l : Locals) :
    ∃ r, (payloadStep E p l).trace = l.trace ++ r ∧
      ∀ x ∈ r, Event.isButtonBlock x = true := by
  unfold payloadStep
  split_ifs
  · exact ⟨[_], rfl, by simp [Event.isButtonBlock]⟩
  · exact ⟨[], by simp, by simp⟩

theorem splashStep_trace (E : Env) (i : Input) (l : Locals) :
    ∃ r, (splashStep E i l).trace = l.trace ++ r ∧
      ∀ x ∈ r, Event.isButtonBlock x = true := by
  unfold splashStep
  split_ifs
  · exact ⟨[_, _], rfl, by simp [Event.isButtonBlock]⟩
  · exact ⟨[_], rfl, by simp [Event.isButtonBlock]⟩
  · exact ⟨[], by simp, by simp⟩

theorem buttonBlock_trace (E : Env) (i : Input) (l : Locals) :
    ∃ r, (buttonBlock E i l).1.trace = l.trace ++ r ∧
      ∀ x ∈ r, Event.isButtonBlock x = true := by
  obtain ⟨r1, h1, p1⟩ := payloadStep_trace E (pressedOf E i) l
  obtain ⟨r2, h2, p2⟩ := splashStep_trace E i (payloadStep E (pressedOf E i) l)
  unfold buttonBlock
  simp only []
  split_ifs
  · exact ⟨r1, h1, p1⟩
  · refine ⟨r1 ++ r2, ?_, ?_⟩
    · rw [(buttonChoice_frame E _ _).2.2.2.1, h2, h1, List.append_assoc]
    · intro x hx
      rcases List.mem_append.1 hx with hx | hx
      · exact p1 x hx
      · exact p2 x hx
  · exact ⟨[], by simp, by simp⟩

theorem sampleTrace_menu (E : Env) (i : Input) (t : List Event) (h : menuOpened E i = true) :
    ∃ r, sampleTrace E i t = t ++ [Event.readPad, Event.configureCFW] ++ r ∧
      Event.configureCFW ∉ r := by
  unfold sampleTrace
  simp only [h, if_true]
  split_ifs
  · exact ⟨[Event.chrono 0, Event.chrono 2, Event.readPad, Event.exceptionSetup],
      by simp, by decide⟩
  · exact ⟨[Event.chrono 0, Event.chrono 2, Event.readPad], by simp, by decide⟩

/-- The first-boot branch only adds calls of the button block to the calls of
lines 103 to 125. -/
theorem firstBoot_trace (E : Env) (i : Input) (t : List Event) :
    ∃ r, (firstBoot E i t).1.trace = sampleTrace E i t ++ r ∧
      ∀ x ∈ r, Event.isButtonBlock x = true := by
  obtain ⟨r, h, p⟩ := buttonBlock_trace E i (forceBlock E i (a9lhSetup E i t))
  refine ⟨r, ?_, p⟩
  unfold firstBoot
  rw [h, (forceBlock_frame E i _).2.2.2.1]
  rfl

theorem firstBoot_frame (E : Env) (i : Input) (t : List Event) :
    (firstBoot E i t).1.bootType = 0 ∧ (firstBoot E i t).1.firmType = 0 ∧
    (firstBoot E i t).1.config = configOf E i := by
  unfold firstBoot
  rw [(buttonBlock_frame E i _).2.1, (buttonBlock_frame E i _).2.2.1,
    (buttonBlock_frame E i _).1, (forceBlock_frame E i _).2.1,
    (forceBlock_frame E i _).2.2.1, (forceBlock_frame E i _).1]
  exact ⟨rfl, rfl, rfl⟩

/-- On a first boot `main` does not reboot, and its trace is the sampling calls
followed by calls of the button block and of lines 222 to 271. -/
theorem main_firstBoot_locals (E : Env) (i : Input) (hb : i.launchByte5 % 256 = 0) :
    ∃ l r, (main E i).locals = some l ∧ l.bootType = 0 ∧ l.firmType = 0 ∧
      l.trace = sampleTrace E i bootTrace ++ r ∧
      ∀ x ∈ r, Event.isButtonBlock x = true ∨ Event.isTail x = true := by
  obtain ⟨r1, h1, p1⟩ := firstBoot_trace E i bootTrace
  obtain ⟨hbt, hft, _⟩ := firstBoot_frame E i bootTrace
  unfold main
  rw [if_neg (by simpa using hb)]
  dsimp only
  cases hp : (firstBoot E i bootTrace).2
  · obtain ⟨r2, h2, p2⟩ := tail_trace i (firstBoot E i bootTrace).1
    refine ⟨launchFlow (persistStep (emuNANDStep i (firstBoot E i bootTrace).1)).1,
      r1 ++ r2, ?_, ?_, ?_, ?_, ?_⟩
    · simp [finish, Outcome.locals]
    · rw [(launchFlow_frame _).2.1, (persistStep_frame _).2.1, (emuNANDStep_frame i _).2.1,
        hbt]
    · rw [(launchFlow_frame _).2.2.1, (persistStep_frame _).2.2.1,
        (emuNANDStep_frame i _).2.2.1, hft]
    · rw [h2, h1, List.append_assoc]
    · intro x hx
      rcases List.mem_append.1 hx with hx | hx
      · exact Or.inl (p1 x hx)
      · exact Or.inr (p2 x hx)
  · refine ⟨(firstBoot E i bootTrace).1, r1, ?_, hbt, hft, h1, fun x hx => Or.inl (p1 x hx)⟩
    simp [Outcome.locals]

/-- When the configuration menu is opened, the first sample of `HID_PAD` has no
further use. -/
theorem main_pad0_irrelevant (E : Env) (i : Input) (p : Nat)
    (hm : menuOpened E i = true) (hm' : menuOpened E { i with pad0 := p } = true) :
    main E { i with pad0 := p } = main E i := by
  have e1 : pressedOf E { i with pad0 := p } = pressedOf E i := by
    simp [pressedOf, hm, hm']
  have e2 : configOf E { i with pad0 := p } = configOf E i := by
    simp [configOf, hm, hm']
  have e3 : bootenvOf E { i with pad0 := p } = bootenvOf E i := by
    simp [bootenvOf, hm, hm']
  have e4 : ∀ t, a9lhSetup E { i with pad0 := p } t = a9lhSetup E i t := by
    intro t
    simp only [a9lhSetup, sampleTrace, e2, hm, hm']
    rfl
  have e5 : ∀ l, forceBlock E { i with pad0 := p } l = forceBlock E i l := by
    intro l
    simp only [forceBlock, e1, e3]
  have e6 : ∀ l, buttonBlock E { i with pad0 := p } l = buttonBlock E i l := by
    intro l
    simp only [buttonBlock, e1]
    rfl
  have e7 : firstBoot E { i with pad0 := p } bootTrace = firstBoot E i bootTrace := by
    simp only [firstBoot, e4, e5, e6]
  unfold main
  simp only [e7]
  rfl

/-- A run that reaches `launchFirm` is lines 222 to 271 run on `resolved`. -/
theorem main_eq_finish (E : Env) (i : Input) (l : Locals) (w : Option Nat)
    (h : main E i = Outcome.launched l w) : main E i = finish i (resolved E i) := by
  rcases main_launched E i l w h with ⟨hb, _, hl, hw⟩ | ⟨hb, _, hl, hw⟩
  · rw [h, hl, hw]
    unfold resolved finish
    rw [if_pos hb]
  · rw [h, hl, hw]
    unfold resolved finish
    rw [if_neg (by simpa using hb)]

theorem finish_fields (i : Input) (l : Locals) :
    finish i l = Outcome.launched (launchFlow (persistStep (emuNANDStep i l)).1)
      (persistStep (emuNANDStep i l)).2 := rfl

/-- The first-boot branch when the options are forced after AGB_FIRM. -/
theorem firstBoot_forced_after_agb (E : Env) (i : Input)
    (hstrap : i.PDN_SPI_CNT = 0) (hmenu : menuOpened E i = false)
    (henv : i.CFG_BOOTENV = 7) (hupd : E.CONFIG i.config 1 = 1) :
    firstBoot E i bootTrace =
      ({ (a9lhSetup E i bootTrace) with
          nandType := 0, firmSource := 0, needConfig := 0, newConfig := 24 }, false) ∧
    (a9lhSetup E i bootTrace).a9lhMode = 1 ∧ (a9lhSetup E i bootTrace).updatedSys = 1 ∧
    (a9lhSetup E i bootTrace).config = i.config := by
  have hread : needConfigInit i = 1 := by
    rcases needConfigInit_pos i with h | h
    · exact h
    · simp [menuOpened, h] at hmenu
  have hcfg : configOf E i = i.config := by simp [configOf, hmenu]
  have henv' : bootenvOf E i = 7 := by simp [bootenvOf, hmenu, henv]
  have ha : (a9lhSetup E i bootTrace).a9lhMode = 1 := by simp [a9lhSetup, hstrap]
  have hu : (a9lhSetup E i bootTrace).updatedSys = 1 := by
    simp [a9lhSetup, hstrap, hcfg, hupd]
  have hn : (a9lhSetup E i bootTrace).needConfig = 1 := hread
  have hnc : (a9lhSetup E i bootTrace).newConfig = 8 := by simp [a9lhSetup, hstrap]
  refine ⟨?_, ha, hu, hcfg⟩
  have hf : forceBlock E i (a9lhSetup E i bootTrace) =
      { (a9lhSetup E i bootTrace) with
        nandType := 0, firmSource := 0, needConfig := 0, newConfig := 24 } := by
    simp [forceBlock, hstrap, henv', hu, hn, hnc]
  unfold firstBoot
  rw [hf]
  simp [buttonBlock]

theorem sampleTrace_mem (E : Env) (i : Input) (x : Event)
    (h : x ∈ sampleTrace E i bootTrace) :
    x ∈ [Event.mountFs, Event.fileRead, Event.readPad, Event.configureCFW, Event.chrono 0,
      Event.chrono 2, Event.exceptionSetup] := by
  unfold sampleTrace bootTrace at h
  simp only [] at h
  split_ifs at h <;> simp at h <;> simp <;> tauto

/-- Lines 233 to 271 make no emuNAND lookup. -/
theorem persist_launch_no_locate (l : Locals) (s : Nat)
    (h : Event.locateEmuNAND s ∈ (launchFlow (persistStep l).1).trace) :
    Event.locateEmuNAND s ∈ l.trace := by
  unfold launchFlow at h
  simp only [] at h
  have hp : Event.locateEmuNAND s ∈ (persistStep l).1.trace → Event.locateEmuNAND s ∈ l.trace := by
    unfold persistStep
    simp only []
    split_ifs <;> simp
  split_ifs at h <;> simp at h <;> exact hp h

theorem buttonChoice_second_slot (E : Env) (p : Nat) (l : Locals)
    (hR : p &&& E.BUTTON_R1 = 0) (hL : p &&& E.BUTTON_L1 = 0) (hB : p &&& E.BUTTON_B = 0)
    (hauto : E.CONFIG l.config 0 ≠ 1) (hsecond : E.CONFIG l.config 3 = 1) :
    (buttonChoice E p l).nandType = 2 ∧ (buttonChoice E p l).firmSource = 1 := by
  simp [buttonChoice, hR, hL, hB, hauto, hsecond]

/-- A first boot whose forcing block settles on the physical NAND and leaves
the button block out: the run reaches `launchFirm` with that decision, with no
call of the button block and no emuNAND lookup. -/
theorem main_of_forced (E : Env) (i : Input) (L : Locals)
    (hb : i.launchByte5 % 256 = 0) (hfb : firstBoot E i bootTrace = (L, false))
    (hn : L.nandType = 0) (hs : L.firmSource = 0)
    (htr : L.trace = sampleTrace E i bootTrace) :
    ∃ l w, main E i = Outcome.launched l w ∧ l.nandType = 0 ∧ l.firmSource = 0 ∧
      l.needConfig = L.needConfig ∧ l.a9lhMode = L.a9lhMode ∧
      (∀ p, Event.loadPayload p ∉ l.trace) ∧ Event.loadSplash ∉ l.trace ∧
      (∀ s, Event.locateEmuNAND s ∉ l.trace) := by
  have hL : (firstBoot E i bootTrace).1 = L := by rw [hfb]
  have hp : (firstBoot E i bootTrace).2 = false := by rw [hfb]
  have he : emuNANDStep i L = L := by simp [emuNANDStep, hn, hs]
  have hrun : main E i = Outcome.launched (launchFlow (persistStep L).1) (persistStep L).2 := by
    unfold main
    rw [if_neg (by simpa using hb)]
    dsimp only
    rw [hp]
    simp only [Bool.false_eq_true, if_false]
    rw [finish_fields, hL, he]
  obtain ⟨r, hr1, hr2⟩ := tail_trace i L
  rw [he, htr] at hr1
  have hmem : ∀ e, Event.isTail e = false →
      e ∉ [Event.mountFs, Event.fileRead, Event.readPad, Event.configureCFW, Event.chrono 0,
        Event.chrono 2, Event.exceptionSetup] →
      e ∉ (launchFlow (persistStep L).1).trace := by
    intro e he1 he2 hin
    rw [hr1, List.mem_append] at hin
    rcases hin with hin | hin
    · exact he2 (sampleTrace_mem E i e hin)
    · rw [hr2 e hin] at he1
      exact absurd he1 (by decide)
  refine ⟨_, _, hrun, ?_, ?_, ?_, ?_, ?_, ?_, ?_⟩
  · rw [(launchFlow_frame _).2.2.2.2.2.2.2.1, (persistStep_frame _).2.2.2.2.2.2.1, hn]
  · rw [(launchFlow_frame _).2.2.2.2.2.2.2.2, (persistStep_frame _).2.2.2.2.2.2.2, hs]
  · rw [(launchFlow_frame _).2.2.2.2.1, (persistStep_frame _).2.2.2.1]
  · rw [(launchFlow_frame _).2.2.2.2.2.1, (persistStep_frame _).2.2.2.2.1]
  · intro p
    exact hmem _ rfl (by simp)
  · exact hmem _ rfl (by simp)
  · intro s hin
    have h1 := persist_launch_no_locate _ s hin
    rw [htr] at h1
    have h2 := sampleTrace_mem E i _ h1
    simp at h2

/-- The first-boot branch when the SAFE_MODE combination is held on an A9LH
boot with a configuration file. -/
theorem firstBoot_safe_mode (E : Env) (i : Input)
    (hstrap : i.PDN_SPI_CNT = 0) (hread : i.readOk = true)
    (henv : bootenvOf E i = 0) (hpad : pressedOf E i = E.SAFE_MODE) :
    firstBoot E i bootTrace =
      ({ (a9lhSetup E i bootTrace) with
          a9lhMode := 2, nandType := 0, firmSource := 0, needConfig := 0 }, false) := by
  have ha : (a9lhSetup E i bootTrace).a9lhMode = 1 := by simp [a9lhSetup, hstrap]
  have hn : (a9lhSetup E i bootTrace).needConfig = 1 := by
    show needConfigInit i = 1
    simp [needConfigInit, hread]
  have hf : forceBlock E i (a9lhSetup E i bootTrace) =
      { (a9lhSetup E i bootTrace) with
        a9lhMode := 2, nandType := 0, firmSource := 0, needConfig := 0 } := by
    simp [forceBlock, hstrap, henv, hpad, ha, hn]
  unfold firstBoot
  rw [hf]
  simp [buttonBlock]

/-- With no configuration file the SAFE_MODE branch leaves `needConfig` at 1. -/
theorem forceBlock_safe_mode_no_file (E : Env) (i : Input)
    (hstrap : i.PDN_SPI_CNT = 0) (hread : i.readOk = false)
    (henv : bootenvOf E i = 0) (hpad : pressedOf E i = E.SAFE_MODE) :
    forceBlock E i (a9lhSetup E i bootTrace) =
      { (a9lhSetup E i bootTrace) with
        a9lhMode := 2, nandType := 0, firmSource := 0, needConfig := 1 } := by
  have ha : (a9lhSetup E i bootTrace).a9lhMode = 1 := by simp [a9lhSetup, hstrap]
  have hn : (a9lhSetup E i bootTrace).needConfig = 2 := by
    show needConfigInit i = 2
    simp [needConfigInit, hread]
  simp [forceBlock, hstrap, henv, hpad, ha, hn]

/-- The button block run on variables with `needConfig` not zero: the call of
`loadPayload` when one is wanted and, with R held and `updatedSys` zero, the
FIRM source set to 1 on the NAND 0. -/
theorem buttonBlock_runs (E : Env) (i : Input) (l : Locals) (hn : l.needConfig ≠ 0) :
    (payloadWanted E l.config (pressedOf E i) = true →
      Event.loadPayload (pressedOf E i) ∈ (buttonBlock E i l).1.trace) ∧
    ((buttonBlock E i l).2 = false → (pressedOf E i &&& E.BUTTON_R1) ≠ 0 →
      l.updatedSys = 0 →
      (buttonBlock E i l).1.nandType = 0 ∧ (buttonBlock E i l).1.firmSource = 1) := by
  have hs := splashStep_trace E i (payloadStep E (pressedOf E i) l)
  have hsf := splashStep_frame E i (payloadStep E (pressedOf E i) l)
  have hpf := payloadStep_frame E (pressedOf E i) l
  constructor
  · intro hw
    have hp : Event.loadPayload (pressedOf E i) ∈ (payloadStep E (pressedOf E i) l).trace := by
      simp [payloadStep, hw]
    unfold buttonBlock
    simp only []
    rw [if_pos hn]
    split_ifs
    · exact hp
    · obtain ⟨r, hr, _⟩ := hs
      rw [(buttonChoice_frame E _ _).2.2.2.1, hr]
      exact List.mem_append_left _ hp
  · intro h2 hR hu
    unfold buttonBlock at h2 ⊢
    simp only [] at h2 ⊢
    rw [if_pos hn] at h2 ⊢
    split_ifs at h2 ⊢
    have hu' : (splashStep E i (payloadStep E (pressedOf E i) l)).updatedSys = 0 := by
      rw [hsf.2.2.2.2.2.2, hpf.2.2.2.2.2.2, hu]
    simp [buttonChoice, hR, hu']

theorem buttonChoice_nandType_le (E : Env) (p : Nat) (l : Locals) (h : l.updatedSys ≤ 1) :
    (buttonChoice E p l).nandType ≤ 2 := by
  unfold buttonChoice
  simp only []
  split_ifs <;> simp <;> omega

theorem a9lhSetup_bounds (E : Env) (i : Input) (t : List Event)
    (hbit : ∀ c a, E.CONFIG c a ≤ 1) :
    (a9lhSetup E i t).updatedSys ≤ 1 ∧ (a9lhSetup E i t).a9lhMode ≤ 1 ∧
    (i.PDN_SPI_CNT = 0 → (a9lhSetup E i t).a9lhMode = 1) := by
  have h := hbit (configOf E i) 1
  unfold a9lhSetup
  simp only []
  split_ifs <;> simp_all

theorem forceBlock_a9lhMode (E : Env) (i : Input) (l : Locals) :
    (forceBlock E i l).a9lhMode = l.a9lhMode ∨
      (i.PDN_SPI_CNT = 0 ∧ (forceBlock E i l).a9lhMode = l.a9lhMode + 1) := by
  unfold forceBlock
  simp only []
  split_ifs <;> simp_all

theorem firstBoot_nandType_le (E : Env) (i : Input) (t : List Event)
    (hbit : ∀ c a, E.CONFIG c a ≤ 1) (h : (firstBoot E i t).2 = false) :
    (firstBoot E i t).1.nandType ≤ 3 := by
  have hu : (forceBlock E i (a9lhSetup E i t)).updatedSys ≤ 1 := by
    rw [(forceBlock_frame E i _).2.2.2.2.1]
    exact (a9lhSetup_bounds E i t hbit).1
  have hc := forceBlock_cases E i (a9lhSetup E i t)
  have hi := needConfigInit_pos i
  have hnc : (a9lhSetup E i t).needConfig = needConfigInit i := rfl
  unfold firstBoot at h ⊢
  unfold buttonBlock at h ⊢
  simp only [] at h ⊢
  split_ifs at h ⊢ with h1 h2
  · have := buttonChoice_nandType_le E (pressedOf E i)
      (splashStep E i (payloadStep E (pressedOf E i) (forceBlock E i (a9lhSetup E i t))))
      (by rw [(splashStep_frame E i _).2.2.2.2.2.2, (payloadStep_frame E _ _).2.2.2.2.2.2]
          exact hu)
    exact Nat.le_trans this (by decide)
  · simp only [ne_eq, not_not] at h1
    rcases hc with hc | ⟨_, _, hle⟩
    · rw [hc, hnc] at h1
      omega
    · exact hle

theorem emuNANDStep_down (i : Input) (l : Locals) (hdown : ∀ s, i.locateEmuNAND s ≤ s) :
    (emuNANDStep i l).nandType ≤ l.nandType ∧ (emuNANDStep i l).firmSource ≤ l.firmSource := by
  have h1 := hdown l.nandType
  have h2 := hdown l.firmSource
  unfold emuNANDStep
  simp only []
  split_ifs <;> simp <;> omega

theorem forcedAfterAgb_le (E : Env) (i : Input) : forcedAfterAgb E i ≤ 1 := by
  unfold forcedAfterAgb
  split_ifs <;> simp

/-- The low bits of every packed decision, with or without its forced marker. -/
theorem packBootConfig_low : ∀ n, n < 4 → ∀ s, s < 2 → ∀ a, a < 2 → ∀ f, f < 2 →
    ∀ q, q < 2 →
      (if q = 0 then packBootConfig n s a f else packBootConfig n s a f &&& 0x2F) % 16 =
        n ||| (s <<< 2) ||| (a <<< 3) ∧
      (if q = 0 then packBootConfig n s a f else packBootConfig n s a f &&& 0x2F) / 32 % 2 = 0 ∧
      (if q = 0 then packBootConfig n s a f else packBootConfig n s a f &&& 0x2F) % 4 = n ∧
      (if q = 0 then packBootConfig n s a f else packBootConfig n s a f &&& 0x2F) / 4 % 2 = s ∧
      (if q = 0 then packBootConfig n s a f else packBootConfig n s a f &&& 0x2F) / 8 % 2 = a ∧
      (if q = 0 then packBootConfig n s a f else packBootConfig n s a f &&& 0x2F) < 64 := by
  intro n hn s hs a ha f hf q hq
  interval_cases n <;> interval_cases s <;> interval_cases a <;> interval_cases f <;>
    interval_cases q <;> decide

/-- Fields of a record read off its residue modulo 64. -/
theorem low_fields (x : Nat) :
    x &&& 0xF = x % 64 % 16 ∧ x.testBit 5 = decide (x % 64 / 32 % 2 = 1) ∧
    BOOTCONFIG x 0 3 = x % 64 % 4 ∧ BOOTCONFIG x 2 1 = x % 64 / 4 % 2 ∧
    BOOTCONFIG x 3 1 = x % 64 / 8 % 2 := by
  have e1 : x &&& 0xF = x % 16 := Nat.and_pow_two_sub_one_eq_mod x 4
  have e2 : x.testBit 5 = decide (x / 32 % 2 = 1) := by
    rw [Nat.testBit_to_div_mod]
  have e3 : BOOTCONFIG x 0 3 = x % 4 := by
    unfold BOOTCONFIG
    rw [Nat.shiftRight_zero]
    exact Nat.and_pow_two_sub_one_eq_mod x 2
  have e4 : BOOTCONFIG x 2 1 = x / 4 % 2 := by
    unfold BOOTCONFIG
    rw [Nat.shiftRight_eq_div_pow]
    exact Nat.and_pow_two_sub_one_eq_mod _ 1
  have e5 : BOOTCONFIG x 3 1 = x / 8 % 2 := by
    unfold BOOTCONFIG
    rw [Nat.shiftRight_eq_div_pow]
    exact Nat.and_pow_two_sub_one_eq_mod _ 1
  rw [e1, e2, e3, e4, e5]
  refine ⟨by omega, ?_, by omega, by omega, by omega⟩
  congr 1
  apply propext
  constructor <;> intro h <;> omega

theorem or_user_bits_mod (a c : Nat) (ha : a < 64) :
    (a ||| (c &&& 0xFFFFFFC0)) % 64 = a := by
  have h1 : (a ||| (c &&& 0xFFFFFFC0)) % 64 = (a ||| (c &&& 0xFFFFFFC0)) &&& 0x3F :=
    (Nat.and_pow_two_sub_one_eq_mod _ 6).symm
  rw [h1]
  apply Nat.eq_of_testBit_eq
  intro k
  have hz : (0xFFFFFFC0 : Nat) &&& 0x3F = 0 := by decide
  have hk : (Nat.testBit 0xFFFFFFC0 k && Nat.testBit 0x3F k) = false := by
    rw [← Nat.testBit_and, hz]
    simp
  have h3 : Nat.testBit 0x3F k = decide (k < 6) := Nat.testBit_two_pow_sub_one 6 k
  simp only [Nat.testBit_and, Nat.testBit_or]
  by_cases hk6 : k < 6
  · rw [h3] at hk ⊢
    simp only [hk6, decide_True, Bool.and_true] at hk ⊢
    rw [hk]
    simp
  · rw [h3]
    have : a.testBit k = false :=
      Nat.testBit_lt_two_pow (Nat.lt_of_lt_of_le ha (Nat.pow_le_pow_right (by norm_num : 0 < 2)
        (by omega : 6 ≤ k)))
    simp [hk6, this]

/-! ## Lemmas on the section copies -/

theorem readBytes_add (m : Mem) (a x y : Nat) :
    readBytes m a (x + y) = readBytes m a x ++ readBytes m (a + x) y := by
  unfold readBytes
  rw [List.range_add, List.map_append, List.map_map]
  congr 1
  apply List.map_congr_left
  intro k _
  simp [Nat.add_assoc]

theorem readBytes_congr (m m' : Mem) (a b n : Nat) (h : ∀ k, k < n → m' (a + k) = m (b + k)) :
    readBytes m' a n = readBytes m b n := by
  unfold readBytes
  apply List.map_congr_left
  intro k hk
  exact h k (List.mem_range.1 hk)

theorem readBytes_blob (m : Mem) (a : Nat) (blob : List Nat)
    (h : ∀ k, k < blob.length → m (a + k) = blob.getD k 0) :
    readBytes m a blob.length = blob := by
  apply List.ext_getElem
  · simp [readBytes]
  · intro k h1 h2
    simp only [readBytes, List.getElem_map, List.getElem_range]
    rw [h k h2, List.getD_eq_getElem _ _ h2]

theorem memcpy_in (m : Mem) (dst src n a : Nat) (h1 : dst ≤ a) (h2 : a < dst + n) :
    memcpy m dst src n a = m (src + (a - dst)) := by
  unfold memcpy
  rw [if_pos ⟨h1, h2⟩]

theorem memcpy_out (m : Mem) (dst src n a : Nat) (h : a < dst ∨ dst + n ≤ a) :
    memcpy m dst src n a = m a := by
  unfold memcpy
  rw [if_neg (by omega)]

theorem memcpyBlob_in (m : Mem) (dst : Nat) (blob : List Nat) (a : Nat) (h1 : dst ≤ a)
    (h2 : a < dst + blob.length) : memcpyBlob m dst blob a = blob.getD (a - dst) 0 := by
  unfold memcpyBlob
  rw [if_pos ⟨h1, h2⟩]

theorem memcpyBlob_out (m : Mem) (dst : Nat) (blob : List Nat) (a : Nat)
    (h : a < dst ∨ dst + blob.length ≤ a) : memcpyBlob m dst blob a = m a := by
  unfold memcpyBlob
  rw [if_neg (by omega)]

theorem read32_memcpy_apart (m : Mem) (dst src n w : Nat) (h : apart dst n w 4) :
    read32 (memcpy m dst src n) w = read32 m w := by
  unfold apart at h
  unfold read32
  rw [memcpy_out m dst src n w (by omega), memcpy_out m dst src n (w + 1) (by omega),
    memcpy_out m dst src n (w + 2) (by omega), memcpy_out m dst src n (w + 3) (by omega)]

theorem read32_memcpyBlob_apart (m : Mem) (dst : Nat) (blob : List Nat) (w : Nat)
    (h : apart dst blob.length w 4) :
    read32 (memcpyBlob m dst blob) w = read32 m w := by
  unfold apart at h
  unfold read32
  rw [memcpyBlob_out m dst blob w (by omega), memcpyBlob_out m dst blob (w + 1) (by omega),
    memcpyBlob_out m dst blob (w + 2) (by omega), memcpyBlob_out m dst blob (w + 3) (by omega)]

theorem mem_copiedSections (T : Nat → firmSectionHeader) (start i : Nat) :
    i ∈ copiedSections T start ↔
      start ≤ i ∧ i < 4 ∧ ∀ t, start ≤ t → t ≤ i → (T t).size ≠ 0 := by
  unfold copiedSections
  simp only [List.mem_filter, List.mem_range, decide_eq_true_eq]
  constructor
  · rintro ⟨h4, hs, h⟩
    exact ⟨hs, h4, fun t h1 h2 => h t (by omega) h1⟩
  · rintro ⟨hs, h4, h⟩
    exact ⟨h4, hs, fun t h1 h2 => h t h2 (by omega)⟩

theorem copyPlan_eq_map (T : Nat → firmSectionHeader) (start : Nat) (hs : start ≤ 1) :
    copyPlan T 4 start = (copiedSections T start).map fun i => sectionCopy (T i) := by
  unfold copiedSections
  have h : start = 0 ∨ start = 1 := by omega
  rcases h with h | h <;> subst h
  · by_cases h0 : (T 0).size = 0 <;> by_cases h1 : (T 1).size = 0 <;>
      by_cases h2 : (T 2).size = 0 <;> by_cases h3 : (T 3).size = 0 <;>
      simp [copyPlan, Nat.forall_lt_succ, h0, h1, h2, h3, List.range_succ, List.filter]
  · by_cases h1 : (T 1).size = 0 <;> by_cases h2 : (T 2).size = 0 <;>
      by_cases h3 : (T 3).size = 0 <;>
      simp [copyPlan, Nat.forall_lt_succ, h1, h2, h3, List.range_succ, List.filter]

theorem copyLoop_eq_plan (H : firmHeader) (T : Nat → firmSectionHeader) :
    ∀ (fuel k : Nat) (m : Mem),
      (∀ j, k ≤ j → j < 4 → (∀ t, k ≤ t → t < j → (T t).size ≠ 0) →
        (sectionAt H m j).size = (T j).size ∧ ((T j).size ≠ 0 → sectionAt H m j = T j)) →
      (∀ i j, k ≤ i → i < j → j < 4 → (∀ t, k ≤ t → t < j → (T t).size ≠ 0) →
        entryKept H T i j) →
      copyLoop H fuel k m = (copyPlan T fuel k, applyCopies m (copyPlan T fuel k)) := by
  intro fuel
  induction fuel with
  | zero => intro k m _ _; rfl
  | succ fuel ih =>
    intro k m hinv hkept
    by_cases hk : k < 4
    · have h0 := hinv k (Nat.le_refl k) hk (fun t h1 h2 => absurd h1 (by omega))
      by_cases hz : (T k).size = 0
      · have : (sectionAt H m k).size = 0 := by rw [h0.1, hz]
        simp [copyLoop, copyPlan, this, hz, applyCopies]
      · have he : sectionAt H m k = T k := h0.2 hz
        have hstep := ih (k + 1) (Copy.apply m (sectionCopy (T k))) ?_ ?_
        · simp only [copyLoop, copyPlan, he]
          rw [if_pos ⟨hk, hz⟩, if_pos ⟨hk, hz⟩]
          show (sectionCopy (T k) :: (copyLoop H fuel (k + 1) (Copy.apply m (sectionCopy (T k)))).1,
            (copyLoop H fuel (k + 1) (Copy.apply m (sectionCopy (T k)))).2) = _
          rw [hstep]
          simp [applyCopies]
        · intro j hj1 hj4 hnz
          have hall : ∀ t, k ≤ t → t < j → (T t).size ≠ 0 := by
            intro t h1 h2
            by_cases htk : t = k
            · rw [htk]; exact hz
            · exact hnz t (by omega) h2
          have hm := hinv j (by omega) hj4 hall
          have hkp := hkept k j (Nat.le_refl k) (by omega) hj4 hall
          have hsz : (sectionAt H (Copy.apply m (sectionCopy (T k))) j).size =
              (sectionAt H m j).size := by
            simp only [sectionAt, Copy.apply, sectionCopy]
            exact read32_memcpy_apart _ _ _ _ _ hkp.1
          refine ⟨by rw [hsz, hm.1], fun hjz => ?_⟩
          have hkp2 := hkp.2 hjz
          rw [← hm.2 hjz]
          simp only [sectionAt, Copy.apply, sectionCopy]
          rw [read32_memcpy_apart _ _ _ _ _ hkp.1, read32_memcpy_apart _ _ _ _ _ hkp2.1,
            read32_memcpy_apart _ _ _ _ _ hkp2.2]
        · intro i j hi hij hj4 hnz
          apply hkept i j (by omega) hij hj4
          intro t h1 h2
          by_cases htk : t = k
          · rw [htk]; exact hz
          · exact hnz t (by omega) h2
    · simp [copyLoop, copyPlan, hk, applyCopies]

theorem applyCopies_cons (m : Mem) (c : Copy) (cs : List Copy) :
    applyCopies m (c :: cs) = applyCopies (Copy.apply m c) cs := rfl

theorem copyPlan_out (T : Nat → firmSectionHeader) :
    ∀ (fuel k : Nat) (m : Mem) (a : Nat),
      (∀ j, k ≤ j → j < 4 → (∀ t, k ≤ t → t ≤ j → (T t).size ≠ 0) →
        a < (T j).address ∨ (T j).address + (T j).size ≤ a) →
      applyCopies m (copyPlan T fuel k) a = m a := by
  intro fuel
  induction fuel with
  | zero => intro k m a _; rfl
  | succ fuel ih =>
    intro k m a h
    by_cases hc : k < 4 ∧ (T k).size ≠ 0
    · simp only [copyPlan]
      rw [if_pos hc, applyCopies_cons, ih (k + 1)]
      · simp only [Copy.apply, sectionCopy]
        exact memcpy_out _ _ _ _ _ (h k (Nat.le_refl k) hc.1 (fun t h1 h2 => by
          have : t = k := by omega
          rw [this]; exact hc.2))
      · intro j hj1 hj4 hnz
        apply h j (by omega) hj4
        intro t h1 h2
        by_cases htk : t = k
        · rw [htk]; exact hc.2
        · exact hnz t (by omega) h2
    · simp only [copyPlan]
      rw [if_neg hc]
      rfl

theorem copyPlan_content (T : Nat → firmSectionHeader) :
    ∀ (fuel k : Nat) (m : Mem) (i : Nat), k ≤ i → i < k + fuel → i < 4 →
      (∀ t, k ≤ t → t ≤ i → (T t).size ≠ 0) →
      (∀ j, i < j → j < 4 → (∀ t, k ≤ t → t ≤ j → (T t).size ≠ 0) →
        apart (T i).address (T i).size (T j).address (T j).size) →
      (∀ j, k ≤ j → j < i →
        apart (T j).address (T j).size (firmBase + (T i).offset) (T i).size) →
      readBytes (applyCopies m (copyPlan T fuel k)) (T i).address (T i).size =
        readBytes m (firmBase + (T i).offset) (T i).size := by
  intro fuel
  induction fuel with
  | zero => intro k m i h1 h2; omega
  | succ fuel ih =>
    intro k m i hki hif hi4 hnz hlater hearlier
    have hkz : (T k).size ≠ 0 := hnz k (Nat.le_refl k) hki
    simp only [copyPlan]
    rw [if_pos ⟨by omega, hkz⟩, applyCopies_cons]
    by_cases hik : i = k
    · subst hik
      apply readBytes_congr
      intro x hx
      rw [copyPlan_out T fuel (i + 1)]
      · simp only [Copy.apply, sectionCopy]
        rw [memcpy_in _ _ _ _ _ (by omega) (by omega)]
        congr 1
        omega
      · intro j hj1 hj4 hjnz
        have := hlater j (by omega) hj4 (fun t h1 h2 => by
          by_cases hti : t = i
          · rw [hti]; exact hkz
          · exact hjnz t (by omega) h2)
        have hjz : (T j).size ≠ 0 := hjnz j hj1 (Nat.le_refl j)
        unfold apart at this
        omega
    · rw [ih (k + 1) _ i (by omega) (by omega) hi4]
      · apply readBytes_congr
        intro x hx
        simp only [Copy.apply, sectionCopy]
        have := hearlier k (Nat.le_refl k) (by omega)
        unfold apart at this
        exact memcpy_out _ _ _ _ _ (by omega)
      · intro t h1 h2
        exact hnz t (by omega) h2
      · intro j hij hj4 hjnz
        apply hlater j hij hj4
        intro t h1 h2
        by_cases htk : t = k
        · rw [htk]; exact hkz
        · exact hjnz t (by omega) h2
      · intro j h1 h2
        exact hearlier j (by omega) h2

/-! ## Properties of the exception-vector patch -/

/-- C1: when the idiom is found at offset `p` and `mov r1, #0x40` is first read
`k` words after the idiom, the patch returns; every word of the window that
was a store `str rX, [r0, #imm]` (in any addressing mode) is afterwards the
no-op `0xE1A00000` or `0xE5800000 | (rD << 12) | off` with `off` equal to
`0x004` or `0x014`, and so every word of the patched window that is such a
store has that form. -/
theorem patchExceptionHandlersInstall_window_stores (m : Mem) (size p k fuel : Nat)
    (hfind : memsearch m pattern size = some p)
    (hend : read32 m (p + 16 + 4 * k) = movR1)
    (hfirst : ∀ j, j < k → read32 m (p + 16 + 4 * j) ≠ movR1)
    (hfuel : k < fuel) :
    ∃ m', patchExceptionHandlersInstall fuel m size = some m' ∧
      (∀ j, j < k → isStrR0 (read32 m (p + 16 + 4 * j)) = true →
        read32 m' (p + 16 + 4 * j) = 0xE1A00000 ∨
          ∃ rD o, rD < 16 ∧ (o = 0x004 ∨ o = 0x014) ∧
            read32 m' (p + 16 + 4 * j) = 0xE5800000 ||| (rD <<< 12) ||| o) ∧
      (∀ j, j < k → isStrR0 (read32 m' (p + 16 + 4 * j)) = true →
          ∃ rD o, rD < 16 ∧ (o = 0x004 ∨ o = 0x014) ∧
            read32 m' (p + 16 + 4 * j) = 0xE5800000 ||| (rD <<< 12) ||| o) := by
  obtain ⟨m', hm', hgood⟩ := scan_window k fuel m (p + 16) 0x08000000 hfuel hend hfirst
  have key : ∀ j, j < k → isStrR0 (read32 m (p + 16 + 4 * j)) = true →
      read32 m' (p + 16 + 4 * j) = 0xE1A00000 ∨
        ∃ rD o, rD < 16 ∧ (o = 0x004 ∨ o = 0x014) ∧
          read32 m' (p + 16 + 4 * j) = 0xE5800000 ||| (rD <<< 12) ||| o := by
    intro j hj hstr
    obtain ⟨r, hr⟩ := (hgood j hj).1 hstr
    rcases strPatched_cases (read32 m (p + 16 + 4 * j)) r with h | ⟨o, ho, h⟩
    · left
      rw [hr, h]
      rfl
    · right
      exact ⟨(read32 m (p + 16 + 4 * j) >>> 12) &&& 0xf, o,
        Nat.and_lt_two_pow _ (by norm_num : 0xf < 2 ^ 4), ho, by rw [hr, h]⟩
  refine ⟨m', ?_, key, ?_⟩
  · unfold patchExceptionHandlersInstall
    rw [hfind]
    exact hm'
  · intro j hj hstr'
    by_cases hstr : isStrR0 (read32 m (p + 16 + 4 * j)) = true
    · rcases key j hj hstr with h | h
      · rw [h] at hstr'
        exact absurd hstr' (by decide)
      · exact h
    · simp only [Bool.not_eq_true] at hstr
      rw [(hgood j hj).2 hstr, hstr] at hstr'
      exact absurd hstr' (by decide)

/-- Witness of C1 on `sampleSection`: idiom at offset 4, window of two stores. -/
theorem patchExceptionHandlersInstall_window_stores_witness :
    memsearch sampleSection pattern 32 = some 4 ∧
    read32 sampleSection (4 + 16 + 4 * 2) = movR1 ∧
    ∃ m', patchExceptionHandlersInstall 8 sampleSection 32 = some m' ∧
      (∀ j, j < 2 → isStrR0 (read32 sampleSection (4 + 16 + 4 * j)) = true →
        read32 m' (4 + 16 + 4 * j) = 0xE1A00000 ∨
          ∃ rD o, rD < 16 ∧ (o = 0x004 ∨ o = 0x014) ∧
            read32 m' (4 + 16 + 4 * j) = 0xE5800000 ||| (rD <<< 12) ||| o) ∧
      (∀ j, j < 2 → isStrR0 (read32 m' (4 + 16 + 4 * j)) = true →
          ∃ rD o, rD < 16 ∧ (o = 0x004 ∨ o = 0x014) ∧
            read32 m' (4 + 16 + 4 * j) = 0xE5800000 ||| (rD <<< 12) ||| o) :=
  ⟨by decide, by decide,
    patchExceptionHandlersInstall_window_stores sampleSection 32 4 2 8 (by decide)
      (by decide) (by decide) (by decide)⟩

/-- Counterexample to C16: with `section[2].size = 16` the idiom is found at
offset 0 and the scan overwrites the word at offset 16, outside the section;
and on a section followed by zeroes the scan never reaches its end, whatever
the fuel. -/
theorem scan_leaves_section :
    (∃ m', patchExceptionHandlersInstall 8 overrunSection 16 = some m' ∧
      read32 overrunSection 16 = 0xE5802018 ∧ read32 m' 16 = 0xE1A00000) ∧
    (memsearch endlessSection pattern 16 = some 0 ∧
      ∀ fuel, patchExceptionHandlersInstall fuel endlessSection 16 = none) := by
  refine ⟨⟨_, rfl, by decide, by decide⟩, by decide, fun fuel => ?_⟩
  have hz : ∀ a, 16 ≤ a → endlessSection a = 0 := by
    intro a ha
    unfold endlessSection memOfList
    exact List.getD_eq_default _ _ (by simpa [pattern] using ha)
  have hs : memsearch endlessSection pattern 16 = some 0 := by decide
  unfold patchExceptionHandlersInstall
  rw [hs]
  apply scan_short
  intro j _
  have hr : read32 endlessSection (0 + pattern.length + 4 * j) = 0 := by
    unfold read32
    rw [hz _ (by simp [pattern]), hz _ (by simp [pattern]; omega),
      hz _ (by simp [pattern]; omega), hz _ (by simp [pattern]; omega)]
  rw [hr]
  decide

/-- C16 as the code has it: the scan is bounded by the first `mov r1, #0x40`
after the idiom and by nothing else.  When that word stands `k` words after the
idiom, the scan ends after exactly `k + 1` iterations (it returns with more
fuel than `k` and not with less) and writes no byte outside the `k` words
between the idiom and that word. -/
theorem patchExceptionHandlersInstall_extent (m : Mem) (size p k : Nat)
    (hfind : memsearch m pattern size = some p)
    (hend : read32 m (p + 16 + 4 * k) = movR1)
    (hfirst : ∀ j, j < k → read32 m (p + 16 + 4 * j) ≠ movR1) :
    (∀ fuel, k < fuel → ∃ m', patchExceptionHandlersInstall fuel m size = some m' ∧
      ∀ a, a < p + 16 ∨ p + 16 + 4 * k ≤ a → m' a = m a) ∧
    (∀ fuel, fuel ≤ k → patchExceptionHandlersInstall fuel m size = none) := by
  have hp : ∀ fuel, patchExceptionHandlersInstall fuel m size = scan fuel m (p + 16) 0x08000000 := by
    intro fuel
    unfold patchExceptionHandlersInstall
    rw [hfind]
    rfl
  refine ⟨fun fuel hf => ?_, fun fuel hf => ?_⟩
  · obtain ⟨m', hm', _⟩ := scan_window k fuel m (p + 16) 0x08000000 hf hend hfirst
    exact ⟨m', by rw [hp, hm'], (scan_bytes k fuel m _ _ m' hf hend hfirst hm').1⟩
  · rw [hp]
    exact scan_short fuel m _ _ (fun j hj => hfirst j (by omega))

/-- Witness of the amended C16 on `sampleSection`. -/
theorem patchExceptionHandlersInstall_extent_witness :
    memsearch sampleSection pattern 32 = some 4 ∧
    read32 sampleSection (4 + 16 + 4 * 2) = movR1 ∧
    (∀ fuel, 2 < fuel → ∃ m', patchExceptionHandlersInstall fuel sampleSection 32 = some m' ∧
      ∀ a, a < 4 + 16 ∨ 4 + 16 + 4 * 2 ≤ a → m' a = sampleSection a) ∧
    (∀ fuel, fuel ≤ 2 → patchExceptionHandlersInstall fuel sampleSection 32 = none) :=
  ⟨by decide, by decide,
    patchExceptionHandlersInstall_extent sampleSection 32 4 2 (by decide) (by decide)
      (by decide)⟩

/-- C17: when the idiom is not found the section is returned as it is; when it
is found at `p` and `mov r1, #0x40` is first read `k` words after it, the
patch changes no byte before the window (the idiom included), no byte from
the terminating word on, and no byte of a window word that fails the store
filter. -/
theorem patchExceptionHandlersInstall_frame (m : Mem) (size fuel : Nat) :
    (memsearch m pattern size = none → patchExceptionHandlersInstall fuel m size = some m) ∧
    (∀ p k, memsearch m pattern size = some p →
      read32 m (p + 16 + 4 * k) = movR1 →
      (∀ j, j < k → read32 m (p + 16 + 4 * j) ≠ movR1) → k < fuel →
      ∃ m', patchExceptionHandlersInstall fuel m size = some m' ∧
        (∀ a, a < p + 16 ∨ p + 16 + 4 * k ≤ a → m' a = m a) ∧
        (∀ j, j < k → isStrR0 (read32 m (p + 16 + 4 * j)) = false →
          ∀ x, x < 4 → m' (p + 16 + 4 * j + x) = m (p + 16 + 4 * j + x))) := by
  refine ⟨fun h => ?_, fun p k hfind hend hfirst hf => ?_⟩
  · unfold patchExceptionHandlersInstall
    rw [h]
  · obtain ⟨m', hm', _⟩ := scan_window k fuel m (p + 16) 0x08000000 hf hend hfirst
    obtain ⟨h1, h2, _⟩ := scan_bytes k fuel m _ _ m' hf hend hfirst hm'
    refine ⟨m', ?_, h1, h2⟩
    unfold patchExceptionHandlersInstall
    rw [hfind]
    exact hm'

/-- Witness of C17 on `sampleSection`, and on the same bytes searched over too
short a size for the idiom to be found. -/
theorem patchExceptionHandlersInstall_frame_witness :
    memsearch sampleSection pattern 16 = none ∧
    patchExceptionHandlersInstall 8 sampleSection 16 = some sampleSection ∧
    memsearch sampleSection pattern 32 = some 4 ∧
    ∃ m', patchExceptionHandlersInstall 8 sampleSection 32 = some m' ∧
      (∀ a, a < 4 + 16 ∨ 4 + 16 + 4 * 2 ≤ a → m' a = sampleSection a) ∧
      (∀ j, j < 2 → isStrR0 (read32 sampleSection (4 + 16 + 4 * j)) = false →
        ∀ x, x < 4 → m' (4 + 16 + 4 * j + x) = sampleSection (4 + 16 + 4 * j + x)) :=
  ⟨by decide,
    (patchExceptionHandlersInstall_frame sampleSection 16 8).1 (by decide),
    by decide,
    (patchExceptionHandlersInstall_frame sampleSection 32 8).2 4 2 (by decide) (by decide)
      (by decide) (by decide)⟩

/-- C19: when the idiom is found and `mov r1, #0x40` is read after it, the
patch returns a section that a second application of the patch returns as it
is. -/
theorem patchExceptionHandlersInstall_idempotent (m : Mem) (size p k fuel : Nat)
    (hfind : memsearch m pattern size = some p)
    (hend : read32 m (p + 16 + 4 * k) = movR1)
    (hfirst : ∀ j, j < k → read32 m (p + 16 + 4 * j) ≠ movR1)
    (hfuel : k < fuel) :
    ∃ m', patchExceptionHandlersInstall fuel m size = some m' ∧
      patchExceptionHandlersInstall fuel m' size = some m' := by
  obtain ⟨m', hm', hw⟩ := scan_window k fuel m (p + 16) 0x08000000 hfuel hend hfirst
  obtain ⟨hfr, hns, hsb⟩ := scan_bytes k fuel m _ _ m' hfuel hend hfirst hm'
  have hfind' : memsearch m' pattern size = some p :=
    memsearch_congr m m' pattern size p hfind (fun a ha => hfr a (Or.inl ha))
  have hend' : read32 m' (p + 16 + 4 * k) = movR1 := by
    rw [read32_ext m m' _ (fun x _ => hfr _ (by omega))]
    exact hend
  have hword : ∀ j, j < k → isStrR0 (read32 m (p + 16 + 4 * j)) = false →
      read32 m' (p + 16 + 4 * j) = read32 m (p + 16 + 4 * j) :=
    fun j hj hn => (hw j hj).2 hn
  refine ⟨m', ?_, ?_⟩
  · unfold patchExceptionHandlersInstall
    rw [hfind]
    exact hm'
  · unfold patchExceptionHandlersInstall
    rw [hfind']
    apply scan_fixed k fuel m' _ hfuel hend'
    · intro j hj
      cases hs : isStrR0 (read32 m (p + 16 + 4 * j)) with
      | false =>
        rw [hword j hj hs]
        exact hfirst j hj
      | true =>
        obtain ⟨r, hr⟩ := (hw j hj).1 hs
        rw [hr]
        exact strPatched_ne_movR1 _ _
    · intro j hj hst
      cases hs : isStrR0 (read32 m (p + 16 + 4 * j)) with
      | false =>
        rw [hword j hj hs, hs] at hst
        exact absurd hst (by decide)
      | true =>
        obtain ⟨r, hr⟩ := (hw j hj).1 hs
        rw [hr] at hst ⊢
        obtain ⟨h1, h2⟩ := strPatched_idem _ r hst
        exact ⟨h1, h2, hsb j hj hs⟩

/-- Witness of C19 on `sampleSection`. -/
theorem patchExceptionHandlersInstall_idempotent_witness :
    memsearch sampleSection pattern 32 = some 4 ∧
    read32 sampleSection (4 + 16 + 4 * 2) = movR1 ∧
    ∃ m', patchExceptionHandlersInstall 8 sampleSection 32 = some m' ∧
      patchExceptionHandlersInstall 8 m' 32 = some m' :=
  ⟨by decide, by decide,
    patchExceptionHandlersInstall_idempotent sampleSection 32 4 2 8 (by decide) (by decide)
      (by decide) (by decide)⟩

/-- C18 at a post-indexed store with the W bit clear, `str r1, [r0], #4`
(`0xE4801004`), the usual encoding of post-indexing.  ARM writes `r1` at
`0x08000000` and moves `r0` to `0x08000004`; the loop takes the address for
`0x08000004`, keeps the store as `str r1, [r0, #4]` and leaves its `r0` at
`0x08000000`.  In `postIndexedSection` the next store, `str r2, [r0, #0x10]`,
writes `0x08000014` on ARM and is replaced by the no-op. -/
theorem post_indexed_store_mistracked :
    isStrR0 0xE4801004 = true ∧
    armStoreAddr 0xE4801004 0x08000000 = 0x08000000 ∧
    armNextR0 0xE4801004 0x08000000 = 0x08000004 ∧
    strAddr 0xE4801004 0x08000000 = 0x08000004 ∧
    strNextR0 0xE4801004 0x08000000 = 0x08000000 ∧
    strPatched 0xE4801004 0x08000000 = 0xE5801004 ∧
    armStoreAddr 0xE5802010 (armNextR0 0xE4801004 0x08000000) = 0x08000014 ∧
    ∃ m', patchExceptionHandlersInstall 8 postIndexedSection 28 = some m' ∧
      read32 m' 16 = 0xE5801004 ∧ read32 m' 20 = 0xE1A00000 :=
  ⟨by decide, by decide, by decide, by decide, by decide, by decide, by decide,
    _, rfl, by decide, by decide⟩

/-! ## Properties of the boot decision -/

/-- C2: whenever `main` rewrites the configuration record, bits 6 to 31 of the
word written equal bits 6 to 31 of the configuration word `config` (the word
read from the file, or the one the configuration menu left when it ran); the
emuNAND locator is assumed to answer with a value of the two-bit NAND-type
field, at most 3. -/
theorem main_rewrite_keeps_user_bits (E : Env) (i : Input) (l : Locals) (w : Nat)
    (hloc : ∀ s, i.locateEmuNAND s ≤ 3)
    (hrun : main E i = Outcome.launched l (some w)) :
    l.config = configOf E i ∧
      ∀ b, 6 ≤ b → b < 32 → w.testBit b = (configOf E i).testBit b := by
  rcases main_launched E i l (some w) hrun with ⟨_, _, _, hw⟩ | ⟨_, hp, hl, hw⟩
  · have := (persistStep_written _ w hw.symm).1
    rw [(emuNANDStep_frame i _).2.1] at this
    simp [firmlaunch] at this
  · obtain ⟨hsrc, hnew, hcfg, hbt, _⟩ := firstBoot_summary E i bootTrace hp
    obtain ⟨_, hval⟩ := persistStep_written _ w hw.symm
    have hle := emuNANDStep_le i _ hloc hsrc
    have hf := emuNANDStep_frame i (firstBoot E i bootTrace).1
    refine ⟨?_, ?_⟩
    · rw [hl, (launchFlow_frame _).1, (persistStep_frame _).1, hf.1, hcfg]
    · intro b h6 h32
      rw [hf.1, hf.2.2.2.1, hcfg] at hval
      have hlow : (firstBoot E i bootTrace).1.newConfig |||
          ((emuNANDStep i (firstBoot E i bootTrace).1).nandType |||
            ((emuNANDStep i (firstBoot E i bootTrace).1).firmSource <<< 2) % 2 ^ 32) < 2 ^ 6 := by
        refine Nat.or_lt_two_pow (by omega) (Nat.or_lt_two_pow (by omega) ?_)
        rw [Nat.shiftLeft_eq]
        omega
      have hb : 2 ^ 6 ≤ 2 ^ b := Nat.pow_le_pow_right (by norm_num) h6
      rw [hval, Nat.testBit_or, Nat.testBit_and, mask_testBit b h6 h32,
        Nat.testBit_lt_two_pow (Nat.lt_of_lt_of_le hlow hb)]
      simp

/-- Witness of C2: a cold boot whose stored word has every user bit set. -/
theorem main_rewrite_keeps_user_bits_witness :
    (∀ s, (coldBoot 0xFFFFFFC0).locateEmuNAND s ≤ 3) ∧
    main sampleEnv (coldBoot 0xFFFFFFC0) = Outcome.launched userBitsRun (some 0xFFFFFFC8) ∧
    (userBitsRun.config = configOf sampleEnv (coldBoot 0xFFFFFFC0) ∧
      ∀ b, 6 ≤ b → b < 32 →
        (0xFFFFFFC8 : Nat).testBit b = (configOf sampleEnv (coldBoot 0xFFFFFFC0)).testBit b) :=
  ⟨fun s => Nat.le_trans (Nat.min_le_right s 2) (by decide), rfl,
    main_rewrite_keeps_user_bits sampleEnv (coldBoot 0xFFFFFFC0) userBitsRun 0xFFFFFFC8
      (fun s => Nat.le_trans (Nat.min_le_right s 2) (by decide)) rfl⟩

/-- C3: packing a NAND type in {0,1,2}, a FIRM source, a protection flag and a
forced flag in {0,1} the way `main` builds `newConfig`, then decoding with
`BOOTCONFIG(0,3)`, `BOOTCONFIG(2,1)`, `BOOTCONFIG(3,1)`, `BOOTCONFIG(4,1)`,
gives the four values back, and the packed word has no bit above bit 4. -/
theorem packBootConfig_roundtrip (nandType firmSource a9lhMode forced : Nat)
    (hn : nandType ≤ 2) (hs : firmSource ≤ 1) (ha : a9lhMode ≤ 1) (hf : forced ≤ 1) :
    BOOTCONFIG (packBootConfig nandType firmSource a9lhMode forced) 0 3 = nandType ∧
    BOOTCONFIG (packBootConfig nandType firmSource a9lhMode forced) 2 1 = firmSource ∧
    BOOTCONFIG (packBootConfig nandType firmSource a9lhMode forced) 3 1 = a9lhMode ∧
    BOOTCONFIG (packBootConfig nandType firmSource a9lhMode forced) 4 1 = forced ∧
    packBootConfig nandType firmSource a9lhMode forced < 2 ^ 5 := by
  interval_cases nandType <;> interval_cases firmSource <;> interval_cases a9lhMode <;>
    interval_cases forced <;> decide

/-- Witness of C3: emuNAND 2 with its FIRM, protection on, forced. -/
theorem packBootConfig_roundtrip_witness :
    BOOTCONFIG (packBootConfig 2 1 1 1) 0 3 = 2 ∧
    BOOTCONFIG (packBootConfig 2 1 1 1) 2 1 = 1 ∧
    BOOTCONFIG (packBootConfig 2 1 1 1) 3 1 = 1 ∧
    BOOTCONFIG (packBootConfig 2 1 1 1) 4 1 = 1 ∧
    packBootConfig 2 1 1 1 < 2 ^ 5 :=
  packBootConfig_roundtrip 2 1 1 1 (by decide) (by decide) (by decide) (by decide)

/-- Counterexample to C4: the stored record `0x50` has the forced marker set, the
resolved record agrees with it on bits 0 to 3 and 5, and the record is written. -/
theorem main_rewrite_on_stored_marker :
    ∃ l x, main sampleEnv (coldBoot 0x50) = Outcome.launched l (some x) ∧
      l.bootType = 0 ∧ l.newConfig &&& 0x2F = l.config &&& 0x2F ∧
      l.config.testBit 4 = true :=
  ⟨_, _, rfl, rfl, by decide, by decide⟩

/-- C4 as the code has it: a relaunch boot never writes the record; a first boot
writes it exactly when `(newConfig & 0x2F) != (config & 0x3F)`, that is when the
resolved and the stored record differ in one of bits 0 to 3 or 5, or the stored
record has the forced marker (bit 4) set.  A marker set in the resolved record
only is no reason to write. -/
theorem main_rewrite_iff (E : Env) (i : Input) (l : Locals) (w : Option Nat)
    (hrun : main E i = Outcome.launched l w) :
    (i.launchByte5 % 256 ≠ 0 → l.bootType = 1 ∧ w = none) ∧
    (i.launchByte5 % 256 = 0 → l.bootType = 0 ∧
      (w ≠ none ↔ l.newConfig &&& 0x2F ≠ l.config &&& 0x3F) ∧
      (w ≠ none ↔
        (l.newConfig &&& 0x2F ≠ l.config &&& 0x2F ∨ l.config.testBit 4 = true))) := by
  refine ⟨fun hb => ?_, fun hb => ?_⟩
  · rcases main_launched E i l w hrun with ⟨_, _, hl, hw⟩ | ⟨hz, _⟩
    · have hf := emuNANDStep_frame i (firmlaunch E i bootTrace)
      have hbt : (emuNANDStep i (firmlaunch E i bootTrace)).bootType = 1 := by
        rw [hf.2.1]
        rfl
      refine ⟨?_, ?_⟩
      · rw [hl, (launchFlow_frame _).2.1, (persistStep_frame _).2.1, hbt]
      · rw [hw]
        unfold persistStep
        simp [hbt]
    · exact absurd hz hb
  · obtain ⟨hnone, hsome, hiff⟩ := main_newConfig_pack E i l w hrun hb
    have hbt : l.bootType = 0 := by
      rcases main_launched E i l w hrun with ⟨hne, _⟩ | ⟨_, hp, hl, _⟩
      · exact absurd hb hne
      · rw [hl, (launchFlow_frame _).2.1, (persistStep_frame _).2.1,
          (emuNANDStep_frame i _).2.1, (firstBoot_summary E i bootTrace hp).2.2.2.1]
    have hlow : l.newConfig &&& 0x2F =
        packBootConfig l.nandType l.firmSource (a9lhSetup E i bootTrace).a9lhMode
          (forcedAfterAgb E i) &&& 0x2F := by
      cases w with
      | none => rw [hnone rfl]
      | some x =>
        obtain ⟨h1, h2⟩ := hsome x rfl
        rw [h1, h2, or_user_bits_and_low]
    have key : w ≠ none ↔ l.newConfig &&& 0x2F ≠ l.config &&& 0x3F := by
      rw [hlow]
      exact not_congr hiff
    exact ⟨hbt, key, key.trans (differ_iff _ _)⟩

/-- Witness of the amended C4 on the cold boot with stored word `0xFFFFFFC0`. -/
theorem main_rewrite_iff_witness :
    main sampleEnv (coldBoot 0xFFFFFFC0) = Outcome.launched userBitsRun (some 0xFFFFFFC8) ∧
    (((coldBoot 0xFFFFFFC0).launchByte5 % 256 ≠ 0 →
      userBitsRun.bootType = 1 ∧ some 0xFFFFFFC8 = (none : Option Nat)) ∧
    ((coldBoot 0xFFFFFFC0).launchByte5 % 256 = 0 → userBitsRun.bootType = 0 ∧
      (some 0xFFFFFFC8 ≠ (none : Option Nat) ↔
        userBitsRun.newConfig &&& 0x2F ≠ userBitsRun.config &&& 0x3F) ∧
      (some 0xFFFFFFC8 ≠ (none : Option Nat) ↔
        (userBitsRun.newConfig &&& 0x2F ≠ userBitsRun.config &&& 0x2F ∨
          userBitsRun.config.testBit 4 = true)))) :=
  ⟨rfl, main_rewrite_iff sampleEnv (coldBoot 0xFFFFFFC0) userBitsRun (some 0xFFFFFFC8) rfl⟩

/-- C5: with a non-zero firmlaunch discriminant and no readable configuration
file, `main` mounts the filesystems, attempts the read and calls `mcuReboot`;
nothing else is done. -/
theorem main_firmlaunch_without_config (E : Env) (i : Input)
    (hb : i.launchByte5 % 256 ≠ 0) (hr : i.readOk = false) :
    main E i = Outcome.rebooted [Event.mountFs, Event.fileRead, Event.mcuReboot] := by
  unfold main
  rw [if_pos hb]
  simp [needConfigInit, hr, bootTrace]

/-- Witness of C5: a firmlaunch of TWL_FIRM with no configuration file. -/
theorem main_firmlaunch_without_config_witness :
    ({ coldBoot 0 with launchByte5 := 0x31, readOk := false } : Input).launchByte5 % 256 ≠ 0 ∧
    ({ coldBoot 0 with launchByte5 := 0x31, readOk := false } : Input).readOk = false ∧
    main sampleEnv { coldBoot 0 with launchByte5 := 0x31, readOk := false } =
      Outcome.rebooted [Event.mountFs, Event.fileRead, Event.mcuReboot] :=
  ⟨by decide, rfl,
    main_firmlaunch_without_config sampleEnv
      { coldBoot 0 with launchByte5 := 0x31, readOk := false } (by decide) rfl⟩

/-- C6: on the firmlaunch path with a configuration record, changing the two
samples of `HID_PAD` changes nothing: the same variables are resolved, with
`bootType = 1`, and the trace holds no pad read, no configuration menu and no
payload loader call. -/
theorem main_firmlaunch_ignores_buttons (E : Env) (i : Input) (p0 p1 : Nat)
    (hb : i.launchByte5 % 256 ≠ 0) (hr : i.readOk = true) :
    ∃ l, main E i = Outcome.launched l none ∧
      main E { i with pad0 := p0, pad1 := p1 } = Outcome.launched l none ∧
      l.bootType = 1 ∧ Event.readPad ∉ l.trace ∧ Event.configureCFW ∉ l.trace ∧
      ∀ p, Event.loadPayload p ∉ l.trace := by
  have hn : ¬ needConfigInit i = 2 := by simp [needConfigInit, hr]
  have hn' : ¬ needConfigInit { i with pad0 := p0, pad1 := p1 } = 2 := by
    simp [needConfigInit, hr]
  have hbt : (emuNANDStep i (firmlaunch E i bootTrace)).bootType = 1 := by
    rw [(emuNANDStep_frame i _).2.1]
    rfl
  have hps : (persistStep (emuNANDStep i (firmlaunch E i bootTrace))).2 = none := by
    unfold persistStep
    simp [hbt]
  obtain ⟨r, hr1, hr2⟩ := tail_trace i (firmlaunch E i bootTrace)
  have hmem : ∀ e, Event.isTail e = false → e ∉ bootTrace →
      e ∉ (launchFlow (persistStep (emuNANDStep i (firmlaunch E i bootTrace))).1).trace := by
    intro e he hbo hin
    rw [hr1, List.mem_append] at hin
    rcases hin with hin | hin
    · exact hbo hin
    · rw [hr2 e hin] at he
      exact absurd he (by decide)
  refine ⟨launchFlow (persistStep (emuNANDStep i (firmlaunch E i bootTrace))).1,
    ?_, ?_, ?_, ?_, ?_, ?_⟩
  · unfold main
    rw [if_pos hb, if_neg hn]
    unfold finish
    exact congrArg (Outcome.launched _) hps
  · unfold main
    rw [if_pos (show ({ i with pad0 := p0, pad1 := p1 } : Input).launchByte5 % 256 ≠ 0 from hb),
      if_neg hn']
    unfold finish
    exact congrArg (Outcome.launched _) hps
  · rw [(launchFlow_frame _).2.1, (persistStep_frame _).2.1, hbt]
  · exact hmem _ rfl (by decide)
  · exact hmem _ rfl (by decide)
  · intro p
    exact hmem _ rfl (by simp [bootTrace])

/-- Witness of C6: a firmlaunch of AGB_FIRM, pad samples changed to R and L. -/
theorem main_firmlaunch_ignores_buttons_witness :
    ({ coldBoot 0x50 with launchByte5 := 0x32 } : Input).launchByte5 % 256 ≠ 0 ∧
    ({ coldBoot 0x50 with launchByte5 := 0x32 } : Input).readOk = true ∧
    ∃ l, main sampleEnv { coldBoot 0x50 with launchByte5 := 0x32 } = Outcome.launched l none ∧
      main sampleEnv { ({ coldBoot 0x50 with launchByte5 := 0x32 } : Input) with
        pad0 := 0x100, pad1 := 0x200 } = Outcome.launched l none ∧
      l.bootType = 1 ∧ Event.readPad ∉ l.trace ∧ Event.configureCFW ∉ l.trace ∧
      ∀ p, Event.loadPayload p ∉ l.trace :=
  ⟨by decide, rfl,
    main_firmlaunch_ignores_buttons sampleEnv { coldBoot 0x50 with launchByte5 := 0x32 }
      0x100 0x200 (by decide) rfl⟩

/-- C7: with a zero firmlaunch discriminant and no readable configuration file,
`main` opens the configuration menu, once and before anything is resolved; it
takes the first-boot branch (`bootType = 0`, `firmType = 0`, no reboot); the
buttons tested afterwards are those of the second sample of `HID_PAD`, and the
first sample has no influence on the run. -/
theorem main_without_config_opens_menu (E : Env) (i : Input) (p : Nat)
    (hb : i.launchByte5 % 256 = 0) (hr : i.readOk = false) :
    menuOpened E i = true ∧ pressedOf E i = i.pad1 ∧
    main E { i with pad0 := p } = main E i ∧
    ∃ l, (main E i).locals = some l ∧ l.bootType = 0 ∧ l.firmType = 0 ∧
      [Event.mountFs, Event.fileRead, Event.readPad, Event.configureCFW] <+: l.trace ∧
      l.trace.count Event.configureCFW = 1 := by
  have hm : menuOpened E i = true := by simp [menuOpened, needConfigInit, hr]
  have hm' : menuOpened E { i with pad0 := p } = true := by
    simp [menuOpened, needConfigInit, hr]
  refine ⟨hm, by simp [pressedOf, hm], main_pad0_irrelevant E i p hm hm', ?_⟩
  obtain ⟨l, r, hl, hbt, hft, htr, hr'⟩ := main_firstBoot_locals E i hb
  obtain ⟨r0, h0, hn0⟩ := sampleTrace_menu E i bootTrace hm
  have hnr : Event.configureCFW ∉ r := by
    intro hin
    rcases hr' _ hin with h | h <;> exact absurd h (by decide)
  refine ⟨l, hl, hbt, hft, ?_, ?_⟩
  · rw [htr, h0]
    exact ⟨r0 ++ r, by simp [bootTrace]⟩
  · rw [htr, h0, List.count_append, List.count_append, List.count_eq_zero.2 hn0,
      List.count_eq_zero.2 hnr]
    decide

/-- Witness of C7: a cold boot with no configuration file, R held after the
menu; the first pad sample is changed to SELECT. -/
theorem main_without_config_opens_menu_witness :
    ({ coldBoot 0 with readOk := false, pad1 := 0x100 } : Input).launchByte5 % 256 = 0 ∧
    ({ coldBoot 0 with readOk := false, pad1 := 0x100 } : Input).readOk = false ∧
    (menuOpened sampleEnv { coldBoot 0 with readOk := false, pad1 := 0x100 } = true ∧
      pressedOf sampleEnv { coldBoot 0 with readOk := false, pad1 := 0x100 } =
        ({ coldBoot 0 with readOk := false, pad1 := 0x100 } : Input).pad1 ∧
      main sampleEnv { ({ coldBoot 0 with readOk := false, pad1 := 0x100 } : Input) with
          pad0 := 4 } =
        main sampleEnv { coldBoot 0 with readOk := false, pad1 := 0x100 } ∧
      ∃ l, (main sampleEnv { coldBoot 0 with readOk := false, pad1 := 0x100 }).locals =
          some l ∧ l.bootType = 0 ∧ l.firmType = 0 ∧
        [Event.mountFs, Event.fileRead, Event.readPad, Event.configureCFW] <+: l.trace ∧
        l.trace.count Event.configureCFW = 1) :=
  ⟨rfl, rfl,
    main_without_config_opens_menu sampleEnv
      { coldBoot 0 with readOk := false, pad1 := 0x100 } 4 rfl rfl⟩

/-- C8: when the locator answers 0 for the slot asked, the decision ends on
the physical NAND: with `nandType` non-zero, both `nandType` and `firmSource`
end as 0; with `nandType` zero and `firmSource` non-zero, `firmSource` ends as
0.  Another run whose locator gives the same answers ends the same way. -/
theorem main_emuNAND_absent (E : Env) (i : Input) (l : Locals) (w : Option Nat)
    (hrun : main E i = Outcome.launched l w) :
    ((resolved E i).nandType ≠ 0 → i.locateEmuNAND (resolved E i).nandType = 0 →
      l.nandType = 0 ∧ l.firmSource = 0) ∧
    ((resolved E i).nandType = 0 → (resolved E i).firmSource ≠ 0 →
      i.locateEmuNAND (resolved E i).firmSource = 0 → l.nandType = 0 ∧ l.firmSource = 0) ∧
    (∀ j : Input,
      j.locateEmuNAND (resolved E i).nandType = i.locateEmuNAND (resolved E i).nandType →
      j.locateEmuNAND (resolved E i).firmSource = i.locateEmuNAND (resolved E i).firmSource →
      finish j (resolved E i) = Outcome.launched l w) := by
  have hfin := main_eq_finish E i l w hrun
  rw [hrun, finish_fields] at hfin
  injection hfin with hl hw
  have hn : l.nandType = (emuNANDStep i (resolved E i)).nandType := by
    rw [hl, (launchFlow_frame _).2.2.2.2.2.2.2.1, (persistStep_frame _).2.2.2.2.2.2.1]
  have hs : l.firmSource = (emuNANDStep i (resolved E i)).firmSource := by
    rw [hl, (launchFlow_frame _).2.2.2.2.2.2.2.2, (persistStep_frame _).2.2.2.2.2.2.2]
  refine ⟨fun h1 h2 => ?_, fun h1 h2 h3 => ?_, fun j h1 h2 => ?_⟩
  · rw [hn, hs]
    simp [emuNANDStep, h1, h2]
  · rw [hn, hs]
    simp [emuNANDStep, h1, h2, h3]
  · have he : emuNANDStep j (resolved E i) = emuNANDStep i (resolved E i) := by
      simp only [emuNANDStep, h1, h2]
    rw [finish_fields, he, hl, hw]

/-- Witness of C8: autoboot of the emuNAND on a card that holds none. -/
theorem main_emuNAND_absent_witness :
    main sampleEnv { coldBoot 0 with locateEmuNAND := fun _ => 0 } =
      Outcome.launched absentRun none ∧
    (resolved sampleEnv { coldBoot 0 with locateEmuNAND := fun _ => 0 }).nandType = 1 ∧
    absentRun.nandType = 0 ∧ absentRun.firmSource = 0 :=
  ⟨rfl, rfl,
    (main_emuNAND_absent sampleEnv { coldBoot 0 with locateEmuNAND := fun _ => 0 }
      absentRun none rfl).1 (by decide) rfl⟩

/-- Counterexample to C9, three runs with `CFG_BOOTENV = 7`, the protection
preference bit and the updated-sysNAND bit set.  Without the A9LH strap nothing
is forced and the emuNAND is booted; with the strap and a stored record that
names the emuNAND the decision is forced and the record is rewritten; with
SELECT held the menu zeroes `CFG_BOOTENV` and nothing is forced. -/
theorem main_agb_marker_not_enough :
    (sampleEnv.CONFIG 0x180 2 = 1 ∧ sampleEnv.CONFIG 0x180 1 = 1 ∧
      ∃ l w, main sampleEnv { coldBoot 0x180 with CFG_BOOTENV := 7 } = Outcome.launched l w ∧
        l.nandType = 1 ∧ l.firmSource = 1 ∧ l.needConfig = 1 ∧
        l.newConfig.testBit 4 = false) ∧
    (sampleEnv.CONFIG 0x189 2 = 1 ∧ sampleEnv.CONFIG 0x189 1 = 1 ∧
      ∃ l, main sampleEnv { coldBoot 0x189 with CFG_BOOTENV := 7, PDN_SPI_CNT := 0 } =
          Outcome.launched l (some 0x198) ∧
        l.nandType = 0 ∧ l.firmSource = 0 ∧ l.needConfig = 0) ∧
    (sampleEnv.CONFIG 0x188 2 = 1 ∧ sampleEnv.CONFIG 0x188 1 = 1 ∧
      ∃ l w, main sampleEnv
          { coldBoot 0x188 with CFG_BOOTENV := 7, PDN_SPI_CNT := 0, pad0 := 4 } =
          Outcome.launched l w ∧
        l.nandType = 1 ∧ l.firmSource = 1 ∧ l.needConfig = 1) :=
  ⟨⟨rfl, rfl, _, _, rfl, rfl, rfl, rfl, by decide⟩,
    ⟨rfl, rfl, _, rfl, rfl, rfl, rfl⟩,
    ⟨rfl, rfl, _, _, rfl, rfl, rfl, rfl⟩⟩

/-- C9 as the code has it: on a first boot with the A9LH strap present
(`PDN_SPI_CNT` zero), the configuration menu not opened, `CFG_BOOTENV` equal to
7 and the updated-sysNAND bit equal to 1, the decision is `nandType = 0`,
`firmSource = 0`, forced (`needConfig` ends as 0, bit 4 of `newConfig` is set,
no payload loader, no splash screen, no emuNAND lookup); the record is left
alone exactly when the low six bits of the stored word are `0b001000`, and
otherwise rewritten as `0x18` with the user bits. -/
theorem main_forced_after_agb (E : Env) (i : Input)
    (hb : i.launchByte5 % 256 = 0) (hstrap : i.PDN_SPI_CNT = 0)
    (hmenu : menuOpened E i = false) (henv : i.CFG_BOOTENV = 7)
    (hupd : E.CONFIG i.config 1 = 1) :
    ∃ l w, main E i = Outcome.launched l w ∧ l.nandType = 0 ∧ l.firmSource = 0 ∧
      l.needConfig = 0 ∧ l.newConfig.testBit 4 = true ∧
      (∀ p, Event.loadPayload p ∉ l.trace) ∧ Event.loadSplash ∉ l.trace ∧
      (∀ s, Event.locateEmuNAND s ∉ l.trace) ∧
      (w = none ↔ i.config &&& 0x3F = 8) ∧
      (∀ x, w = some x → x = 0x18 ||| (i.config &&& 0xFFFFFFC0)) := by
  obtain ⟨hfb, _, _, hc⟩ := firstBoot_forced_after_agb E i hstrap hmenu henv hupd
  have hbit : ∀ c : Nat, (0x18 ||| (c &&& 0xFFFFFFC0)).testBit 4 = true := by
    intro c
    rw [Nat.testBit_or]
    have : Nat.testBit 0x18 4 = true := by decide
    rw [this]
    rfl
  have he : emuNANDStep i (firstBoot E i bootTrace).1 = (firstBoot E i bootTrace).1 := by
    rw [hfb]
    simp [emuNANDStep]
  have hn : (firstBoot E i bootTrace).1.nandType = 0 := by rw [hfb]
  have hs : (firstBoot E i bootTrace).1.firmSource = 0 := by rw [hfb]
  have hnc : (firstBoot E i bootTrace).1.needConfig = 0 := by rw [hfb]
  have hnew : (firstBoot E i bootTrace).1.newConfig = 0x18 := by rw [hfb]
  have hcf : (firstBoot E i bootTrace).1.config = i.config := by
    rw [hfb]
    exact hc
  have htr : (firstBoot E i bootTrace).1.trace = sampleTrace E i bootTrace := by rw [hfb]; rfl
  have hbt := (firstBoot_frame E i bootTrace).1
  obtain ⟨hnone, hsome, hiff⟩ := persistStep_newConfig (firstBoot E i bootTrace).1 hbt
  rw [hn, hs, hnew] at hnone hsome hiff
  rw [hcf] at hsome hiff
  have hrun : main E i = Outcome.launched
      (launchFlow (persistStep (firstBoot E i bootTrace).1).1)
      (persistStep (firstBoot E i bootTrace).1).2 := by
    have hp : (firstBoot E i bootTrace).2 = false := by rw [hfb]
    unfold main
    rw [if_neg (by simpa using hb)]
    dsimp only
    rw [hp]
    simp only [Bool.false_eq_true, if_false]
    rw [finish_fields, he]
  obtain ⟨r, hr1, hr2⟩ := tail_trace i (firstBoot E i bootTrace).1
  rw [he, htr] at hr1
  have hmem : ∀ e, Event.isTail e = false →
      e ∉ [Event.mountFs, Event.fileRead, Event.readPad, Event.configureCFW, Event.chrono 0,
        Event.chrono 2, Event.exceptionSetup] →
      e ∉ (launchFlow (persistStep (firstBoot E i bootTrace).1).1).trace := by
    intro e he1 he2 hin
    rw [hr1, List.mem_append] at hin
    rcases hin with hin | hin
    · exact he2 (sampleTrace_mem E i e hin)
    · rw [hr2 e hin] at he1
      exact absurd he1 (by decide)
  refine ⟨_, _, hrun, ?_, ?_, ?_, ?_, ?_, ?_, ?_, ?_, ?_⟩
  · rw [(launchFlow_frame _).2.2.2.2.2.2.2.1, (persistStep_frame _).2.2.2.2.2.2.1, hn]
  · rw [(launchFlow_frame _).2.2.2.2.2.2.2.2, (persistStep_frame _).2.2.2.2.2.2.2, hs]
  · rw [(launchFlow_frame _).2.2.2.2.1, (persistStep_frame _).2.2.2.1, hnc]
  · rw [(launchFlow_frame _).2.2.2.1]
    cases hw : (persistStep (firstBoot E i bootTrace).1).2 with
    | none =>
      rw [hnone hw]
      decide
    | some x =>
      obtain ⟨h1, h2⟩ := hsome x hw
      rw [h1, h2]
      exact hbit i.config
  · intro p
    exact hmem _ rfl (by simp)
  · exact hmem _ rfl (by simp)
  · intro s hin
    have h1 := persist_launch_no_locate _ s hin
    rw [htr] at h1
    have h2 := sampleTrace_mem E i _ h1
    simp at h2
  · rw [hiff]
    constructor
    · intro h
      rw [← h]
      rfl
    · intro h
      rw [h]
      rfl
  · intro x hx
    exact (hsome x hx).2

/-- Witness of the amended C9: A9LH boot after AGB_FIRM, stored record `0x188`. -/
theorem main_forced_after_agb_witness :
    menuOpened sampleEnv { coldBoot 0x188 with CFG_BOOTENV := 7, PDN_SPI_CNT := 0 } = false ∧
    sampleEnv.CONFIG 0x188 1 = 1 ∧
    ∃ l w, main sampleEnv { coldBoot 0x188 with CFG_BOOTENV := 7, PDN_SPI_CNT := 0 } =
        Outcome.launched l w ∧ l.nandType = 0 ∧ l.firmSource = 0 ∧
      l.needConfig = 0 ∧ l.newConfig.testBit 4 = true ∧
      (∀ p, Event.loadPayload p ∉ l.trace) ∧ Event.loadSplash ∉ l.trace ∧
      (∀ s, Event.locateEmuNAND s ∉ l.trace) ∧
      (w = none ↔ (0x188 : Nat) &&& 0x3F = 8) ∧
      (∀ x, w = some x → x = 0x18 ||| ((0x188 : Nat) &&& 0xFFFFFFC0)) :=
  ⟨rfl, rfl,
    main_forced_after_agb sampleEnv { coldBoot 0x188 with CFG_BOOTENV := 7, PDN_SPI_CNT := 0 }
      rfl rfl rfl rfl rfl⟩

/-- Counterexample to C10: cold boot, autoboot on the emuNAND, second emuNAND
preferred, no button held, slot 2 present; the FIRM source is 1, not 2. -/
theorem second_slot_source_is_one :
    sampleEnv.CONFIG 0x200 0 = 0 ∧ sampleEnv.CONFIG 0x200 3 = 1 ∧
    pressedOf sampleEnv (coldBoot 0x200) = 0 ∧ (coldBoot 0x200).locateEmuNAND 2 = 2 ∧
    (forceBlock sampleEnv (coldBoot 0x200) (a9lhSetup sampleEnv (coldBoot 0x200) bootTrace)).needConfig = 1 ∧
    ∃ l w, main sampleEnv (coldBoot 0x200) = Outcome.launched l w ∧ l.nandType = 2 ∧
      l.firmSource = 1 ∧ l.firmSource ≠ 2 :=
  ⟨rfl, rfl, rfl, rfl, rfl, _, _, rfl, rfl, rfl, by decide⟩

/-- C10 as the code has it: on a first boot that is not forced and reaches
`launchFirm`, with the autoboot preference on the emuNAND, the second-emuNAND
preference set, none of R, L, B held and slot 2 found by the locator, the
decision is `nandType = 2` and `firmSource = 1`: the FIRM source is taken from
the NAND choice before the bump to the second slot. -/
theorem main_second_emuNAND (E : Env) (i : Input) (l : Locals) (w : Option Nat)
    (hrun : main E i = Outcome.launched l w) (hb : i.launchByte5 % 256 = 0)
    (hfree : (forceBlock E i (a9lhSetup E i bootTrace)).needConfig ≠ 0)
    (hauto : E.CONFIG (configOf E i) 0 ≠ 1) (hsecond : E.CONFIG (configOf E i) 3 = 1)
    (hR : pressedOf E i &&& E.BUTTON_R1 = 0) (hL : pressedOf E i &&& E.BUTTON_L1 = 0)
    (hB : pressedOf E i &&& E.BUTTON_B = 0) (hfound : i.locateEmuNAND 2 = 2) :
    l.nandType = 2 ∧ l.firmSource = 1 := by
  rcases main_launched E i l w hrun with ⟨hne, _⟩ | ⟨_, hp, hl, _⟩
  · exact absurd hb hne
  · have hfb : (firstBoot E i bootTrace).1.nandType = 2 ∧
        (firstBoot E i bootTrace).1.firmSource = 1 := by
      unfold firstBoot at hp ⊢
      unfold buttonBlock at hp ⊢
      simp only [] at hp ⊢
      rw [if_pos hfree] at hp ⊢
      split_ifs at hp ⊢ with hq
      apply buttonChoice_second_slot E _ _ hR hL hB
      · rw [(splashStep_frame E i _).1, (payloadStep_frame E _ _).1,
          (forceBlock_frame E i _).1]
        exact hauto
      · rw [(splashStep_frame E i _).1, (payloadStep_frame E _ _).1,
          (forceBlock_frame E i _).1]
        exact hsecond
    have hn : l.nandType = (emuNANDStep i (firstBoot E i bootTrace).1).nandType := by
      rw [hl, (launchFlow_frame _).2.2.2.2.2.2.2.1, (persistStep_frame _).2.2.2.2.2.2.1]
    have hs : l.firmSource = (emuNANDStep i (firstBoot E i bootTrace).1).firmSource := by
      rw [hl, (launchFlow_frame _).2.2.2.2.2.2.2.2, (persistStep_frame _).2.2.2.2.2.2.2]
    rw [hn, hs]
    simp [emuNANDStep, hfb.1, hfb.2, hfound]

/-- Witness of the amended C10 on the same cold boot. -/
theorem main_second_emuNAND_witness :
    main sampleEnv (coldBoot 0x200) = Outcome.launched secondSlotRun (some 0x206) ∧
    (coldBoot 0x200).launchByte5 % 256 = 0 ∧
    (forceBlock sampleEnv (coldBoot 0x200)
      (a9lhSetup sampleEnv (coldBoot 0x200) bootTrace)).needConfig ≠ 0 ∧
    sampleEnv.CONFIG (configOf sampleEnv (coldBoot 0x200)) 0 ≠ 1 ∧
    sampleEnv.CONFIG (configOf sampleEnv (coldBoot 0x200)) 3 = 1 ∧
    pressedOf sampleEnv (coldBoot 0x200) &&& sampleEnv.BUTTON_R1 = 0 ∧
    pressedOf sampleEnv (coldBoot 0x200) &&& sampleEnv.BUTTON_L1 = 0 ∧
    pressedOf sampleEnv (coldBoot 0x200) &&& sampleEnv.BUTTON_B = 0 ∧
    (coldBoot 0x200).locateEmuNAND 2 = 2 ∧
    secondSlotRun.nandType = 2 ∧ secondSlotRun.firmSource = 1 :=
  ⟨rfl, rfl, by decide, by decide, rfl, rfl, rfl, rfl, rfl,
    main_second_emuNAND sampleEnv (coldBoot 0x200) secondSlotRun (some 0x206) rfl rfl
      (by decide) (by decide) rfl rfl rfl rfl rfl⟩

/-- C11 on its failing input: with no configuration file the SAFE_MODE branch
is taken (`a9lhMode = 2`) but `needConfig` only drops from 2 to 1, so the button
block runs: `loadPayload` is called and, R being part of the combination, the
FIRM source ends as 1. -/
theorem safe_mode_without_config :
    safeModeNoConfig.launchByte5 % 256 = 0 ∧ safeModeNoConfig.PDN_SPI_CNT = 0 ∧
    safeModeNoConfig.CFG_BOOTENV = 0 ∧ safeModeNoConfig.pad0 = sampleEnv.SAFE_MODE ∧
    safeModeNoConfig.pad1 = sampleEnv.SAFE_MODE ∧
    main sampleEnv safeModeNoConfig = Outcome.launched safeModeNoConfigRun (some 12) ∧
    safeModeNoConfigRun.a9lhMode = 2 ∧ safeModeNoConfigRun.firmSource = 1 ∧
    safeModeNoConfigRun.needConfig = 1 ∧
    Event.loadPayload 0x341 ∈ safeModeNoConfigRun.trace :=
  ⟨rfl, rfl, rfl, rfl, rfl, rfl, rfl, rfl, rfl, by decide⟩

/-- C11: on a first boot with the A9LH strap present, `CFG_BOOTENV` read as zero
at line 150 and `pressed` equal to the SAFE_MODE combination at line 177, the
code does what the claim says exactly when a configuration file was read,
whether or not the menu was opened: the decision is `nandType = 0`,
`firmSource = 0`, `a9lhMode = 2`, `needConfig` ends as 0 and the button block
is left out (no payload loader, no splash screen, no emuNAND lookup).  With no
configuration file `needConfig` starts at 2 and line 182 leaves it at 1, so the
button block of line 187 runs on the combination: `loadPayload` is called when
the combination holds a payload button and, when it holds R and `updatedSys` is
zero, a run that reaches `launchFirm` has the FIRM source looked up on the
first emuNAND instead of 0. -/
theorem main_safe_mode (E : Env) (i : Input)
    (hb : i.launchByte5 % 256 = 0) (hstrap : i.PDN_SPI_CNT = 0)
    (henv : bootenvOf E i = 0) (hpad : pressedOf E i = E.SAFE_MODE) :
    (i.readOk = true →
      ∃ l w, main E i = Outcome.launched l w ∧ l.nandType = 0 ∧ l.firmSource = 0 ∧
        l.needConfig = 0 ∧ l.a9lhMode = 2 ∧
        (∀ p, Event.loadPayload p ∉ l.trace) ∧ Event.loadSplash ∉ l.trace ∧
        (∀ s, Event.locateEmuNAND s ∉ l.trace)) ∧
    (i.readOk = false →
      ∃ l, (main E i).locals = some l ∧ l.a9lhMode = 2 ∧ l.needConfig = 1 ∧
        (payloadWanted E l.config E.SAFE_MODE = true →
          Event.loadPayload E.SAFE_MODE ∈ l.trace) ∧
        (∀ w, main E i = Outcome.launched l w → (E.SAFE_MODE &&& E.BUTTON_R1) ≠ 0 →
          l.updatedSys = 0 →
          l.nandType = 0 ∧ l.firmSource = i.locateEmuNAND 1 ∧
            Event.locateEmuNAND 1 ∈ l.trace)) := by
  constructor
  · intro hread
    exact main_of_forced E i _ hb (firstBoot_safe_mode E i hstrap hread henv hpad) rfl rfl rfl
  · intro hread
    have hf := forceBlock_safe_mode_no_file E i hstrap hread henv hpad
    have hfb : firstBoot E i bootTrace = buttonBlock E i
        { (a9lhSetup E i bootTrace) with
          a9lhMode := 2, nandType := 0, firmSource := 0, needConfig := 1 } := by
      unfold firstBoot
      rw [hf]
    generalize hF : ({ (a9lhSetup E i bootTrace) with
      a9lhMode := 2, nandType := 0, firmSource := 0, needConfig := 1 } : Locals) = F at hfb
    have hFn : F.needConfig = 1 := by rw [← hF]
    have hFa : F.a9lhMode = 2 := by rw [← hF]
    have hrun := buttonBlock_runs E i F (by rw [hFn]; decide)
    rw [hpad] at hrun
    have hbf := buttonBlock_frame E i F
    cases hp : (buttonBlock E i F).2
    · have hmain : main E i = Outcome.launched
          (launchFlow (persistStep (emuNANDStep i (buttonBlock E i F).1)).1)
          (persistStep (emuNANDStep i (buttonBlock E i F).1)).2 := by
        unfold main
        rw [if_neg (by simpa using hb)]
        dsimp only
        rw [hfb, hp]
        simp only [Bool.false_eq_true, if_false]
        rw [finish_fields]
      obtain ⟨r, hr1, _⟩ := tail_trace i (buttonBlock E i F).1
      refine ⟨_, by rw [hmain]; rfl, ?_, ?_, ?_, ?_⟩
      · rw [(launchFlow_frame _).2.2.2.2.2.1, (persistStep_frame _).2.2.2.2.1,
          (emuNANDStep_frame i _).2.2.2.2.2.1, hbf.2.2.2.2.2.1, hFa]
      · rw [(launchFlow_frame _).2.2.2.2.1, (persistStep_frame _).2.2.2.1,
          (emuNANDStep_frame i _).2.2.2.2.1, hbf.2.2.2.2.1, hFn]
      · rw [(launchFlow_frame _).1, (persistStep_frame _).1, (emuNANDStep_frame i _).1, hbf.1]
        intro hw
        rw [hr1]
        exact List.mem_append_left _ (hrun.1 hw)
      · intro w _ hR hu
        rw [(launchFlow_frame _).2.2.2.2.2.2.1, (persistStep_frame _).2.2.2.2.2.1,
          (emuNANDStep_frame i _).2.2.2.2.2.2, hbf.2.2.2.2.2.2] at hu
        obtain ⟨hn0, hs1⟩ := hrun.2 hp hR hu
        have hemu : emuNANDStep i (buttonBlock E i F).1 =
            { (buttonBlock E i F).1 with
              firmSource := i.locateEmuNAND 1
              trace := (buttonBlock E i F).1.trace ++ [Event.locateEmuNAND 1] } := by
          simp [emuNANDStep, hn0, hs1]
        obtain ⟨r2, h2, _⟩ := persistStep_trace (emuNANDStep i (buttonBlock E i F).1)
        obtain ⟨r3, h3, _⟩ := launchFlow_trace (persistStep (emuNANDStep i (buttonBlock E i F).1)).1
        refine ⟨?_, ?_, ?_⟩
        · rw [(launchFlow_frame _).2.2.2.2.2.2.2.1, (persistStep_frame _).2.2.2.2.2.2.1, hemu]
          exact hn0
        · rw [(launchFlow_frame _).2.2.2.2.2.2.2.2, (persistStep_frame _).2.2.2.2.2.2.2, hemu]
        · rw [h3, h2, hemu]
          simp
    · have hmain : main E i = Outcome.chainloaded (buttonBlock E i F).1 := by
        unfold main
        rw [if_neg (by simpa using hb)]
        dsimp only
        rw [hfb, hp]
        simp
      refine ⟨_, by rw [hmain]; rfl, ?_, ?_, ?_, ?_⟩
      · rw [hbf.2.2.2.2.2.1, hFa]
      · rw [hbf.2.2.2.2.1, hFn]
      · rw [hbf.1]
        exact hrun.1
      · intro w hw
        rw [hmain] at hw
        exact absurd hw (by simp)

/-- Witness of C11 on both sides: a boot with the stored record `0x40` where
SELECT opens the menu and the SAFE_MODE combination is held afterwards, and
the boot with no configuration file. -/
theorem main_safe_mode_witness :
    (∃ l w, main sampleEnv
        { coldBoot 0x40 with PDN_SPI_CNT := 0, pad0 := 4, pad1 := 0x341 } =
          Outcome.launched l w ∧ l.nandType = 0 ∧ l.firmSource = 0 ∧
        l.needConfig = 0 ∧ l.a9lhMode = 2 ∧
        (∀ p, Event.loadPayload p ∉ l.trace) ∧ Event.loadSplash ∉ l.trace ∧
        (∀ s, Event.locateEmuNAND s ∉ l.trace)) ∧
    menuOpened sampleEnv { coldBoot 0x40 with PDN_SPI_CNT := 0, pad0 := 4, pad1 := 0x341 } =
      true ∧
    payloadWanted sampleEnv 0 sampleEnv.SAFE_MODE = true ∧
    (sampleEnv.SAFE_MODE &&& sampleEnv.BUTTON_R1) ≠ 0 ∧
    ∃ l, (main sampleEnv safeModeNoConfig).locals = some l ∧ l.a9lhMode = 2 ∧
      l.needConfig = 1 ∧
      (payloadWanted sampleEnv l.config sampleEnv.SAFE_MODE = true →
        Event.loadPayload sampleEnv.SAFE_MODE ∈ l.trace) ∧
      (∀ w, main sampleEnv safeModeNoConfig = Outcome.launched l w →
        (sampleEnv.SAFE_MODE &&& sampleEnv.BUTTON_R1) ≠ 0 → l.updatedSys = 0 →
        l.nandType = 0 ∧ l.firmSource = safeModeNoConfig.locateEmuNAND 1 ∧
          Event.locateEmuNAND 1 ∈ l.trace) :=
  ⟨(main_safe_mode sampleEnv { coldBoot 0x40 with PDN_SPI_CNT := 0, pad0 := 4, pad1 := 0x341 }
      rfl rfl rfl rfl).1 rfl,
    rfl, by decide, by decide,
    (main_safe_mode sampleEnv safeModeNoConfig rfl rfl rfl rfl).2 rfl⟩

/-- C20: at the end of a first boot that reaches `launchFirm`, the record in the
file (the word written, or the unchanged `config` when nothing was written)
holds `nandType | (firmSource << 2) | (protection << 3)` in bits 0 to 3 and 0 in
bit 5, where `protection` is 1 when `a9lhMode` is non-zero; the firmlaunch
branch decodes from it the NAND type, the FIRM source and the protection flag
of the first boot.  The emuNAND locator is assumed to leave the slot asked
or a lower one, and `CONFIG` to give a bit. -/
theorem main_persisted_decision (E : Env) (i : Input) (l : Locals) (w : Option Nat)
    (hrun : main E i = Outcome.launched l w) (hb : i.launchByte5 % 256 = 0)
    (hdown : ∀ s, i.locateEmuNAND s ≤ s) (hbit : ∀ c a, E.CONFIG c a ≤ 1) :
    (w.getD l.config) &&& 0xF =
      l.nandType ||| (l.firmSource <<< 2) ||| ((if l.a9lhMode ≠ 0 then 1 else 0) <<< 3) ∧
    (w.getD l.config).testBit 5 = false ∧
    ∀ (j : Input) (t : List Event), j.config = w.getD l.config →
      (firmlaunch E j t).nandType = l.nandType ∧
      (firmlaunch E j t).firmSource = l.firmSource ∧
      (firmlaunch E j t).a9lhMode = (if l.a9lhMode ≠ 0 then 1 else 0) := by
  obtain ⟨hnone, hsome, hiff⟩ := main_newConfig_pack E i l w hrun hb
  rcases main_launched E i l w hrun with ⟨hne, _⟩ | ⟨_, hp, hl, _⟩
  · exact absurd hb hne
  · -- bounds on the decision
    have hs1 := (firstBoot_summary E i bootTrace hp).1
    have hn1 := firstBoot_nandType_le E i bootTrace hbit hp
    obtain ⟨hn2, hs2⟩ := emuNANDStep_down i (firstBoot E i bootTrace).1 hdown
    have hn : l.nandType < 4 := by
      rw [hl, (launchFlow_frame _).2.2.2.2.2.2.2.1, (persistStep_frame _).2.2.2.2.2.2.1]
      omega
    have hs : l.firmSource < 2 := by
      rw [hl, (launchFlow_frame _).2.2.2.2.2.2.2.2, (persistStep_frame _).2.2.2.2.2.2.2]
      omega
    obtain ⟨_, ha1, ha2⟩ := a9lhSetup_bounds E i bootTrace hbit
    have hf := forcedAfterAgb_le E i
    -- the protection flag of the decision is the one packed at line 145
    have hprot : (if l.a9lhMode ≠ 0 then 1 else 0) = (a9lhSetup E i bootTrace).a9lhMode := by
      have hla : l.a9lhMode = (forceBlock E i (a9lhSetup E i bootTrace)).a9lhMode := by
        rw [hl, (launchFlow_frame _).2.2.2.2.2.1, (persistStep_frame _).2.2.2.2.1,
          (emuNANDStep_frame i _).2.2.2.2.2.1]
        unfold firstBoot
        rw [(buttonBlock_frame E i _).2.2.2.2.2.1]
      rcases forceBlock_a9lhMode E i (a9lhSetup E i bootTrace) with h | ⟨hst, h⟩
      · rw [hla, h]
        have : (a9lhSetup E i bootTrace).a9lhMode = 0 ∨ (a9lhSetup E i bootTrace).a9lhMode = 1 := by
          omega
        rcases this with h0 | h0 <;> simp [h0]
      · rw [hla, h, ha2 hst]
        rfl
    -- the record modulo 64
    have hlow : ∃ q, q < 2 ∧ (w.getD l.config) % 64 =
        (if q = 0 then packBootConfig l.nandType l.firmSource
            (a9lhSetup E i bootTrace).a9lhMode (forcedAfterAgb E i)
          else packBootConfig l.nandType l.firmSource
            (a9lhSetup E i bootTrace).a9lhMode (forcedAfterAgb E i) &&& 0x2F) := by
      have hlt := (packBootConfig_low l.nandType hn l.firmSource hs
        (a9lhSetup E i bootTrace).a9lhMode (by omega) (forcedAfterAgb E i) (by omega)
        0 (by decide)).2.2.2.2.2
      simp only [if_true] at hlt
      cases w with
      | none =>
        refine ⟨1, by decide, ?_⟩
        simp only [Option.getD_none, if_false, Nat.one_ne_zero]
        rw [hiff.1 rfl]
        exact (Nat.and_pow_two_sub_one_eq_mod l.config 6).symm
      | some x =>
        refine ⟨0, by decide, ?_⟩
        simp only [Option.getD_some, if_true]
        rw [(hsome x rfl).2]
        exact or_user_bits_mod _ _ hlt
    obtain ⟨q, hq, hlow⟩ := hlow
    obtain ⟨p1, p2, p3, p4, p5, _⟩ := packBootConfig_low l.nandType hn l.firmSource hs
      (a9lhSetup E i bootTrace).a9lhMode (by omega) (forcedAfterAgb E i) (by omega) q hq
    rw [← hlow] at p1 p2 p3 p4 p5
    obtain ⟨f1, f2, f3, f4, f5⟩ := low_fields (w.getD l.config)
    rw [hprot]
    refine ⟨by rw [f1, p1], ?_, ?_⟩
    · rw [f2, p2]
      rfl
    · intro j t hj
      unfold firmlaunch
      simp only [hj]
      exact ⟨by rw [f3, p3], by rw [f4, p4], by rw [f5, p5]⟩

/-- Witness of C20 on the cold boot with stored word `0x200`. -/
theorem main_persisted_decision_witness :
    main sampleEnv (coldBoot 0x200) = Outcome.launched secondSlotRun (some 0x206) ∧
    (∀ s, (coldBoot 0x200).locateEmuNAND s ≤ s) ∧ (∀ c a, sampleEnv.CONFIG c a ≤ 1) ∧
    ((some 0x206 : Option Nat).getD secondSlotRun.config) &&& 0xF =
      secondSlotRun.nandType ||| (secondSlotRun.firmSource <<< 2) |||
        ((if secondSlotRun.a9lhMode ≠ 0 then 1 else 0) <<< 3) ∧
    ((some 0x206 : Option Nat).getD secondSlotRun.config).testBit 5 = false ∧
    ∀ (j : Input) (t : List Event),
      j.config = (some 0x206 : Option Nat).getD secondSlotRun.config →
      (firmlaunch sampleEnv j t).nandType = secondSlotRun.nandType ∧
      (firmlaunch sampleEnv j t).firmSource = secondSlotRun.firmSource ∧
      (firmlaunch sampleEnv j t).a9lhMode = (if secondSlotRun.a9lhMode ≠ 0 then 1 else 0) :=
  ⟨rfl, fun s => Nat.min_le_left s 2, fun _ _ => Nat.and_le_right,
    main_persisted_decision sampleEnv (coldBoot 0x200) secondSlotRun (some 0x206) rfl rfl
      (fun s => Nat.min_le_left s 2) (fun _ _ => Nat.and_le_right)⟩

/-! ## Properties of loading, patching and launching -/

/-- Counterexample to C12: a section loaded over the section table changes what
the loop copies next.  Section 0 of `overwritingFirm` is four bytes; section 1
has size 0x10, so C12 has sections 0 and 1 copied.  Loaded over the size of
entry 1, section 0 ends the loop: section 1 is not copied.  Loaded over the
address or the offset of entry 1, it has section 1 copied to another address
or from another offset than the recorded one. -/
theorem section_copy_hits_table :
    (∀ word, word = 0x7C ∨ word = 0x74 ∨ word = 0x70 →
      copiedSections (sectionAt sampleLayout (overwritingFirm word)) 0 = [0, 1] ∧
      sectionAt sampleLayout (overwritingFirm word) 1 =
        { offset := 0x300, address := 0x1FF80000, size := 0x10 }) ∧
    (launchFirm sampleLayout [] 0 0 (overwritingFirm 0x7C) 1 1).copies =
      [Copy.mem 0x2400007C 0x24000200 4] ∧
    (launchFirm sampleLayout [] 0 0 (overwritingFirm 0x74) 1 1).copies =
      [Copy.mem 0x24000074 0x24000200 4, Copy.mem 0 0x24000300 0x10] ∧
    (launchFirm sampleLayout [] 0 0 (overwritingFirm 0x70) 1 1).copies =
      [Copy.mem 0x24000070 0x24000200 4, Copy.mem 0x1FF80000 0x24000000 0x10] := by
  refine ⟨?_, by decide, by decide, by decide⟩
  intro word h
  rcases h with h | h | h <;> subst h <;> decide

/-- C12 as the code has it.  Let `T` be the section table as the staged header
holds it when the loop of `launchFirm` starts (for the main firmware type,
after `copySection0AndInjectLoader`), and `start` be 1 for the main firmware
type and 0 otherwise.  Provided no copied section is loaded over a word of the
table that the loop reads afterwards (the size of a later entry, and its offset
and address when that size is not zero), the loop calls `memcpy` for exactly
the sections `i` in `[start, 4)` with no zero-size section from `start` up to
`i`, in ascending order, each with its recorded size from `firm + offset` to
its load address, and the memory it leaves is the one these calls give.  A
copied section whose load range meets neither the load range of a later copied
section nor, for an earlier one, the staged bytes that one is copied from, is
found byte for byte at its load address, and no byte outside the load ranges
is changed. -/
theorem launchFirm_copies (H : firmHeader) (injector : List Nat)
    (loaderOffset loaderSize : Nat) (m : Mem) (firmType bootType start : Nat) (m1 : Mem)
    (T : Nat → firmSectionHeader)
    (hstart : start = if firmType = 0 then 1 else 0)
    (hm1 : m1 = if firmType = 0
      then (copySection0AndInjectLoader H injector loaderOffset loaderSize m).2 else m)
    (hT : T = sectionAt H m1)
    (hkept : ∀ i j, start ≤ i → i < j → j < 4 →
      (∀ t, start ≤ t → t < j → (T t).size ≠ 0) → entryKept H T i j) :
    (launchFirm H injector loaderOffset loaderSize m firmType bootType).copies =
      (if firmType = 0
        then (copySection0AndInjectLoader H injector loaderOffset loaderSize m).1 else []) ++
      (copiedSections T start).map (fun i =>
        Copy.mem (T i).address (firmBase + (T i).offset) (T i).size) ∧
    List.Pairwise (fun i j => i < j) (copiedSections T start) ∧
    (launchFirm H injector loaderOffset loaderSize m firmType bootType).copied =
      applyCopies m1 ((copiedSections T start).map (fun i =>
        Copy.mem (T i).address (firmBase + (T i).offset) (T i).size)) ∧
    (∀ i, i ∈ copiedSections T start →
      (∀ j, j ∈ copiedSections T start → i < j →
        apart (T i).address (T i).size (T j).address (T j).size) →
      (∀ j, j ∈ copiedSections T start → j < i →
        apart (T j).address (T j).size (firmBase + (T i).offset) (T i).size) →
      readBytes (launchFirm H injector loaderOffset loaderSize m firmType bootType).copied
          (T i).address (T i).size =
        readBytes m1 (firmBase + (T i).offset) (T i).size) ∧
    ∀ a, (∀ i, i ∈ copiedSections T start →
        a < (T i).address ∨ (T i).address + (T i).size ≤ a) →
      (launchFirm H injector loaderOffset loaderSize m firmType bootType).copied a = m1 a := by
  have hs1 : start ≤ 1 := by rw [hstart]; split_ifs <;> omega
  have hloop : copyLoop H 4 start m1 = (copyPlan T 4 start, applyCopies m1 (copyPlan T 4 start)) := by
    apply copyLoop_eq_plan H T 4 start m1
    · intro j _ _ _
      rw [hT]
      exact ⟨rfl, fun _ => rfl⟩
    · exact hkept
  have hplan := copyPlan_eq_map T start hs1
  have hcopied : (launchFirm H injector loaderOffset loaderSize m firmType bootType).copied =
      applyCopies m1 (copyPlan T 4 start) := by
    show (copyLoop H 4 (if firmType = 0 then 1 else 0)
      (if firmType = 0 then copySection0AndInjectLoader H injector loaderOffset loaderSize m
        else ([], m)).2).2 = _
    have : (if firmType = 0 then copySection0AndInjectLoader H injector loaderOffset loaderSize m
        else ([], m)).2 = m1 := by rw [hm1]; split_ifs <;> rfl
    rw [this, ← hstart, hloop]
  have hcopies : (launchFirm H injector loaderOffset loaderSize m firmType bootType).copies =
      (if firmType = 0
        then (copySection0AndInjectLoader H injector loaderOffset loaderSize m).1 else []) ++
      copyPlan T 4 start := by
    show (if firmType = 0 then copySection0AndInjectLoader H injector loaderOffset loaderSize m
        else ([], m)).1 ++ (copyLoop H 4 (if firmType = 0 then 1 else 0)
      (if firmType = 0 then copySection0AndInjectLoader H injector loaderOffset loaderSize m
        else ([], m)).2).1 = _
    have h2 : (if firmType = 0 then copySection0AndInjectLoader H injector loaderOffset loaderSize m
        else ([], m)).2 = m1 := by rw [hm1]; split_ifs <;> rfl
    have h1 : (if firmType = 0 then copySection0AndInjectLoader H injector loaderOffset loaderSize m
        else ([], m)).1 = (if firmType = 0
        then (copySection0AndInjectLoader H injector loaderOffset loaderSize m).1 else []) := by
      split_ifs <;> rfl
    rw [h2, h1, ← hstart, hloop]
  have hmap : (copiedSections T start).map (fun i =>
      Copy.mem (T i).address (firmBase + (T i).offset) (T i).size) = copyPlan T 4 start := by
    rw [hplan]
    rfl
  refine ⟨by rw [hcopies, hmap], ?_, by rw [hcopied, hmap], ?_, ?_⟩
  · unfold copiedSections
    exact List.Pairwise.filter _ (List.pairwise_lt_range 4)
  · intro i hi hlater hearlier
    rw [hcopied]
    have hi' := (mem_copiedSections T start i).1 hi
    apply copyPlan_content T 4 start m1 i hi'.1 (by omega) hi'.2.1 hi'.2.2
    · intro j hij hj4 hnz
      exact hlater j ((mem_copiedSections T start j).2 ⟨by omega, hj4, hnz⟩) hij
    · intro j hsj hji
      exact hearlier j ((mem_copiedSections T start j).2
        ⟨hsj, by omega, fun t h1 h2 => hi'.2.2 t h1 (by omega)⟩) hji
  · intro a ha
    rw [hcopied]
    apply copyPlan_out
    intro j hsj hj4 hnz
    exact ha j ((mem_copiedSections T start j).2 ⟨hsj, hj4, hnz⟩)

/-- Witness of the amended C12: `sampleFirm` launched as the main firmware type.
The loop starts at section 1 and copies sections 1 and 2, which are found byte
for byte at their load addresses. -/
theorem launchFirm_copies_witness :
    copiedSections (sectionAt sampleLayout
      (copySection0AndInjectLoader sampleLayout [1, 2, 3] 0x10 0x20 sampleFirm).2) 1 = [1, 2] ∧
    (launchFirm sampleLayout [1, 2, 3] 0x10 0x20 sampleFirm 0 0).copies =
      [Copy.mem 0x1FF00000 0x24000200 0x10, Copy.blob 0x1FF00010 [1, 2, 3],
        Copy.mem 0x1FF00013 0x24000230 0xD0, Copy.mem 0x1FF80000 0x24000300 0x200,
        Copy.mem 0x08006800 0x24000500 0x40] ∧
    readBytes (launchFirm sampleLayout [1, 2, 3] 0x10 0x20 sampleFirm 0 0).copied
        0x1FF80000 0x200 =
      readBytes (copySection0AndInjectLoader sampleLayout [1, 2, 3] 0x10 0x20 sampleFirm).2
        0x24000300 0x200 ∧
    readBytes (launchFirm sampleLayout [1, 2, 3] 0x10 0x20 sampleFirm 0 0).copied
        0x08006800 0x40 =
      readBytes (copySection0AndInjectLoader sampleLayout [1, 2, 3] 0x10 0x20 sampleFirm).2
        0x24000500 0x40 :=
  have h := launchFirm_copies sampleLayout [1, 2, 3] 0x10 0x20 sampleFirm 0 0 1
    (copySection0AndInjectLoader sampleLayout [1, 2, 3] 0x10 0x20 sampleFirm).2
    (sectionAt sampleLayout
      (copySection0AndInjectLoader sampleLayout [1, 2, 3] 0x10 0x20 sampleFirm).2)
    rfl rfl rfl
    (by
      intro i j hi hij hj _
      have hj' : j = 2 ∨ j = 3 := by omega
      have hi' : i = 1 ∨ i = 2 := by omega
      rcases hj' with hj' | hj' <;> rcases hi' with hi' | hi' <;> subst hi' <;> subst hj' <;>
        first
          | omega
          | (unfold entryKept; decide))
  ⟨by decide, by decide,
    h.2.2.2.1 1 (by decide) (by decide) (by decide),
    h.2.2.2.1 2 (by decide) (by decide) (by decide)⟩

/-- Counterexample to C13: section 0 of `spliceFirm`, eight bytes staged at
`firm + 0x200`, with the loader at bytes 2 and 3 and an injector of four bytes;
in each case `loaderOffset + loaderSize` is within the size.  Loaded at
`firm + 0x202`, the injector lands on staged bytes 4 to 7 before the third copy
reads them, so the result ends with the injector again instead of those bytes.
Loaded at `firm + 0x44`, the first copy lands on `section[0].address`, so the
injector and the remainder go elsewhere.  Loaded at `firm + 0x48` with the
loader at bytes 4 and 5 and the injector `[9, 0, 0, 0]`, the injector lands on
`section[0].size`, which then reads 9, so the third copy is of three bytes
instead of two and writes past the end of the spliced range. -/
theorem splice_over_what_is_read :
    (2 + 2 ≤ (sectionAt sampleLayout (spliceFirm (firmBase + 0x202)) 0).size ∧
      readBytes (copySection0AndInjectLoader sampleLayout [1, 2, 3, 4] 2 2
          (spliceFirm (firmBase + 0x202))).2 (firmBase + 0x202) (8 - 2 + 4) ≠
        readBytes (spliceFirm (firmBase + 0x202)) (firmBase + 0x200) 2 ++ [1, 2, 3, 4] ++
          readBytes (spliceFirm (firmBase + 0x202)) (firmBase + 0x200 + 2 + 2) (8 - (2 + 2))) ∧
    (2 + 2 ≤ (sectionAt sampleLayout (spliceFirm (firmBase + 0x44)) 0).size ∧
      readBytes (copySection0AndInjectLoader sampleLayout [1, 2, 3, 4] 2 2
          (spliceFirm (firmBase + 0x44))).2 (firmBase + 0x44) (8 - 2 + 4) ≠
        readBytes (spliceFirm (firmBase + 0x44)) (firmBase + 0x200) 2 ++ [1, 2, 3, 4] ++
          readBytes (spliceFirm (firmBase + 0x44)) (firmBase + 0x200 + 2 + 2) (8 - (2 + 2))) ∧
    (4 + 2 ≤ (sectionAt sampleLayout (spliceFirm (firmBase + 0x48)) 0).size ∧
      (copySection0AndInjectLoader sampleLayout [9, 0, 0, 0] 4 2
          (spliceFirm (firmBase + 0x48))).2 (firmBase + 0x48 + (8 - 2 + 4)) ≠
        spliceFirm (firmBase + 0x48) (firmBase + 0x48 + (8 - 2 + 4))) := by
  decide

/-- C13 as the code has it: for section 0 of size `n` as the staged header holds
it on entry, and a loader span with `loaderOffset + loaderSize ≤ n`, provided
the bytes the first two copies write (`loaderOffset + injector_size` bytes from
the load address) meet neither the staged remainder of section 0 that the third
copy reads nor the words `section[0].address` and `section[0].size` of the
header, `copySection0AndInjectLoader` makes its three copies from the recorded
values and leaves at the load address the bytes of section 0 before the loader,
the injector and the bytes of section 0 after the loader, `n - loaderSize +
injector_size` bytes in all, and changes no byte outside that range. -/
theorem copySection0AndInjectLoader_splice (H : firmHeader) (injector : List Nat)
    (loaderOffset loaderSize : Nat) (m : Mem) (s : firmSectionHeader)
    (hs : s = sectionAt H m 0)
    (hfit : loaderOffset + loaderSize ≤ s.size)
    (hsrc : apart s.address (loaderOffset + injector.length)
      (firmBase + s.offset + loaderOffset + loaderSize) (s.size - (loaderOffset + loaderSize)))
    (haddr : apart s.address (loaderOffset + injector.length) (firmBase + H.sectionAddress 0) 4)
    (hsize : apart s.address (loaderOffset + injector.length) (firmBase + H.sectionSize 0) 4) :
    (copySection0AndInjectLoader H injector loaderOffset loaderSize m).1 =
      [Copy.mem s.address (firmBase + s.offset) loaderOffset,
        Copy.blob (s.address + loaderOffset) injector,
        Copy.mem (s.address + loaderOffset + injector.length)
          (firmBase + s.offset + loaderOffset + loaderSize)
          (s.size - (loaderOffset + loaderSize))] ∧
    readBytes (copySection0AndInjectLoader H injector loaderOffset loaderSize m).2
        s.address (s.size - loaderSize + injector.length) =
      readBytes m (firmBase + s.offset) loaderOffset ++ injector ++
        readBytes m (firmBase + s.offset + loaderOffset + loaderSize)
          (s.size - (loaderOffset + loaderSize)) ∧
    ∀ a, a < s.address ∨ s.address + (s.size - loaderSize + injector.length) ≤ a →
      (copySection0AndInjectLoader H injector loaderOffset loaderSize m).2 a = m a := by
  have hn32 : s.size < 2 ^ 32 := by rw [hs]; exact read32_lt _ _
  have hA : read32 m (firmBase + H.sectionAddress 0) = s.address := by rw [hs]; rfl
  have hN : read32 m (firmBase + H.sectionSize 0) = s.size := by rw [hs]; rfl
  have hO : read32 m (firmBase + H.sectionOffset 0) = s.offset := by rw [hs]; rfl
  generalize hAe : s.address = A at hsrc haddr hsize hA ⊢
  generalize hSe : firmBase + s.offset = S at hsrc ⊢
  generalize hne : s.size = n at hfit hsrc hn32 hN ⊢
  have hr : (n + 2 ^ 32 - (loaderOffset + loaderSize) % 2 ^ 32) % 2 ^ 32 =
      n - (loaderOffset + loaderSize) := by omega
  have ha1 : apart A loaderOffset (firmBase + H.sectionAddress 0) 4 := by
    unfold apart at haddr ⊢; omega
  have ha2 : apart (A + loaderOffset) injector.length (firmBase + H.sectionAddress 0) 4 := by
    unfold apart at haddr ⊢; omega
  have hn1 : apart A loaderOffset (firmBase + H.sectionSize 0) 4 := by
    unfold apart at hsize ⊢; omega
  have hn2 : apart (A + loaderOffset) injector.length (firmBase + H.sectionSize 0) 4 := by
    unfold apart at hsize ⊢; omega
  have hA1 : read32 (memcpy m A S loaderOffset) (firmBase + H.sectionAddress 0) = A := by
    rw [read32_memcpy_apart _ _ _ _ _ ha1, hA]
  have hA2 : read32 (memcpyBlob (memcpy m A S loaderOffset) (A + loaderOffset) injector)
      (firmBase + H.sectionAddress 0) = A := by
    rw [read32_memcpyBlob_apart _ _ _ _ ha2, hA1]
  have hN2 : read32 (memcpyBlob (memcpy m A S loaderOffset) (A + loaderOffset) injector)
      (firmBase + H.sectionSize 0) = n := by
    rw [read32_memcpyBlob_apart _ _ _ _ hn2, read32_memcpy_apart _ _ _ _ _ hn1, hN]
  have hrun : copySection0AndInjectLoader H injector loaderOffset loaderSize m =
      ([Copy.mem A S loaderOffset, Copy.blob (A + loaderOffset) injector,
        Copy.mem (A + loaderOffset + injector.length) (S + loaderOffset + loaderSize)
          (n - (loaderOffset + loaderSize))],
        memcpy (memcpyBlob (memcpy m A S loaderOffset) (A + loaderOffset) injector)
          (A + loaderOffset + injector.length) (S + loaderOffset + loaderSize)
          (n - (loaderOffset + loaderSize))) := by
    simp only [copySection0AndInjectLoader, sectionAt, Copy.apply, hA, hO, hSe, hA1, hA2, hN2, hr]
  rw [hrun]
  unfold apart at hsrc
  have htot : n - loaderSize + injector.length =
      loaderOffset + injector.length + (n - (loaderOffset + loaderSize)) := by omega
  refine ⟨rfl, ?_, ?_⟩
  · simp only []
    rw [htot, readBytes_add, readBytes_add]
    congr 1
    · congr 1
      · apply readBytes_congr
        intro k hk
        rw [memcpy_out _ _ _ _ _ (by omega), memcpyBlob_out _ _ _ _ (by omega),
          memcpy_in _ _ _ _ _ (by omega) (by omega)]
        congr 1
        omega
      · apply readBytes_blob
        intro k hk
        rw [memcpy_out _ _ _ _ _ (by omega), memcpyBlob_in _ _ _ _ (by omega) (by omega)]
        congr 1
        omega
    · apply readBytes_congr
      intro k hk
      rw [memcpy_in _ _ _ _ _ (by omega) (by omega), memcpyBlob_out _ _ _ _ (by omega),
        memcpy_out _ _ _ _ _ (by omega)]
      congr 1
      omega
  · intro a ha
    simp only []
    rw [memcpy_out _ _ _ _ _ (by omega), memcpyBlob_out _ _ _ _ (by omega),
      memcpy_out _ _ _ _ _ (by omega)]

/-- Witness of the amended C13: section 0 of `sampleFirm`, a loader of 0x20
bytes at offset 0x10 and an injector of three bytes. -/
theorem copySection0AndInjectLoader_splice_witness :
    sectionAt sampleLayout sampleFirm 0 =
      { offset := 0x200, address := 0x1FF00000, size := 0x100 } ∧
    (copySection0AndInjectLoader sampleLayout [1, 2, 3] 0x10 0x20 sampleFirm).1 =
      [Copy.mem 0x1FF00000 (firmBase + 0x200) 0x10, Copy.blob (0x1FF00000 + 0x10) [1, 2, 3],
        Copy.mem (0x1FF00000 + 0x10 + [1, 2, 3].length) (firmBase + 0x200 + 0x10 + 0x20)
          (0x100 - (0x10 + 0x20))] ∧
    readBytes (copySection0AndInjectLoader sampleLayout [1, 2, 3] 0x10 0x20 sampleFirm).2
        0x1FF00000 (0x100 - 0x20 + [1, 2, 3].length) =
      readBytes sampleFirm (firmBase + 0x200) 0x10 ++ [1, 2, 3] ++
        readBytes sampleFirm (firmBase + 0x200 + 0x10 + 0x20) (0x100 - (0x10 + 0x20)) ∧
    ∀ a, a < 0x1FF00000 ∨ 0x1FF00000 + (0x100 - 0x20 + [1, 2, 3].length) ≤ a →
      (copySection0AndInjectLoader sampleLayout [1, 2, 3] 0x10 0x20 sampleFirm).2 a =
        sampleFirm a :=
  ⟨by decide,
    copySection0AndInjectLoader_splice sampleLayout [1, 2, 3] 0x10 0x20 sampleFirm
      { offset := 0x200, address := 0x1FF00000, size := 0x100 } (by decide) (by decide)
      (by decide) (by decide) (by decide)⟩

/-- Counterexample to C14: on the 9.0 FIRM of the older console
(`section[2].hash` equal to `firm90Hash`, `nativeFirmType = 0`) with
`a9lhMode = 2`, the firmlaunch patch is applied. -/
theorem firmlaunch_patch_on_90 :
    nativeFirmTypeOf 0 0 firm90Hash = 0 ∧
    PatchCall.patchFirmlaunches ∈ patchNativeFirm 0 0 firm90Hash 0 0 2 := by
  decide

/-- C14 as the code has it: `patchNativeFirm` applies the firmlaunch patch
exactly when the NATIVE_FIRM is not the 9.0 one (`nativeFirmType` non-zero) or
`a9lhMode` is 2; on the 9.0 FIRM it is left out for `a9lhMode` 0 and 1 only. -/
theorem patchNativeFirm_firmlaunches (console byte53 : Nat) (hash : List Nat)
    (devMode nandType a9lhMode : Nat) :
    PatchCall.patchFirmlaunches ∈ patchNativeFirm console byte53 hash devMode nandType a9lhMode ↔
      (nativeFirmTypeOf console byte53 hash ≠ 0 ∨ a9lhMode = 2) := by
  unfold patchNativeFirm
  simp only []
  split_ifs <;> simp_all

/-- Counterexample to C15: with the override requested and the file read, an
image whose section-2 load address is `0x60000000` has high byte `0x60`, the
marker of `console = 1`, and is not used; one loaded at `0x08006000` has high
byte `0x08` and is used. -/
theorem high_byte_is_not_the_marker :
    highByte 0x60000000 = 0x60 ∧ externalFirmLoaded 1 1 (some 0x60000000) = false ∧
    loadFirm 1 0 1 (some 0x60000000) =
      [LoadCall.fileRead, LoadCall.firmRead "20000002", LoadCall.decryptExeFs] ∧
    highByte 0x08006000 = 0x08 ∧ externalFirmLoaded 1 1 (some 0x08006000) = true ∧
    loadFirm 1 0 1 (some 0x08006000) = [LoadCall.fileRead] := by
  decide

/-- C15 as the code has it: `loadFirm` uses the external image exactly when the
override was requested, the file was read and bits 8 to 15 of the section-2
load address of the image read equal `0x60` (`console` non-zero) or `0x68`
(`console` zero); then nothing else is called, and in every other case the
image is read from `firmFolders[firmType][console]` and then decrypted.  The
file is read only when the override was requested. -/
theorem loadFirm_external (console firmType externalFirm : Nat) (fileAddress : Option Nat) :
    (externalFirmLoaded console externalFirm fileAddress = true ↔
      externalFirm ≠ 0 ∧ ∃ address, fileAddress = some address ∧
        (address >>> 8) &&& 0xFF = (if console ≠ 0 then 0x60 else 0x68)) ∧
    (externalFirmLoaded console externalFirm fileAddress = true →
      loadFirm console firmType externalFirm fileAddress = [LoadCall.fileRead]) ∧
    (externalFirmLoaded console externalFirm fileAddress = false →
      loadFirm console firmType externalFirm fileAddress =
        (if externalFirm ≠ 0 then [LoadCall.fileRead] else []) ++
          [LoadCall.firmRead (firmFolder firmType console), LoadCall.decryptExeFs]) := by
  refine ⟨?_, ?_, ?_⟩
  · unfold externalFirmLoaded
    cases fileAddress with
    | none => simp
    | some address => simp
  · intro h
    have he : externalFirm ≠ 0 := by
      unfold externalFirmLoaded at h
      intro h0
      simp [h0] at h
    unfold loadFirm
    simp [h, he]
  · intro h
    unfold loadFirm
    simp [h]

/-- Witness of C15: override requested on `console = 1`, image loaded at
`0x08006000`; and the same with no file. -/
theorem loadFirm_external_witness :
    externalFirmLoaded 1 1 (some 0x08006000) = true ∧
    loadFirm 1 0 1 (some 0x08006000) = [LoadCall.fileRead] ∧
    externalFirmLoaded 1 1 none = false ∧
    loadFirm 1 0 1 none =
      (if (1 : Nat) ≠ 0 then [LoadCall.fileRead] else []) ++
        [LoadCall.firmRead (firmFolder 0 1), LoadCall.decryptExeFs] :=
  ⟨by decide, (loadFirm_external 1 0 1 (some 0x08006000)).2.1 (by decide), by decide,
    (loadFirm_external 1 0 1 none).2.2 (by decide)⟩

end Firm
